import Mathlib

/-!
# go-filler: a shallow embedding of `filler.go`

The Go package `filler` walks a type with `reflect` and asks registered
factories for values.  The embedding keeps the shape of the source:

* `Kind`, `Ty`, `Val`, `Value` model the fragment of package `reflect` that
  `filler.go` uses (`Kind`, `Type`, the stored data and `reflect.Value` with
  its addressable / read-only flags);
* factories are closures in Go and may carry state (a random generator, a
  counter), so a factory is a function on an explicit state `σ`;
* a Go panic is the fault `Fault.panic`; the recursion of `fillValue` is
  driven by a fuel counter and `Fault.outOfFuel` is kept apart from a panic.
-/

namespace filler

/-! ## The fragment of package `reflect` used by the filler -/

/-- Kinds of package `reflect`, in the order of `reflect.Kind`. -/
inductive Kind where
  | Invalid | Bool | Int | Int8 | Int16 | Int32 | Int64
  | Uint | Uint8 | Uint16 | Uint32 | Uint64 | Uintptr
  | Float32 | Float64 | Complex64 | Complex128
  | Array | Chan | Func | Interface | Map | Ptr | Slice | String | Struct
  | UnsafePointer
deriving DecidableEq, Repr

/-- Kinds without substructure for the filler: scalars, and the kinds the
`switch` of `fillValue` has no case for. -/
inductive Basic where
  | Bool | Int | Int8 | Int16 | Int32 | Int64
  | Uint | Uint8 | Uint16 | Uint32 | Uint64 | Uintptr
  | Float32 | Float64 | Complex64 | Complex128
  | Chan | Func | Interface | String | UnsafePointer
deriving DecidableEq, Repr

/-- Kind of a basic type. -/
def Basic.Kind : Basic → Kind
  | .Bool => .Bool | .Int => .Int | .Int8 => .Int8 | .Int16 => .Int16
  | .Int32 => .Int32 | .Int64 => .Int64
  | .Uint => .Uint | .Uint8 => .Uint8 | .Uint16 => .Uint16
  | .Uint32 => .Uint32 | .Uint64 => .Uint64 | .Uintptr => .Uintptr
  | .Float32 => .Float32 | .Float64 => .Float64
  | .Complex64 => .Complex64 | .Complex128 => .Complex128
  | .Chan => .Chan | .Func => .Func | .Interface => .Interface
  | .String => .String | .UnsafePointer => .UnsafePointer

/-- Field descriptor, as `reflect.StructField`: `PkgPath` is empty exactly for
an exported field. -/
structure StructField (τ : Type) where
  Name : String
  PkgPath : String
  Typ : τ
deriving Repr

/-- Type descriptors, as `reflect.Type`, for finite types that do not refer to
themselves.  Every type carries `PkgPath()` and `Name()`; both are empty for an
unnamed composite type, and a predeclared type such as `int` has the name
`"int"` and an empty package path. -/
inductive Ty where
  | basic (pkgPath name : String) (b : Basic)
  | ptr (pkgPath name : String) (elem : Ty)
  | array (pkgPath name : String) (len : Nat) (elem : Ty)
  | slice (pkgPath name : String) (elem : Ty)
  | map (pkgPath name : String) (key elem : Ty)
  | struct (pkgPath name : String) (fields : List (StructField Ty))
deriving Repr

/-- Data stored at a position.  Integers of every width are mathematical
integers; floating point and complex numbers are kept as bit patterns; `nil`
is the nil pointer, slice, map, interface, channel or function. -/
inductive Val where
  | bool (b : Bool)
  | int (i : Int)
  | float (bits : Nat)
  | complex (re im : Nat)
  | str (s : String)
  | nil
  | ptr (pointee : Val)
  | array (elems : List Val)
  | slice (elems : List Val) (cap : Nat)
  | map (entries : List (Val × Val))
  | struct (fields : List Val)
deriving Repr

/-- Package path of a type: `typ.PkgPath()`. -/
def Ty.PkgPath : Ty → String
  | .basic p _ _ => p
  | .ptr p _ _ => p
  | .array p _ _ _ => p
  | .slice p _ _ => p
  | .map p _ _ _ => p
  | .struct p _ _ => p

/-- Name of a type: `typ.Name()`. -/
def Ty.Name : Ty → String
  | .basic _ n _ => n
  | .ptr _ n _ => n
  | .array _ n _ _ => n
  | .slice _ n _ => n
  | .map _ n _ _ => n
  | .struct _ n _ => n

/-- Kind of a type: `typ.Kind()`.  It is never `Invalid`. -/
def Ty.Kind : Ty → Kind
  | .basic _ _ b => b.Kind
  | .ptr _ _ _ => .Ptr
  | .array _ _ _ _ => .Array
  | .slice _ _ _ => .Slice
  | .map _ _ _ _ => .Map
  | .struct _ _ _ => .Struct

mutual
/-- Zero value of a type: the contents of `reflect.New(t).Elem()`. -/
def zero : Ty → Val
  | .basic _ _ b =>
    match b with
    | .Bool => .bool false
    | .Float32 => .float 0
    | .Float64 => .float 0
    | .Complex64 => .complex 0 0
    | .Complex128 => .complex 0 0
    | .String => .str ""
    | .Chan => .nil
    | .Func => .nil
    | .Interface => .nil
    | .UnsafePointer => .nil
    | _ => .int 0
  | .ptr _ _ _ => .nil
  | .array _ _ n t => .array (List.replicate n (zero t))
  | .slice _ _ _ => .nil
  | .map _ _ _ _ => .nil
  | .struct _ _ fs => .struct (zeroFields fs)
/-- Zero values of the fields of a struct type, in declaration order. -/
def zeroFields : List (StructField Ty) → List Val
  | [] => []
  | f :: fs => zero f.Typ :: zeroFields fs
end

mutual
/-- Nesting depth of a type: the longest chain of element, pointee or field
types below it, counting the type itself. -/
def Ty.depth : Ty → Nat
  | .basic _ _ _ => 1
  | .ptr _ _ t => t.depth + 1
  | .array _ _ _ t => t.depth + 1
  | .slice _ _ t => t.depth + 1
  | .map _ _ k t => max k.depth t.depth + 1
  | .struct _ _ fs => depthFields fs + 1
/-- Largest depth among the field types of a struct. -/
def depthFields : List (StructField Ty) → Nat
  | [] => 0
  | f :: fs => max f.Typ.depth (depthFields fs)
end

mutual
/-- Identity of two type descriptors. -/
def Ty.beq : Ty → Ty → Bool
  | .basic p n b, .basic p' n' b' => p == p' && n == n' && decide (b = b')
  | .ptr p n t, .ptr p' n' t' => p == p' && n == n' && Ty.beq t t'
  | .array p n l t, .array p' n' l' t' => p == p' && n == n' && l == l' && Ty.beq t t'
  | .slice p n t, .slice p' n' t' => p == p' && n == n' && Ty.beq t t'
  | .map p n k t, .map p' n' k' t' => p == p' && n == n' && Ty.beq k k' && Ty.beq t t'
  | .struct p n fs, .struct p' n' fs' => p == p' && n == n' && beqFields fs fs'
  | _, _ => false
/-- Identity of two field lists: same names, package paths and types. -/
def beqFields : List (StructField Ty) → List (StructField Ty) → Bool
  | [], [] => true
  | f :: fs, f' :: fs' =>
    f.Name == f'.Name && f.PkgPath == f'.PkgPath && Ty.beq f.Typ f'.Typ && beqFields fs fs'
  | _, _ => false
end

/-- Width and signedness of the integer kinds (`int`, `uint` and `uintptr` are
64 bits wide). -/
def intBits : Basic → Option (Bool × Nat)
  | .Int => some (true, 64) | .Int8 => some (true, 8) | .Int16 => some (true, 16)
  | .Int32 => some (true, 32) | .Int64 => some (true, 64)
  | .Uint => some (false, 64) | .Uint8 => some (false, 8) | .Uint16 => some (false, 16)
  | .Uint32 => some (false, 32) | .Uint64 => some (false, 64) | .Uintptr => some (false, 64)
  | _ => none

/-- Truncation of an integer to a width, as a Go integer conversion does. -/
def wrapInt (signed : Bool) (w : Nat) (i : Int) : Int :=
  if signed then (i + 2 ^ (w - 1)) % 2 ^ w - 2 ^ (w - 1) else i % 2 ^ w

/-- Value held in an `interface{}`: `none` is the nil interface, otherwise the
dynamic type and the data. -/
abbrev Interface := Option (Ty × Val)

/-- A `reflect.Value`: its type, the data at the position it denotes, and the
two flags that decide `CanSet`. -/
structure Value where
  typ : Ty
  v : Val
  flagAddr : Bool
  flagRO : Bool
deriving Repr

/-- Result of `reflect.ValueOf(obj)`: `none` is the zero `Value` (kind
`Invalid`), obtained from a nil interface. -/
def ValueOf (obj : Interface) : Option Value :=
  match obj with
  | none => none
  | some (t, v) => some ⟨t, v, false, false⟩

/-- Settability: `val.CanSet()` is addressable and not read-only. -/
def Value.CanSet (val : Value) : Bool := val.flagAddr && !val.flagRO

/-- Kind of a value: `val.Kind()`. -/
def Value.Kind (val : Value) : Kind := val.typ.Kind

/-- Kind of a possibly zero `Value`: `Invalid` for the zero `Value`. -/
def gotKind (got : Option Value) : Kind :=
  match got with
  | none => .Invalid
  | some val => val.Kind

/-- Nil test: `val.IsNil()` on a pointer, slice or map position. -/
def Value.IsNil (val : Value) : Bool :=
  match val.v with
  | .nil => true
  | _ => false

/-- Nil test of a possibly zero `Value`; the source calls it only behind a
`Kind() == reflect.Ptr` test, where the `Value` is not the zero `Value`. -/
def gotIsNil (got : Option Value) : Bool :=
  match got with
  | none => true
  | some val => val.IsNil

/-- Assignment: `val.Set(x)` stores the data of `x` at the position of `val`.
On every call path of the filler `x` has the type of `val`. -/
def Value.Set (val : Value) (x : Value) : Value := { val with v := x.v }

/-- Allocation: `reflect.New(t)` is a pointer to a fresh zero value of `t`. -/
def New (t : Ty) : Value := ⟨.ptr "" "" t, .ptr (zero t), false, false⟩

/-- Dereference: `val.Elem()` of a non-nil pointer is addressable and inherits
the read-only flag; `none` stands for the panic on other values. -/
def Value.Elem (val : Value) : Option Value :=
  match val.typ, val.v with
  | .ptr _ _ t, .ptr p => some ⟨t, p, true, val.flagRO⟩
  | _, _ => none

/-- Element `x` of an array `val`, as `val.Index(i)`: it inherits both flags. -/
def Value.IndexArray (val : Value) (elem : Ty) (x : Val) : Value :=
  ⟨elem, x, val.flagAddr, val.flagRO⟩

/-- Element `x` of a slice `val`, as `val.Index(i)`: always addressable, it
inherits the read-only flag. -/
def Value.IndexSlice (val : Value) (elem : Ty) (x : Val) : Value :=
  ⟨elem, x, true, val.flagRO⟩

/-- Stored value `x` of a map `val`, as `val.MapIndex(key)`: a copy that is
never addressable. -/
def Value.MapIndex (val : Value) (elem : Ty) (x : Val) : Value :=
  ⟨elem, x, false, val.flagRO⟩

/-- Field of the fresh struct `reflect.New(t).Elem()`, as `v.Field(i)`:
addressable, and read-only exactly when the field is unexported. -/
def Field (fld : StructField Ty) : Value :=
  ⟨fld.Typ, zero fld.Typ, true, fld.PkgPath != ""⟩

mutual
/-- Well-typed data: `hasType t v` holds when `v` is data a position of type
`t` can hold.  Channels, functions, interfaces and unsafe pointers are not
modelled further and accept any data. -/
def hasType : Ty → Val → Bool
  | .basic _ _ b, v =>
    match b, v with
    | .Bool, .bool _ => true
    | .Int, .int _ => true
    | .Int8, .int _ => true
    | .Int16, .int _ => true
    | .Int32, .int _ => true
    | .Int64, .int _ => true
    | .Uint, .int _ => true
    | .Uint8, .int _ => true
    | .Uint16, .int _ => true
    | .Uint32, .int _ => true
    | .Uint64, .int _ => true
    | .Uintptr, .int _ => true
    | .Float32, .float _ => true
    | .Float64, .float _ => true
    | .Complex64, .complex _ _ => true
    | .Complex128, .complex _ _ => true
    | .String, .str _ => true
    | .Chan, _ => true
    | .Func, _ => true
    | .Interface, _ => true
    | .UnsafePointer, _ => true
    | _, _ => false
  | .ptr _ _ t, v =>
    match v with
    | .nil => true
    | .ptr p => hasType t p
    | _ => false
  | .array _ _ n t, v =>
    match v with
    | .array elems => elems.length == n && elems.all (hasType t)
    | _ => false
  | .slice _ _ t, v =>
    match v with
    | .nil => true
    | .slice elems cap => decide (elems.length ≤ cap) && elems.all (hasType t)
    | _ => false
  | .map _ _ k t, v =>
    match v with
    | .nil => true
    | .map entries => entries.all (fun kv => hasType k kv.1 && hasType t kv.2)
    | _ => false
  | .struct _ _ fs, v =>
    match v with
    | .struct vals => hasTypeFields fs vals
    | _ => false
/-- Well-typed field data of a struct, field by field. -/
def hasTypeFields : List (StructField Ty) → List Val → Bool
  | [], vs => vs.isEmpty
  | f :: fs, vs =>
    match vs with
    | [] => false
    | v :: rest => hasType f.Typ v && hasTypeFields fs rest
end

/-- Types with identical underlying types: the names of the two types are
ignored, everything below them must be identical.  The values of such types
convert into each other unchanged. -/
def directlyConvertible (src dst : Ty) : Bool :=
  match src, dst with
  | .basic p n b, .basic p' n' b' =>
    match b with
    | .Chan => Ty.beq (.basic p n b) (.basic p' n' b')
    | .Func => Ty.beq (.basic p n b) (.basic p' n' b')
    | .Interface => Ty.beq (.basic p n b) (.basic p' n' b')
    | .UnsafePointer => Ty.beq (.basic p n b) (.basic p' n' b')
    | _ => decide (b = b')
  | .ptr _ _ t, .ptr _ _ t' => Ty.beq t t'
  | .array _ _ l t, .array _ _ l' t' => l == l' && Ty.beq t t'
  | .slice _ _ t, .slice _ _ t' => Ty.beq t t'
  | .map _ _ k t, .map _ _ k' t' => Ty.beq k k' && Ty.beq t t'
  | .struct _ _ fs, .struct _ _ fs' => beqFields fs fs'
  | _, _ => false

/-- Conversion: `got.Convert(typ)`, on the fragment of Go conversions between
types with identical underlying types (data unchanged) and between integer
kinds (truncation).  `none` is the panic: on the zero `Value`, and on a pair of
types outside this fragment. -/
def Convert (got : Option Value) (typ : Ty) : Option Value :=
  match got with
  | none => none
  | some val =>
    if directlyConvertible val.typ typ then some ⟨typ, val.v, false, val.flagRO⟩
    else
      match val.typ, typ, val.v with
      | .basic _ _ b, .basic _ _ b', .int i =>
        match intBits b, intBits b' with
        | some _, some (sg, w) => some ⟨typ, .int (wrapInt sg w i), false, val.flagRO⟩
        | _, _ => none
      | _, _, _ => none

/-! ## `filler.go` -/

/-- Faults of a run: a Go panic, or the fuel of the embedding running out. -/
inductive Fault where
  | panic
  | outOfFuel
deriving DecidableEq, Repr

/-- Outcome of a factory, as `FactoryState`. -/
inductive FactoryState where
  | None
  | Init
  | Done
deriving DecidableEq, Repr

/-- A factory, as `Factory`: a closure over state `σ` that returns an object
and an outcome. -/
abbrev Factory (σ : Type) := σ → (Interface × FactoryState) × σ

/-- A typed factory, as `TypedFactory`: it also receives the type. -/
abbrev TypedFactory (σ : Type) := Ty → σ → (Interface × FactoryState) × σ

/-- Entries of the slice `g.types`: the method values `g.genName` and
`g.genKind`, which read the tables of `g` when they are called, and the
factories given to `RegisterFunc`. -/
inductive Gen (σ : Type) where
  | genName
  | genKind
  | func (con : TypedFactory σ)

/-- A field filter, as the function type of `Filler.FieldFilter`: it is handed
the struct type, the field descriptor and the `reflect.Value` of the field of
the fresh struct.  Like a factory it is a closure and may change the state.
It returns its verdict and what it stored through the value it was handed:
`none` when it stored nothing, `some x` when the last thing it stored there
with `Set` is `x`. -/
abbrev Filter (σ : Type) := Ty → StructField Ty → Value → σ → (Bool × Option Val) × σ

/-- The filler, as `Filler`: a nil Go map is `none`, `initOnce` records whether
the `sync.Once` has fired, a nil `FieldFilter` is `none`. -/
structure Filler (σ : Type) where
  names : Option (String → Option (Factory σ))
  kinds : Option (Kind → Option (Factory σ))
  types : List (Gen σ)
  initOnce : Bool
  FieldFilter : Option (Filter σ)

/-- The zero value `&Filler{}`. -/
def Filler.empty (σ : Type) : Filler σ :=
  { names := none, kinds := none, types := [], initOnce := false, FieldFilter := none }

/-- Registry key of a type identity, as `fullName`. -/
def fullName (pkgPath typeName : String) : String :=
  if typeName != "" then
    if pkgPath == "" then typeName
    else pkgPath ++ "." ++ typeName
  else ""

/-- Lazy construction of the tables, as `init`: the body runs once. -/
def Filler.init {σ : Type} (g : Filler σ) : Filler σ :=
  if g.initOnce then g
  else { g with
    names := some (fun _ => none)
    kinds := some (fun _ => none)
    types := [Gen.genName, Gen.genKind]
    initOnce := true }

/-- Map assignment `m[k] = x` on a Go map; assigning into a nil map panics,
which `init` rules out before every use. -/
def mapSet {κ α : Type} [DecidableEq κ] (m : Option (κ → Option α)) (k : κ) (x : α) :
    Option (κ → Option α) :=
  match m with
  | none => none
  | some f => some (fun k' => if k' = k then some x else f k')

/-- Binding of a factory to a type identity, as `RegisterName`. -/
def Filler.RegisterName {σ : Type} (g : Filler σ) (pkgPath typeName : String)
    (con : Factory σ) : Filler σ :=
  let g1 := g.init
  { g1 with names := mapSet g1.names (fullName pkgPath typeName) con }

/-- Binding of a factory to a kind, as `RegisterKind`. -/
def Filler.RegisterKind {σ : Type} (g : Filler σ) (kind : Kind) (con : Factory σ) :
    Filler σ :=
  let g1 := g.init
  { g1 with kinds := mapSet g1.kinds kind con }

/-- Registration of a typed factory, as `RegisterFunc`: appended at the end. -/
def Filler.RegisterFunc {σ : Type} (g : Filler σ) (con : TypedFactory σ) : Filler σ :=
  let g1 := g.init
  { g1 with types := g1.types ++ [Gen.func con] }

/-- Lookup by type identity, as `genName`. -/
def Filler.genName {σ : Type} (g : Filler σ) (typ : Ty) : σ → (Interface × FactoryState) × σ :=
  fun s =>
    let typeName := fullName typ.PkgPath typ.Name
    if typeName == "" then ((none, .None), s)
    else
      match g.names with
      | none => ((none, .None), s)
      | some names =>
        match names typeName with
        | none => ((none, .None), s)
        | some con => con s

/-- Lookup by kind, as `genKind`. -/
def Filler.genKind {σ : Type} (g : Filler σ) (typ : Ty) : σ → (Interface × FactoryState) × σ :=
  fun s =>
    let kind := typ.Kind
    if kind = Kind.Invalid then ((none, .None), s)
    else
      match g.kinds with
      | none => ((none, .None), s)
      | some kinds =>
        match kinds kind with
        | none => ((none, .None), s)
        | some con => con s

/-- Call of one entry of `g.types` on a type. -/
def Filler.runGen {σ : Type} (g : Filler σ) (gen : Gen σ) (typ : Ty) :
    σ → (Interface × FactoryState) × σ :=
  match gen with
  | .genName => g.genName typ
  | .genKind => g.genKind typ
  | .func con => con typ

/-- The loop of `genType` over a list of entries: the first outcome that is
not `None` is returned, and `(nil, None)` when there is none. -/
def Filler.genTypeLoop {σ : Type} (g : Filler σ) (typ : Ty) :
    List (Gen σ) → σ → (Interface × FactoryState) × σ
  | [], s => ((none, .None), s)
  | gen :: rest, s =>
    match g.runGen gen typ s with
    | ((obj, state), s1) =>
      if state ≠ .None then ((obj, state), s1)
      else g.genTypeLoop typ rest s1

/-- Resolution of a factory for a type, as `genType`. -/
def Filler.genType {σ : Type} (g : Filler σ) (typ : Ty) : σ → (Interface × FactoryState) × σ :=
  g.genTypeLoop typ g.types

/-- Result of a run: a value, or a fault. -/
abbrev Res (α : Type) := Except Fault α

/-- The loop `for i := 0; i < val.Len(); i++ { g.fillType(val.Index(i)) }`:
`fill` is applied to the elements in index order, `index` builds the
`reflect.Value` of an element, and each element is replaced by what `fill`
leaves at its position. -/
def loopIndex {σ : Type} (fill : Value → σ → Res (Val × σ)) (index : Val → Value) :
    List Val → σ → Res (List Val × σ)
  | [], s => .ok ([], s)
  | x :: xs, s =>
    match fill (index x) s with
    | .error e => .error e
    | .ok (x1, s1) =>
      match loopIndex fill index xs s1 with
      | .error e => .error e
      | .ok (xs1, s2) => .ok (x1 :: xs1, s2)

/-- The loop `for _, key := range val.MapKeys() { g.fillValue(v, val.MapIndex(key)) }`
over the entries of a map: `fill` is applied to the `reflect.Value` that
`MapIndex` returns for each key, and what it leaves there is not written back
to the map (`MapIndex` returns a copy, and the loop has no `SetMapIndex`). -/
def loopMap {σ : Type} (fill : Value → σ → Res (Val × σ)) (mapIndex : Val → Value) :
    List (Val × Val) → σ → Res σ
  | [], s => .ok s
  | (_, x) :: rest, s =>
    match fill (mapIndex x) s with
    | .error e => .error e
    | .ok (_, s1) => loopMap fill mapIndex rest s1

/-- The test `g.FieldFilter == nil || g.FieldFilter(typ, typ.Field(i), v.Field(i))`
on a field of the fresh struct `v`: the verdict, the field as the filter left
it, and the state.  Without a filter the field is accepted as it is.  A store
by the filter goes through `Set` on `v.Field(i)`, which panics when the field
is not settable (an unexported field) or the data is not of the field's type. -/
def filterField {σ : Type} (filter : Option (Filter σ)) (typ : Ty) (fld : StructField Ty)
    (s : σ) : Res ((Bool × Value) × σ) :=
  match filter with
  | none => .ok ((true, Field fld), s)
  | some ff =>
    match ff typ fld (Field fld) s with
    | ((accept, none), s0) => .ok ((accept, Field fld), s0)
    | ((accept, some x), s0) =>
      if (Field fld).CanSet && hasType fld.Typ x then
        .ok ((accept, (Field fld).Set ⟨fld.Typ, x, false, false⟩), s0)
      else .error .panic

/-- The loop over the fields of a struct type `typ`: the field filter, when
there is one, is asked about the field of the fresh struct, and an accepted
field is filled; a rejected field keeps what the fresh struct holds there, the
zero value unless the filter stored something. -/
def loopFields {σ : Type} (filter : Option (Filter σ))
    (fill : Value → σ → Res (Val × σ)) (typ : Ty) :
    List (StructField Ty) → σ → Res (List Val × σ)
  | [], s => .ok ([], s)
  | fld :: rest, s =>
    match filterField filter typ fld s with
    | .error e => .error e
    | .ok ((accept, fv), s0) =>
      let filled : Res (Val × σ) :=
        if accept then fill fv s0
        else .ok (fv.v, s0)
      match filled with
      | .error e => .error e
      | .ok (x1, s1) =>
        match loopFields filter fill typ rest s1 with
        | .error e => .error e
        | .ok (xs1, s2) => .ok (x1 :: xs1, s2)

/-- The assignment step of `fillValue` (the `if state != None` block): the
produced object is converted and stored unless it is a nil pointer or the
target is a nil pointer; a failing `Convert` panics. -/
def assignStep (typ : Ty) (val : Value) (obj : Interface) (state : FactoryState) :
    Res Value :=
  if state ≠ .None then
    let got := ValueOf obj
    if (gotKind got != Kind.Ptr || !gotIsNil got) && (val.Kind != Kind.Ptr || !val.IsNil) then
      match Convert got typ with
      | none => .error .panic
      | some con => .ok (val.Set con)
    else .ok val
  else .ok val

/-- The `switch typ.Kind()` block of `fillValue`, run on the target `val` after
the assignment step: `fill` is the recursive call `g.fillValue` and `filter`
is `g.FieldFilter`.  It returns the data left at the position of `val`. -/
def kindSwitch {σ : Type} (filter : Option (Filter σ))
    (fill : Ty → Value → σ → Res (Val × σ)) (typ : Ty) (val : Value) (s : σ) :
    Res (Val × σ) :=
  match typ with
  | .ptr _ _ t =>
    let val2 := val.Set (New t)
    if !val2.IsNil then
      match val2.Elem with
      | none => .error .panic
      | some e =>
        match fill e.typ e s with
        | .error err => .error err
        | .ok (p, s2) => .ok (.ptr p, s2)
    else .ok (val2.v, s)
  | .array _ _ _ t =>
    match val.v with
    | .array elems =>
      match loopIndex (fun x => fill x.typ x) (val.IndexArray t) elems s with
      | .error err => .error err
      | .ok (elems1, s2) => .ok (.array elems1, s2)
    | _ => .error .panic
  | .slice _ _ t =>
    if !val.IsNil then
      match val.v with
      | .slice elems cap =>
        match loopIndex (fun x => fill x.typ x) (val.IndexSlice t) elems s with
        | .error err => .error err
        | .ok (elems1, s2) => .ok (.slice elems1 cap, s2)
      | _ => .error .panic
    else .ok (val.v, s)
  | .map _ _ _ t =>
    if !val.IsNil then
      match val.v with
      | .map entries =>
        match loopMap (fun x => fill t x) (val.MapIndex t) entries s with
        | .error err => .error err
        | .ok s2 => .ok (val.v, s2)
      | _ => .error .panic
    else .ok (val.v, s)
  | .struct _ _ fields =>
    match loopFields filter (fun x => fill x.typ x) typ fields s with
    | .error err => .error err
    | .ok (fields1, s2) => .ok (.struct fields1, s2)
  | .basic _ _ _ => .ok (val.v, s)

/-- The recursive filler, as `fillValue`: it returns the data left at the
position of `val` and the state of the factories.  A recursive call uses one
unit of fuel; `fillType(x)` is `fillValue(x.Type(), x)`. -/
def fillValue {σ : Type} (g : Filler σ) : Nat → Ty → Value → σ → Res (Val × σ)
  | fuel, typ, val, s =>
    if !val.CanSet then .ok (val.v, s)
    else
      match fuel with
      | 0 => .error .outOfFuel
      | fuel + 1 =>
        match g.genType typ s with
        | ((obj, state), s1) =>
          match assignStep typ val obj state with
          | .error e => .error e
          | .ok val1 =>
            if state = .Done then .ok (val1.v, s1)
            else kindSwitch g.FieldFilter (fillValue g fuel) typ val1 s1

/-- Filling of a value by its own type, as `fillType`. -/
def fillType {σ : Type} (g : Filler σ) (fuel : Nat) (val : Value) : σ → Res (Val × σ) :=
  fillValue g fuel val.typ val

/-- Construct-and-fill, as `Make`: `reflect.New(typ).Elem()` is a settable
zero value; the data left there is returned. -/
def Make {σ : Type} (g : Filler σ) (fuel : Nat) (typ : Ty) : σ → Res (Val × σ) :=
  fun s =>
    match (New typ).Elem with
    | none => .error .panic
    | some objVal => fillValue g fuel typ objVal s

/-- Fill-in-place, as `Fill`: `reflect.ValueOf(object).Elem()` is the position
the pointer `object` refers to; the data left there is returned.  `Elem` on an
object that is not a pointer panics, and so does `Type()` on the zero `Value`
that `Elem` gives for a nil pointer. -/
def Fill {σ : Type} (g : Filler σ) (fuel : Nat) (object : Interface) : σ → Res (Val × σ) :=
  fun s =>
    match ValueOf object with
    | none => .error .panic
    | some o =>
      match o.Elem with
      | none => .error .panic
      | some objVal => fillType g fuel objVal s

/-! ## Registry states and the resolution order of the specification -/

/-- Registry states a caller can reach: the tables are unexported, so a filler
starts as the zero value and changes only through the three registration
methods and assignments to the exported `FieldFilter`. -/
inductive Reachable {σ : Type} : Filler σ → Prop where
  | empty : Reachable (Filler.empty σ)
  | registerName (g : Filler σ) (pkgPath typeName : String) (con : Factory σ) :
      Reachable g → Reachable (g.RegisterName pkgPath typeName con)
  | registerKind (g : Filler σ) (kind : Kind) (con : Factory σ) :
      Reachable g → Reachable (g.RegisterKind kind con)
  | registerFunc (g : Filler σ) (con : TypedFactory σ) :
      Reachable g → Reachable (g.RegisterFunc con)
  | setFieldFilter (g : Filler σ) (ff : Option (Filter σ)) :
      Reachable g → Reachable { g with FieldFilter := ff }

/-- Shape of the tables of a filler: untouched before `init` has run, and
afterwards two tables and a sequence that starts with `genName`, `genKind`
and continues with registered typed factories only. -/
def Filler.Inv {σ : Type} (g : Filler σ) : Prop :=
  (g.initOnce = false ∧ g.names = none ∧ g.kinds = none ∧ g.types = []) ∨
  (g.initOnce = true ∧ (∃ m, g.names = some m) ∧ (∃ k, g.kinds = some k) ∧
    ∃ fs : List (TypedFactory σ), g.types = Gen.genName :: Gen.genKind :: fs.map Gen.func)

/-- Factory bound to a type identity, if any. -/
def Filler.nameBinding {σ : Type} (g : Filler σ) (key : String) : Option (Factory σ) :=
  match g.names with
  | none => none
  | some m => m key

/-- Factory bound to a kind, if any. -/
def Filler.kindBinding {σ : Type} (g : Filler σ) (kind : Kind) : Option (Factory σ) :=
  match g.kinds with
  | none => none
  | some m => m kind

/-- Typed factory of an entry of `g.types`, when it is a registered one. -/
def Gen.registered {σ : Type} : Gen σ → Option (TypedFactory σ)
  | .func con => some con
  | _ => none

/-- The typed factories given to `RegisterFunc`, in registration order. -/
def Filler.funcs {σ : Type} (g : Filler σ) : List (TypedFactory σ) :=
  g.types.filterMap Gen.registered

/-- First tier of the specified resolution: the factory bound to the full name
of the type, consulted only when that name is not empty. -/
def nameTier {σ : Type} (g : Filler σ) (typ : Ty) : List (Factory σ) :=
  if fullName typ.PkgPath typ.Name = "" then []
  else (g.nameBinding (fullName typ.PkgPath typ.Name)).toList

/-- Second tier of the specified resolution: the factory bound to the kind. -/
def kindTier {σ : Type} (g : Filler σ) (typ : Ty) : List (Factory σ) :=
  (g.kindBinding typ.Kind).toList

/-- Third tier of the specified resolution: the typed factories in
registration order, applied to the type. -/
def funcTier {σ : Type} (g : Filler σ) (typ : Ty) : List (Factory σ) :=
  g.funcs.map (fun con => con typ)

/-- The candidates of the specified resolution, in their fixed order. -/
def candidates {σ : Type} (g : Filler σ) (typ : Ty) : List (Factory σ) :=
  nameTier g typ ++ kindTier g typ ++ funcTier g typ

/-- The first outcome that is not `None` among candidates called in order,
and `(nil, None)` when every candidate yields `None`. -/
def firstOutcome {σ : Type} : List (Factory σ) → σ → (Interface × FactoryState) × σ
  | [], s => ((none, .None), s)
  | con :: rest, s =>
    match con s with
    | ((obj, state), s1) =>
      if state ≠ .None then ((obj, state), s1)
      else firstOutcome rest s1

/-! ## Example types and factories -/

/-- The predeclared type `string`. -/
def tString : Ty := .basic "" "string" .String

/-- The predeclared type `int`. -/
def tInt : Ty := .basic "" "int" .Int

/-- The named string type `bson.ObjectId` of the test. -/
def tObjectId : Ty := .basic "gopkg.in/mgo.v2/bson" "ObjectId" .String

/-- A counting factory: it returns the string `x` as an object of type `t` with
outcome `st`, and counts its calls in the state. -/
def strFactory (t : Ty) (x : String) (st : FactoryState) : Factory Nat :=
  fun n => ((some (t, .str x), st), n + 1)

/-- A filler with a factory at each tier for `bson.ObjectId`: by name, by the
kind `String`, and a typed factory that answers for every type. -/
def threeTierFiller : Filler Nat :=
  (((Filler.empty Nat).RegisterFunc (fun t => strFactory t "func" .Done)).RegisterKind
    Kind.String (strFactory tString "kind" .Done)).RegisterName
    "gopkg.in/mgo.v2/bson" "ObjectId" (strFactory tObjectId "name" .Done)

/-- The pointer type `*string`. -/
def tPtrString : Ty := .ptr "" "" tString

/-- A struct type with two exported string fields. -/
def tPair : Ty := .struct "" "" [⟨"A", "", tString⟩, ⟨"B", "", tString⟩]

/-- The map type `map[string]string`. -/
def tMap : Ty := .map "" "" tString tString

/-- A settable position of type `t` holding `x`, as the position behind a
pointer handed to `Fill`. -/
def settable (t : Ty) (x : Val) : Value := ⟨t, x, true, false⟩

/-- A counting factory that returns a fixed object and outcome. -/
def objFactory (obj : Interface) (st : FactoryState) : Factory Nat :=
  fun n => ((obj, st), n + 1)

/-- A filler whose `Ptr` kind factory returns a non-nil `*string` with `Done`. -/
def ptrDoneFiller : Filler Nat :=
  (Filler.empty Nat).RegisterKind Kind.Ptr
    (objFactory (some (tPtrString, .ptr (.str "x"))) .Done)

/-- A filler whose `String` kind factory returns `"x"` with `Done`. -/
def stringFiller : Filler Nat :=
  (Filler.empty Nat).RegisterKind Kind.String (strFactory tString "x" .Done)

/-- A filler as `stringFiller` whose `Struct` kind factory also returns `obj`
with outcome `st`. -/
def structFiller (obj : Interface) (st : FactoryState) : Filler Nat :=
  stringFiller.RegisterKind Kind.Struct (objFactory obj st)

/-- A field filter that rejects the field named `B` and accepts the others. -/
def rejectB : Filter Nat :=
  fun _ fld _ n => ((fld.Name != "B", none), n)

/-- A field filter that stores the string `w` in the field named `B` and
rejects it, and accepts the other fields as they are. -/
def storeB : Filter Nat :=
  fun _ fld _ n => if fld.Name = "B" then ((false, some (.str "w")), n) else ((true, none), n)

/-- A filler as `stringFiller` with the field filter `storeB` installed. -/
def storingFiller : Filler Nat :=
  { stringFiller with FieldFilter := some storeB }

/-- A filler as `structFiller` with the field filter `rejectB` installed. -/
def filteredFiller (obj : Interface) (st : FactoryState) : Filler Nat :=
  { structFiller obj st with FieldFilter := some rejectB }

/-- A `Struct` kind factory whose outcome depends on the state: `Init` with a
struct on the first call, `None` afterwards; it leaves the same state behind. -/
def initOnceFactory : Factory Nat :=
  fun n =>
    if n = 0 then ((some (tPair, .struct [.str "i", .str "j"]), .Init), 1)
    else ((none, .None), 1)

/-- A filler with `initOnceFactory` for structs and `"x"` for strings. -/
def initOnceFiller : Filler Nat :=
  stringFiller.RegisterKind Kind.Struct initOnceFactory

/-- The named struct type `main.Pair` with two exported string fields. -/
def tNamedPair : Ty := .struct "main" "Pair" [⟨"A", "", tString⟩, ⟨"B", "", tString⟩]

/-- A filler as `stringFiller` with a factory bound to the name `main.Pair`
that returns the pair `(a, b)` with `Done`. -/
def namedPairFiller : Filler Nat :=
  stringFiller.RegisterName "main" "Pair"
    (objFactory (some (tNamedPair, .struct [.str "a", .str "b"])) .Done)

/-- The slice type `[]int`. -/
def tSliceInt : Ty := .slice "" "" tInt

/-- A stateful factory with outcome `Done`: on each call it returns the value
`produce` reads off the state, as an object of type `t`, and moves the state
on by `step`. -/
def doneFactory {σ : Type} (t : Ty) (produce : σ → Val) (step : σ → σ) : Factory σ :=
  fun st => ((some (t, produce st), .Done), step st)

/-- The first `n` values of successive calls of a stateful factory from the
state `s`: the `i`-th is produced in the state after `i` steps. -/
def successive {σ : Type} (produce : σ → Val) (step : σ → σ) : Nat → σ → List Val
  | 0, _ => []
  | n + 1, s => produce s :: successive produce step n (step s)

/-- A filler for `[]int` as in the slice scenario: a typed factory that
allocates a slice of `n` zero elements for slice types with `Init`, and an
`Int` kind factory that counts its calls and returns `c` with `Done`. -/
def sliceScenarioFiller (n : Nat) (c : Int) : Filler Nat :=
  ((Filler.empty Nat).RegisterFunc (fun t st =>
      match t with
      | .slice _ _ elem => ((some (t, .slice (List.replicate n (zero elem)) n), .Init), st)
      | _ => ((none, .None), st))).RegisterKind Kind.Int
    (objFactory (some (tInt, .int c)) .Done)

mutual
/-- Modelled from the spec: the kind-default result at a settable position of
type `t` that holds `v`, when no factory answers.  A pointer becomes a non-nil
pointer to the default of a zero pointee; the elements of an array and of a
non-nil slice become their defaults; a nil slice and a map, nil or not, stay
as they are; a struct is rebuilt field by field; a scalar keeps its value. -/
def defaultValue : Ty → Val → Val
  | .basic _ _ _, v => v
  | .ptr _ _ t, _ => .ptr (defaultValue t (zero t))
  | .array _ _ _ t, v =>
    match v with
    | .array elems => .array (elems.map (defaultValue t))
    | _ => v
  | .slice _ _ t, v =>
    match v with
    | .slice elems cap => .slice (elems.map (defaultValue t)) cap
    | _ => v
  | .map _ _ _ _, v => v
  | .struct _ _ fs, _ => .struct (defaultFields fs)
/-- Modelled from the spec: the fields of a struct rebuilt by default, in
declaration order.  An exported field holds the default of its zero value; an
unexported field cannot be set and holds its zero value. -/
def defaultFields : List (StructField Ty) → List Val
  | [] => []
  | f :: fs =>
    (if f.PkgPath == "" then defaultValue f.Typ (zero f.Typ) else zero f.Typ) ::
      defaultFields fs
end

/-- The type `Node` of `type Node struct { Next *Node }`, unrolled `k` times:
`leaf` stands for the occurrences of `Node` below the `k`-th pointer. -/
def nodeUnroll (leaf : Ty) : Nat → Ty
  | 0 => leaf
  | k + 1 => .struct "main" "Node" [⟨"Next", "", .ptr "" "" (nodeUnroll leaf k)⟩]

/-- A struct type with a pointer field, an array field, a slice field, a map
field and an unexported pointer field. -/
def tSample : Ty :=
  .struct "main" "Sample"
    [⟨"P", "", tPtrString⟩, ⟨"A", "", .array "" "" 2 tInt⟩, ⟨"S", "", tSliceInt⟩,
     ⟨"M", "", tMap⟩, ⟨"q", "main", tPtrString⟩]

/-! ## `random_seed.go` and `random_filler.go` -/

/-- State of the sources the random factories read: the outputs of the
generator `seed.Random` in the order they are drawn and how many have been
drawn, the bytes of `crypto/rand` and how many have been read, whether the
read that starts at a given byte fails, and the first fault raised inside a
factory (a factory has no fault channel of its own, so a panic inside one is
recorded here and the values computed after it are meaningless). -/
structure RandState where
  draws : Nat → Nat
  pos : Nat
  entropy : Nat → Nat
  epos : Nat
  readErr : Nat → Bool
  fault : Option Fault

/-- Parameters of the random factories, as `RandomSeed`.  The field `NilRate`
is a `float64` in the source and is used only through `nilRateDenom()`, the
integer `int(math.Ceil(1 / NilRate))`; the embedding keeps that integer. The
generator `Random` is the state `RandState`. -/
structure RandomSeed where
  NilRateDenom : Int
  SliceCapacity : Int
  SliceMinimum : Int
  StringCapacity : Int
  StringMinimum : Int
  MapLength : Int

/-- Denominator of the nil rate, as `nilRateDenom`. -/
def RandomSeed.nilRateDenom (s : RandomSeed) : Int := s.NilRateDenom

/-- Capacity of generated slices, as `sliceCap`. -/
def RandomSeed.sliceCap (s : RandomSeed) : Int := s.SliceCapacity

/-- Least length of generated slices, as `sliceMin`. -/
def RandomSeed.sliceMin (s : RandomSeed) : Int := s.SliceMinimum

/-- Bound on the byte length of generated strings, as `stringCap`. -/
def RandomSeed.stringCap (s : RandomSeed) : Int := s.StringCapacity

/-- Least byte length of generated strings, as `stringMin`. -/
def RandomSeed.stringMin (s : RandomSeed) : Int := s.StringMinimum

/-- Bound on the entries of generated maps, as `mapLen`. -/
def RandomSeed.mapLen (s : RandomSeed) : Int := s.MapLength

/-- The typical parameters, as `DefaultSeed` (nil rate 1/256). -/
def DefaultSeed : RandomSeed :=
  { NilRateDenom := 256, SliceCapacity := 8, StringCapacity := 8, SliceMinimum := 0,
    StringMinimum := 0, MapLength := 8 }

/-- Recording of a fault raised inside a factory; the first one is kept. -/
def RandState.raise (st : RandState) (f : Fault) : RandState :=
  { st with fault := match st.fault with
      | none => some f
      | some e => some e }

/-- The next output of the generator, reduced below `bound`. -/
def RandState.next (st : RandState) (bound : Int) : Int × RandState :=
  ((st.draws st.pos : Int) % bound, { st with pos := st.pos + 1 })

/-- The call `seed.Random.Intn(n)`: a value in `[0, n)`, and a panic when
`n <= 0`. -/
def Intn (st : RandState) (n : Int) : Int × RandState :=
  if n ≤ 0 then (0, st.raise .panic) else st.next n

/-- The call `seed.Random.Int63n(n)`: a value in `[0, n)`, and a panic when
`n <= 0`. -/
def Int63n (st : RandState) (n : Int) : Int × RandState :=
  if n ≤ 0 then (0, st.raise .panic) else st.next n

/-- The calls `seed.Random.Int63()` and `seed.Random.Int()`: a non-negative
63-bit integer. -/
def Int63 (st : RandState) : Int × RandState := st.next (2 ^ 63)

/-- The call `seed.Random.Uint32()`. -/
def Uint32 (st : RandState) : Int × RandState := st.next (2 ^ 32)

/-- The calls `seed.Random.Float32()` and `seed.Random.Float64()`: the bit
pattern of a float in `[0, 1)`, not interpreted further. -/
def FloatBits (st : RandState) : Nat × RandState :=
  (st.draws st.pos, { st with pos := st.pos + 1 })

/-- The call `io.ReadFull(crand.Reader, b)` for a buffer of `n` bytes: nothing
is read for an empty buffer; otherwise the read fails or yields `n` bytes. -/
def readFull (st : RandState) (n : Nat) : Option (List Nat) × RandState :=
  if n = 0 then (some [], st)
  else if st.readErr st.epos then (none, st)
  else (some ((List.range n).map (fun i => st.entropy (st.epos + i) % 256)),
    { st with epos := st.epos + n })

/-- The eight bits of a byte, most significant first. -/
def byteBits (b : Nat) : List Nat :=
  [7, 6, 5, 4, 3, 2, 1, 0].map (fun i => (b / 2 ^ i) % 2)

/-- The alphabet of `base32.StdEncoding`. -/
def base32Alphabet : List Char := "ABCDEFGHIJKLMNOPQRSTUVWXYZ234567".toList

/-- Base-32 digits of a bit string, five bits to a digit, the last digit
filled up with zero bits. -/
def encodeBits : List Nat → Nat → Nat → List Char
  | [], acc, cnt => if cnt = 0 then [] else [base32Alphabet.getD (acc * 2 ^ (5 - cnt)) 'A']
  | b :: bs, acc, cnt =>
    if cnt = 4 then base32Alphabet.getD (acc * 2 + b) 'A' :: encodeBits bs 0 0
    else encodeBits bs (acc * 2 + b) (cnt + 1)

/-- The string `strings.TrimRight(base32.StdEncoding.EncodeToString(b), "=")`:
the base-32 digits of the bytes without the padding. -/
def base32Trimmed (bytes : List Nat) : String :=
  String.mk (encodeBits (bytes.flatMap byteBits) 0 0)

/-- A predeclared type: no package path, the name of the kind. -/
def predeclared (name : String) (b : Basic) : Ty := .basic "" name b

/-- The `Ptr` kind factory of `RandomFiller`: `(nil, Done)` when
`Intn(nilRateDenom())` is 0, and `(nil, None)` otherwise. -/
def ptrFactory (seed : RandomSeed) : Factory RandState :=
  fun st =>
    let r := Intn st seed.nilRateDenom
    if r.1 = 0 then ((none, .Done), r.2) else ((none, .None), r.2)

/-- The `Bool` kind factory: `seed.Random.Intn(2) == 0`. -/
def boolFactory : Factory RandState :=
  fun st =>
    let r := Intn st 2
    ((some (predeclared "bool" .Bool, .bool (decide (r.1 = 0))), .Done), r.2)

/-- The `Int` kind factory: `seed.Random.Int()`. -/
def intFactory : Factory RandState :=
  fun st =>
    let r := Int63 st
    ((some (predeclared "int" .Int, .int r.1), .Done), r.2)

/-- The `Int8` kind factory: `int8(seed.Random.Intn(256) - 128)`. -/
def int8Factory : Factory RandState :=
  fun st =>
    let r := Intn st 256
    ((some (predeclared "int8" .Int8, .int (r.1 - 128)), .Done), r.2)

/-- The `Int16` kind factory: `int16(seed.Random.Intn(65536) - 32768)`. -/
def int16Factory : Factory RandState :=
  fun st =>
    let r := Intn st 65536
    ((some (predeclared "int16" .Int16, .int (r.1 - 32768)), .Done), r.2)

/-- The `Int32` kind factory:
`int32(seed.Random.Int63n(65536*65536) - 65536*32768)`. -/
def int32Factory : Factory RandState :=
  fun st =>
    let r := Int63n st (65536 * 65536)
    ((some (predeclared "int32" .Int32, .int (r.1 - 65536 * 32768)), .Done), r.2)

/-- The `Int64` kind factory:
`seed.Random.Int63() * int64(seed.Random.Intn(2)*2-1)`. -/
def int64Factory : Factory RandState :=
  fun st =>
    let a := Int63 st
    let b := Intn a.2 2
    ((some (predeclared "int64" .Int64, .int (a.1 * (b.1 * 2 - 1))), .Done), b.2)

/-- The `Uint` kind factory: `seed.Random.Uint32()`, an object of type
`uint32`. -/
def uintFactory : Factory RandState :=
  fun st =>
    let r := Uint32 st
    ((some (predeclared "uint32" .Uint32, .int r.1), .Done), r.2)

/-- The `Uint8` kind factory: `uint8(seed.Random.Intn(256))`. -/
def uint8Factory : Factory RandState :=
  fun st =>
    let r := Intn st 256
    ((some (predeclared "uint8" .Uint8, .int r.1), .Done), r.2)

/-- The `Uint16` kind factory: `uint16(seed.Random.Intn(65536))`. -/
def uint16Factory : Factory RandState :=
  fun st =>
    let r := Intn st 65536
    ((some (predeclared "uint16" .Uint16, .int r.1), .Done), r.2)

/-- The `Uint32` kind factory:
`uint32(seed.Random.Int63n(int64(65536)*65536 - 1))`. -/
def uint32Factory : Factory RandState :=
  fun st =>
    let r := Int63n st (65536 * 65536 - 1)
    ((some (predeclared "uint32" .Uint32, .int r.1), .Done), r.2)

/-- The `Uint64` kind factory: `uint64(seed.Random.Int63())`. -/
def uint64Factory : Factory RandState :=
  fun st =>
    let r := Int63 st
    ((some (predeclared "uint64" .Uint64, .int r.1), .Done), r.2)

/-- The `Float32` kind factory: `seed.Random.Float32()`. -/
def float32Factory : Factory RandState :=
  fun st =>
    let r := FloatBits st
    ((some (predeclared "float32" .Float32, .float r.1), .Done), r.2)

/-- The `Float64` kind factory: `seed.Random.Float64()`. -/
def float64Factory : Factory RandState :=
  fun st =>
    let r := FloatBits st
    ((some (predeclared "float64" .Float64, .float r.1), .Done), r.2)

/-- The `Complex64` kind factory:
`complex(seed.Random.Float32(), seed.Random.Float32())`. -/
def complex64Factory : Factory RandState :=
  fun st =>
    let a := FloatBits st
    let b := FloatBits a.2
    ((some (predeclared "complex64" .Complex64, .complex a.1 b.1), .Done), b.2)

/-- The `Complex128` kind factory:
`complex(seed.Random.Float64(), seed.Random.Float64())`. -/
def complex128Factory : Factory RandState :=
  fun st =>
    let a := FloatBits st
    let b := FloatBits a.2
    ((some (predeclared "complex128" .Complex128, .complex a.1 b.1), .Done), b.2)

/-- The `String` kind factory: a buffer of
`Intn(stringCap()-stringMin())+stringMin()` bytes (`make` panics on a negative
length) is filled from `crypto/rand`; a failed read gives `("", None)`,
otherwise the trimmed base-32 string with `Done`. -/
def stringFactory (seed : RandomSeed) : Factory RandState :=
  fun st =>
    let r := Intn st (seed.stringCap - seed.stringMin)
    let len := r.1 + seed.stringMin
    if len < 0 then ((none, .None), r.2.raise .panic)
    else
      match readFull r.2 len.toNat with
      | (none, st2) => ((some (tString, .str ""), .None), st2)
      | (some b, st2) => ((some (tString, .str (base32Trimmed b)), .Done), st2)

mutual
/-- Equality of map keys, as Go's `==` on comparable data: scalars by value,
arrays and structs element by element; a pointer is a reference to its own
allocation and equals no other pointer. -/
def Val.beq : Val → Val → Bool
  | .bool a, .bool b => a == b
  | .int a, .int b => a == b
  | .float a, .float b => a == b
  | .complex a b, .complex c d => a == c && b == d
  | .str a, .str b => a == b
  | .nil, .nil => true
  | .array xs, .array ys => Val.beqList xs ys
  | .struct xs, .struct ys => Val.beqList xs ys
  | _, _ => false
/-- Equality of two lists of data, element by element. -/
def Val.beqList : List Val → List Val → Bool
  | [], [] => true
  | x :: xs, y :: ys => Val.beq x y && Val.beqList xs ys
  | _, _ => false
end

/-- Entries of a map after `m[key] = elem`: an entry with an equal key is
replaced, otherwise the entry is added. -/
def mapInsert (key elem : Val) : List (Val × Val) → List (Val × Val)
  | [] => [(key, elem)]
  | (k, e) :: rest =>
    if Val.beq k key then (key, elem) :: rest else (k, e) :: mapInsert key elem rest

mutual
/-- Data that hashes whatever its dynamic type is: scalars, strings and
non-nil pointers, and arrays and structs of such data.  A slice or a map does
not hash, and `nil` may be a nil slice, map or function, which do not hash
either. -/
def hashableData : Val → Bool
  | .slice _ _ => false
  | .map _ => false
  | .nil => false
  | .array xs => hashableDataList xs
  | .struct xs => hashableDataList xs
  | _ => true
/-- Each element of a list hashes whatever its dynamic type is. -/
def hashableDataList : List Val → Bool
  | [] => true
  | x :: xs => hashableData x && hashableDataList xs
end

mutual
/-- Hashing of a map key of type `t`, as the runtime does under
`SetMapIndex`: data of a comparable type without interfaces always hashes;
data held in an interface is hashed by its dynamic type, which the embedding
does not record, so it counts as hashable only when `hashableData` holds.  A
slice, map or function type is not a key type. -/
def hashableAt : Ty → Val → Bool
  | .basic _ _ b, v =>
    match b with
    | .Interface => hashableData v
    | .Func => false
    | _ => true
  | .ptr _ _ _, _ => true
  | .array _ _ _ t, v =>
    match v with
    | .array xs => xs.all (hashableAt t)
    | _ => false
  | .slice _ _ _, _ => false
  | .map _ _ _ _, _ => false
  | .struct _ _ fs, v =>
    match v with
    | .struct xs => hashableFields fs xs
    | _ => false
/-- Hashing of the fields of a struct key, field by field. -/
def hashableFields : List (StructField Ty) → List Val → Bool
  | [], _ => true
  | f :: fs, vs =>
    match vs with
    | [] => false
    | v :: rest => hashableAt f.Typ v && hashableFields fs rest
end

/-- The call `val.SetMapIndex(key, elem)` on the entries of a map with key
type `kT` and element type `vT`.  It panics (`none`) on a zero `Value` as key,
on a key that is not of the key type, on a key that does not hash, and on an
element that is not of the element type; a type other than the expected one
is taken as not assignable, which covers every object that `Make` returns.  A
zero `Value` as element deletes the key. -/
def SetMapIndex (kT vT : Ty) (m : List (Val × Val)) (key elem : Option Value) :
    Option (List (Val × Val)) :=
  match key with
  | none => none
  | some k =>
    if Ty.beq k.typ kT && hashableAt kT k.v then
      match elem with
      | none => some (m.filter (fun kv => !Val.beq kv.1 k.v))
      | some e => if Ty.beq e.typ vT then some (mapInsert k.v e.v m) else none
    else none

/-- The call `reflect.MakeSlice(typ, len, cap)` for element type `elem`: a
slice of `len` zero elements; a negative length or capacity, or a length above
the capacity, panics (`none`). -/
def MakeSlice (elem : Ty) (len cap : Int) : Option Val :=
  if len < 0 ∨ cap < 0 ∨ cap < len then none
  else some (.slice (List.replicate len.toNat (zero elem)) cap.toNat)

/-- The object `objVal.Elem().Interface()` for data `v` of type `typ`: a nil
interface for nil data of an interface type. -/
def toInterface (typ : Ty) (v : Val) : Interface :=
  match typ.Kind, v with
  | .Interface, .nil => none
  | _, _ => some (typ, v)

/-- The call `gen.Make(typ)` inside a factory: the object made, with a fault of
the nested run recorded in the state. -/
def makeInterface (g : Filler RandState) (fuel : Nat) (typ : Ty) (st : RandState) :
    Interface × RandState :=
  match Make g fuel typ st with
  | .error e => (none, st.raise e)
  | .ok (v, st1) => (toInterface typ v, st1)

/-- The loop `for i := 0; i < seed.Random.Intn(seed.mapLen()); i++` of the map
factory, with `make` for `gen.Make`: the bound is drawn anew before every
round; a round makes a key and a value and sets the entry.  It returns the
final `i` (the number of rounds run), the entries and the state.  `budget`
bounds the rounds of the embedding. -/
def mapLoop (seed : RandomSeed) (make : Ty → RandState → Interface × RandState)
    (kT vT : Ty) : Nat → Int → List (Val × Val) → RandState →
    Int × List (Val × Val) × RandState
  | budget, i, m, st =>
    let r := Intn st seed.mapLen
    if i < r.1 then
      match budget with
      | 0 => (i, m, r.2.raise .outOfFuel)
      | b + 1 =>
        let k := make kT r.2
        let v := make vT k.2
        match SetMapIndex kT vT m (ValueOf k.1) (ValueOf v.1) with
        | none => (i, m, v.2.raise .panic)
        | some m1 => mapLoop seed make kT vT b (i + 1) m1 v.2
    else (i, m, r.2)

/-- The typed factory of `RandomFiller`, with `make` for `gen.Make`: for a
slice type a fresh slice of random length with `Init`, for a map type a fresh
map filled by `mapLoop` with `Init`, and `(nil, None)` for any other type. -/
def sliceMapFactory (seed : RandomSeed) (make : Ty → RandState → Interface × RandState) :
    TypedFactory RandState :=
  fun typ st =>
    match typ with
    | .slice _ _ elem =>
      let cap := seed.sliceCap
      let r := Intn st (cap - seed.sliceMin)
      match MakeSlice elem (r.1 + seed.sliceMin) cap with
      | none => ((none, .None), r.2.raise .panic)
      | some v => ((some (typ, v), .Init), r.2)
    | .map _ _ kT vT =>
      let r := mapLoop seed make kT vT seed.mapLen.toNat 0 [] st
      ((some (typ, .map r.2.1), .Init), r.2.2)
    | _ => ((none, .None), st)

/-- A sequence of `gen.RegisterKind(kind, con)` calls, first to last. -/
def registerKinds {σ : Type} (g : Filler σ) : List (Kind × Factory σ) → Filler σ
  | [] => g
  | (kind, con) :: rest => registerKinds (g.RegisterKind kind con) rest

/-- The kind factories that `RandomFiller` registers, in the order of the
source. -/
def kindFactories (seed : RandomSeed) : List (Kind × Factory RandState) :=
  [(Kind.Ptr, ptrFactory seed),
   (Kind.Bool, boolFactory),
   (Kind.Int, intFactory),
   (Kind.Int8, int8Factory),
   (Kind.Int16, int16Factory),
   (Kind.Int32, int32Factory),
   (Kind.Int64, int64Factory),
   (Kind.Uint, uintFactory),
   (Kind.Uint8, uint8Factory),
   (Kind.Uint16, uint16Factory),
   (Kind.Uint32, uint32Factory),
   (Kind.Uint64, uint64Factory),
   (Kind.Float32, float32Factory),
   (Kind.Float64, float64Factory),
   (Kind.Complex64, complex64Factory),
   (Kind.Complex128, complex128Factory),
   (Kind.String, stringFactory seed)]

/-- The registrations of `RandomFiller`, in the order of the source, with
`make` for the `gen.Make` of the typed factory: the kind factories on an empty
filler, then the typed factory. -/
def randomRegistry (seed : RandomSeed) (make : Ty → RandState → Interface × RandState) :
    Filler RandState :=
  (registerKinds (Filler.empty RandState) (kindFactories seed)).RegisterFunc
    (sliceMapFactory seed make)

/-- The factory that the last matching entry of a sequence of kind
registrations binds to `kind`, and `d` when no entry matches. -/
def lastKind {σ : Type} : List (Kind × Factory σ) → Kind → Option (Factory σ) →
    Option (Factory σ)
  | [], _, d => d
  | (k, con) :: rest, kind, d => lastKind rest kind (if kind = k then some con else d)

/-- The filler of random values, as `RandomFiller`, for a seed that is not
nil.  The typed factory calls `gen.Make` on the filler itself; the embedding
unrolls that reference `depth` times, and below that a nested `Make` records
`outOfFuel`. -/
def RandomFiller (seed : RandomSeed) : Nat → Filler RandState
  | 0 => randomRegistry seed (fun _ st => (none, st.raise .outOfFuel))
  | depth + 1 => randomRegistry seed (makeInterface (RandomFiller seed depth) depth)

/-- State of the generator when round `r` of the map loop started in `st`
draws its bound, given that every round before it has run: a round draws the
bound, makes the key and then makes the value. -/
def roundState (seed : RandomSeed) (make : Ty → RandState → Interface × RandState)
    (kT vT : Ty) (st : RandState) : Nat → RandState
  | 0 => st
  | r + 1 =>
    (make vT (make kT (Intn (roundState seed make kT vT st r) seed.mapLen).2).2).2

/-- The bound `seed.Random.Intn(seed.mapLen())` drawn at the start of round `r`. -/
def roundBound (seed : RandomSeed) (make : Ty → RandState → Interface × RandState)
    (kT vT : Ty) (st : RandState) (r : Nat) : Int :=
  (Intn (roundState seed make kT vT st r) seed.mapLen).1

/-- The key `gen.Make(kT)` of round `r`. -/
def roundKey (seed : RandomSeed) (make : Ty → RandState → Interface × RandState)
    (kT vT : Ty) (st : RandState) (r : Nat) : Interface :=
  (make kT (Intn (roundState seed make kT vT st r) seed.mapLen).2).1

/-- The element `gen.Make(vT)` of round `r`. -/
def roundElem (seed : RandomSeed) (make : Ty → RandState → Interface × RandState)
    (kT vT : Ty) (st : RandState) (r : Nat) : Interface :=
  (make vT (make kT (Intn (roundState seed make kT vT st r) seed.mapLen).2).2).1

/-- A generator whose every output is `r`, with readable entropy and no fault. -/
def constState (r : Nat) : RandState :=
  { draws := fun _ => r, pos := 0, entropy := fun _ => 0, epos := 0,
    readErr := fun _ => false, fault := none }

/-- The seed with nil probability 1.0: `nilRateDenom()` is 1. -/
def alwaysNilSeed : RandomSeed := { DefaultSeed with NilRateDenom := 1 }

/-- The empty interface type `interface{}`: unnamed, of kind `Interface`. -/
def tAny : Ty := .basic "" "" .Interface

/-- The map type `map[interface{}]interface{}`. -/
def tAnyMap : Ty := .map "" "" tAny tAny

/-- A filler whose `Int` kind factory returns `(nil, Done)`. -/
def nilIntFiller : Filler Nat :=
  (Filler.empty Nat).RegisterKind Kind.Int (objFactory none .Done)

/-! ## Theorems -/

theorem Ty.Kind_ne_Invalid (typ : Ty) : typ.Kind ≠ Kind.Invalid := by
  cases typ with
  | basic p n b => cases b <;> simp [Ty.Kind, Basic.Kind]
  | _ => simp [Ty.Kind]

theorem Filler.init_Inv {σ : Type} (g : Filler σ) (h : g.Inv) : g.init.Inv := by
  rcases h with ⟨h0, _, _, _⟩ | ⟨h1, hn, hk, hf⟩
  · right
    unfold Filler.init
    rw [if_neg (by simp [h0])]
    exact ⟨rfl, ⟨_, rfl⟩, ⟨_, rfl⟩, ⟨[], rfl⟩⟩
  · right
    unfold Filler.init
    rw [if_pos h1]
    exact ⟨h1, hn, hk, hf⟩

theorem Filler.init_initOnce {σ : Type} (g : Filler σ) : g.init.initOnce = true := by
  unfold Filler.init
  split <;> simp_all

theorem Reachable.inv_holds {σ : Type} {g : Filler σ} (h : Reachable g) : g.Inv := by
  induction h with
  | empty => left; simp [Filler.empty]
  | registerName g p n con _ ih =>
    rcases Filler.init_Inv g ih with ⟨h0, _⟩ | ⟨h1, ⟨m, hm⟩, hk, hf⟩
    · simp [Filler.init_initOnce] at h0
    · right
      simp only [Filler.RegisterName]
      exact ⟨h1, ⟨_, by rw [hm]; rfl⟩, hk, hf⟩
  | registerKind g k con _ ih =>
    rcases Filler.init_Inv g ih with ⟨h0, _⟩ | ⟨h1, hn, ⟨m, hm⟩, hf⟩
    · simp [Filler.init_initOnce] at h0
    · right
      simp only [Filler.RegisterKind]
      exact ⟨h1, hn, ⟨_, by rw [hm]; rfl⟩, hf⟩
  | registerFunc g con _ ih =>
    rcases Filler.init_Inv g ih with ⟨h0, _⟩ | ⟨h1, hn, hk, ⟨fs, hfs⟩⟩
    · simp [Filler.init_initOnce] at h0
    · right
      simp only [Filler.RegisterFunc]
      refine ⟨h1, hn, hk, ⟨fs ++ [con], ?_⟩⟩
      rw [hfs]; simp
  | setFieldFilter g ff _ ih =>
    rcases ih with ⟨h0, hn, hk, ht⟩ | ⟨h1, hn, hk, hf⟩
    · left; exact ⟨h0, hn, hk, ht⟩
    · right; exact ⟨h1, hn, hk, hf⟩

theorem genTypeLoop_func {σ : Type} (g : Filler σ) (typ : Ty) (fs : List (TypedFactory σ))
    (s : σ) :
    g.genTypeLoop typ (fs.map Gen.func) s = firstOutcome (fs.map (fun con => con typ)) s := by
  induction fs generalizing s with
  | nil => rfl
  | cons con rest ih =>
    simp only [List.map_cons, Filler.genTypeLoop, firstOutcome, Filler.runGen]
    split
    · rfl
    · exact ih _

theorem filterMap_registered_func {σ : Type} (fs : List (TypedFactory σ)) :
    List.filterMap Gen.registered (fs.map Gen.func) = fs := by
  induction fs with
  | nil => rfl
  | cons con rest ih =>
    rw [List.map_cons, List.filterMap_cons]
    simp only [Gen.registered]
    rw [ih]

theorem funcs_of_types {σ : Type} (g : Filler σ) (fs : List (TypedFactory σ))
    (h : g.types = Gen.genName :: Gen.genKind :: fs.map Gen.func) : g.funcs = fs := by
  unfold Filler.funcs
  rw [h]
  simp only [List.filterMap_cons, Gen.registered]
  exact filterMap_registered_func fs

theorem firstOutcome_cons_none {σ : Type} (con : Factory σ) (rest : List (Factory σ)) (s : σ)
    (h : (con s).1.2 = FactoryState.None) :
    firstOutcome (con :: rest) s = firstOutcome rest (con s).2 := by
  simp only [firstOutcome]
  rw [if_neg (by simpa using h)]

theorem firstOutcome_cons_some {σ : Type} (con : Factory σ) (rest : List (Factory σ)) (s : σ)
    (h : (con s).1.2 ≠ FactoryState.None) :
    firstOutcome (con :: rest) s = con s := by
  simp only [firstOutcome]
  rw [if_pos h]

theorem genType_eq_firstOutcome {σ : Type} (g : Filler σ) (h : g.Inv) (typ : Ty) (s : σ) :
    g.genType typ s = firstOutcome (candidates g typ) s := by
  rcases h with ⟨_, hn, hk, ht⟩ | ⟨_, ⟨m, hm⟩, ⟨k, hk⟩, ⟨fs, hfs⟩⟩
  · have hf : g.funcs = [] := by simp [Filler.funcs, ht]
    simp [Filler.genType, ht, Filler.genTypeLoop, candidates, nameTier, kindTier, funcTier,
      Filler.nameBinding, Filler.kindBinding, hn, hk, hf, firstOutcome]
  · have hf : g.funcs = fs := funcs_of_types g fs hfs
    have hkind : typ.Kind ≠ Kind.Invalid := Ty.Kind_ne_Invalid typ
    unfold Filler.genType
    rw [hfs]
    simp only [Filler.genTypeLoop, Filler.runGen, candidates, nameTier, kindTier, funcTier,
      Filler.nameBinding, Filler.kindBinding, Filler.genName, Filler.genKind, hm, hk, hf,
      genTypeLoop_func, if_neg hkind, beq_iff_eq]
    by_cases hname : fullName typ.PkgPath typ.Name = ""
    · simp only [hname, if_true, List.nil_append, if_false, ne_eq, not_true_eq_false]
      cases hk1 : k typ.Kind with
      | none => simp
      | some ck =>
        simp [Option.toList, firstOutcome]
    · simp only [hname, if_false]
      cases hm1 : m (fullName typ.PkgPath typ.Name) with
      | none =>
        simp only [Option.toList, List.nil_append, ne_eq, not_true_eq_false, if_false]
        cases hk1 : k typ.Kind with
        | none => simp
        | some ck =>
          simp [Option.toList, firstOutcome]
      | some cn =>
        simp only [Option.toList, List.cons_append, List.nil_append, firstOutcome]
        split
        · rfl
        · cases hk1 : k typ.Kind with
          | none => simp
          | some ck =>
            simp [Option.toList, firstOutcome]

theorem firstOutcome_append {σ : Type} (a b : List (Factory σ)) (s : σ) :
    firstOutcome (a ++ b) s =
      if (firstOutcome a s).1.2 ≠ FactoryState.None then firstOutcome a s
      else firstOutcome b (firstOutcome a s).2 := by
  induction a generalizing s with
  | nil => simp [firstOutcome]
  | cons con rest ih =>
    by_cases hc : (con s).1.2 = FactoryState.None
    · rw [List.cons_append, firstOutcome_cons_none con _ s hc,
        firstOutcome_cons_none con _ s hc]
      exact ih _
    · rw [List.cons_append, firstOutcome_cons_some con _ s hc,
        firstOutcome_cons_some con _ s hc, if_pos hc]

theorem firstOutcome_none_obj {σ : Type} (l : List (Factory σ)) (s : σ)
    (h : (firstOutcome l s).1.2 = FactoryState.None) : (firstOutcome l s).1.1 = none := by
  induction l generalizing s with
  | nil => rfl
  | cons con rest ih =>
    by_cases hc : (con s).1.2 = FactoryState.None
    · rw [firstOutcome_cons_none con _ s hc] at h ⊢
      exact ih _ h
    · rw [firstOutcome_cons_some con _ s hc] at h
      exact absurd h hc

/-- C1: in every reachable registry state `genType` returns the first outcome
that is not `None` among the candidates in the fixed order name factory (only
for a non-empty full name), kind factory, typed factories in registration
order, and `(nil, None)` when every candidate yields `None`; so a name
factory with an outcome is used whatever the other tiers hold, and a kind
factory with an outcome is used whenever the name tier yields none. -/
theorem genType_resolution_order {σ : Type} (g : Filler σ) (h : Reachable g) (typ : Ty)
    (s : σ) :
    g.genType typ s = firstOutcome (candidates g typ) s ∧
    ((g.genType typ s).1.2 = FactoryState.None → (g.genType typ s).1.1 = none) ∧
    (∀ cn, fullName typ.PkgPath typ.Name ≠ "" →
      g.nameBinding (fullName typ.PkgPath typ.Name) = some cn →
      (cn s).1.2 ≠ FactoryState.None → g.genType typ s = cn s) ∧
    (∀ ck, g.kindBinding typ.Kind = some ck →
      (firstOutcome (nameTier g typ) s).1.2 = FactoryState.None →
      (ck (firstOutcome (nameTier g typ) s).2).1.2 ≠ FactoryState.None →
      g.genType typ s = ck (firstOutcome (nameTier g typ) s).2) := by
  have e := genType_eq_firstOutcome g h.inv_holds typ s
  refine ⟨e, ?_, ?_, ?_⟩
  · rw [e]
    exact firstOutcome_none_obj _ s
  · intro cn hne hb hc
    rw [e]
    unfold candidates
    rw [List.append_assoc, firstOutcome_append]
    have hn : nameTier g typ = [cn] := by simp [nameTier, hne, hb]
    rw [hn, firstOutcome_cons_some cn [] s hc, if_pos hc]
  · intro ck hb hnone hc
    rw [e]
    unfold candidates
    rw [List.append_assoc, firstOutcome_append, if_neg (by simpa using hnone)]
    have hk : kindTier g typ = [ck] := by simp [kindTier, hb]
    rw [hk, List.cons_append, List.nil_append, firstOutcome_cons_some ck _ _ hc]

theorem threeTierFiller_reachable : Reachable threeTierFiller :=
  Reachable.registerName _ _ _ _
    (Reachable.registerKind _ _ _ (Reachable.registerFunc _ _ Reachable.empty))

/-- Witness of C1: with factories at all three tiers for `bson.ObjectId`, the
name factory answers and the other two are not called. -/
theorem genType_resolution_order_witness :
    Reachable threeTierFiller ∧
    threeTierFiller.genType tObjectId 0 = ((some (tObjectId, Val.str "name"), .Done), 1) ∧
    threeTierFiller.genType tString 0 = ((some (tString, Val.str "kind"), .Done), 1) ∧
    threeTierFiller.genType tInt 0 = ((some (tInt, Val.str "func"), .Done), 1) :=
  ⟨threeTierFiller_reachable,
    ((genType_resolution_order threeTierFiller threeTierFiller_reachable tObjectId 0).1).trans
      rfl,
    rfl, rfl⟩

/-! ### The outcome `Done` -/

theorem Value.IsNil_of_nil (val : Value) (h : val.v = Val.nil) : val.IsNil = true := by
  simp [Value.IsNil, h]

theorem Value.IsNil_of_ne_nil (val : Value) (h : val.v ≠ Val.nil) : val.IsNil = false := by
  unfold Value.IsNil
  split
  · rename_i e; exact absurd e h
  · rfl

theorem fillValue_unsettable {σ : Type} (g : Filler σ) (fuel : Nat) (typ : Ty) (val : Value)
    (s : σ) (h : val.CanSet = false) : fillValue g fuel typ val s = .ok (val.v, s) := by
  unfold fillValue
  simp [h]

theorem fillValue_done {σ : Type} (g : Filler σ) (fuel : Nat) (typ : Ty) (val : Value)
    (s s1 : σ) (obj : Interface) (val1 : Value) (hset : val.CanSet = true)
    (hg : g.genType typ s = ((obj, .Done), s1))
    (ha : assignStep typ val obj .Done = .ok val1) :
    fillValue g (fuel + 1) typ val s = .ok (val1.v, s1) := by
  rw [fillValue]
  simp only [hset, hg, ha]
  simp

/-- Counterexample to C2: the target is a nil `*string`, resolution yields a
non-nil pointer with `Done`, and the target stays nil instead of becoming the
produced value. -/
theorem done_at_pointer_counterexample :
    (settable tPtrString Val.nil).CanSet = true ∧
    ptrDoneFiller.genType tPtrString 0 = ((some (tPtrString, Val.ptr (Val.str "x")), .Done), 1) ∧
    fillValue ptrDoneFiller 1 tPtrString (settable tPtrString Val.nil) 0 = .ok (Val.nil, 1) ∧
    Val.nil ≠ Val.ptr (Val.str "x") :=
  ⟨rfl, rfl, rfl, by simp⟩

/-- C2 (amended): at a settable pointer position where resolution yields
`(v, Done)` nothing is allocated and nothing below is visited (the state is
the one resolution left, with a single unit of fuel); a nil target stays nil
whatever `v` is, a non-nil target is unchanged when `v` is a nil pointer, and
it becomes `v` converted to the type when `v` is not a nil pointer and
converts. -/
theorem done_at_pointer {σ : Type} (g : Filler σ) (fuel : Nat) (p n : String) (t : Ty)
    (val : Value) (s s1 : σ) (obj : Interface) (hty : val.typ = Ty.ptr p n t)
    (hset : val.CanSet = true) (hg : g.genType (Ty.ptr p n t) s = ((obj, .Done), s1)) :
    (val.v = Val.nil → fillValue g (fuel + 1) (Ty.ptr p n t) val s = .ok (Val.nil, s1)) ∧
    (val.v ≠ Val.nil → gotKind (ValueOf obj) = Kind.Ptr → gotIsNil (ValueOf obj) = true →
      fillValue g (fuel + 1) (Ty.ptr p n t) val s = .ok (val.v, s1)) ∧
    (∀ con, val.v ≠ Val.nil →
      (gotKind (ValueOf obj) ≠ Kind.Ptr ∨ gotIsNil (ValueOf obj) = false) →
      Convert (ValueOf obj) (Ty.ptr p n t) = some con →
      fillValue g (fuel + 1) (Ty.ptr p n t) val s = .ok (con.v, s1)) := by
  have hk : val.Kind = Kind.Ptr := by simp [Value.Kind, hty, Ty.Kind]
  refine ⟨?_, ?_, ?_⟩
  · intro hnil
    have ha : assignStep (Ty.ptr p n t) val obj .Done = .ok val := by
      simp [assignStep, hk, Value.IsNil_of_nil val hnil]
    rw [fillValue_done g fuel _ val s s1 obj val hset hg ha, hnil]
  · intro _ hgk hgn
    have ha : assignStep (Ty.ptr p n t) val obj .Done = .ok val := by
      simp [assignStep, hgk, hgn]
    exact fillValue_done g fuel _ val s s1 obj val hset hg ha
  · intro con hnn hgot hc
    have ha : assignStep (Ty.ptr p n t) val obj .Done = .ok (val.Set con) := by
      have h1 : (gotKind (ValueOf obj) != Kind.Ptr || !gotIsNil (ValueOf obj)) = true := by
        rcases hgot with h | h
        · simp [h]
        · simp [h]
      simp [assignStep, h1, hk, Value.IsNil_of_ne_nil val hnn, hc]
    exact fillValue_done g fuel _ val s s1 obj (val.Set con) hset hg ha

/-- Witness of C2 (amended): with a `Ptr` kind factory returning a non-nil
`*string` with `Done`, a nil target stays nil and a non-nil target receives
the produced pointer. -/
theorem done_at_pointer_witness :
    fillValue ptrDoneFiller 1 tPtrString (settable tPtrString Val.nil) 0 = .ok (Val.nil, 1) ∧
    fillValue ptrDoneFiller 1 tPtrString (settable tPtrString (Val.ptr (Val.str "old"))) 0 =
      .ok (Val.ptr (Val.str "x"), 1) :=
  ⟨(done_at_pointer ptrDoneFiller 0 "" "" tString (settable tPtrString Val.nil) 0 1
      (some (tPtrString, Val.ptr (Val.str "x"))) rfl rfl rfl).1 rfl,
   (done_at_pointer ptrDoneFiller 0 "" "" tString
      (settable tPtrString (Val.ptr (Val.str "old"))) 0 1
      (some (tPtrString, Val.ptr (Val.str "x"))) rfl rfl rfl).2.2
      ⟨tPtrString, Val.ptr (Val.str "x"), false, false⟩ (by simp [settable])
      (Or.inr rfl) rfl⟩

/-- C3: at a settable position of a type that is not a pointer, when
resolution yields `(v, Done)` with `v` non-nil and convertible, the target is
`v` converted and the state is the one resolution left, with a single unit of
fuel: no factory and no field filter is consulted below the position. -/
theorem done_stops_recursion {σ : Type} (g : Filler σ) (fuel : Nat) (typ : Ty) (val : Value)
    (s s1 : σ) (srcTy : Ty) (x : Val) (con : Value)
    (hk : typ.Kind ≠ Kind.Ptr) (hty : val.typ = typ) (hset : val.CanSet = true)
    (hg : g.genType typ s = ((some (srcTy, x), .Done), s1))
    (hnn : srcTy.Kind = Kind.Ptr → x ≠ Val.nil)
    (hc : Convert (ValueOf (some (srcTy, x))) typ = some con) :
    fillValue g (fuel + 1) typ val s = .ok (con.v, s1) := by
  have hvk : val.Kind ≠ Kind.Ptr := by simpa [Value.Kind, hty] using hk
  have hgot : (gotKind (ValueOf (some (srcTy, x))) != Kind.Ptr ||
      !gotIsNil (ValueOf (some (srcTy, x)))) = true := by
    by_cases h : srcTy.Kind = Kind.Ptr
    · have hx := Value.IsNil_of_ne_nil ⟨srcTy, x, false, false⟩ (hnn h)
      simp [ValueOf, gotKind, gotIsNil, hx]
    · simp [ValueOf, gotKind, Value.Kind, h]
  have ha : assignStep typ val (some (srcTy, x)) .Done = .ok (val.Set con) := by
    simp [assignStep, hgot, hvk, hc]
  exact fillValue_done g fuel typ val s s1 _ (val.Set con) hset hg ha

/-- Witness of C3: a `Struct` kind factory with outcome `Done` decides the
whole struct; the `String` kind factory is not called for the fields (the
call counter is 1). -/
theorem done_stops_recursion_witness :
    fillValue (structFiller (some (tPair, Val.struct [Val.str "a", Val.str "b"])) .Done) 1
      tPair (settable tPair (zero tPair)) 0 = .ok (Val.struct [Val.str "a", Val.str "b"], 1) :=
  done_stops_recursion _ 0 tPair (settable tPair (zero tPair)) 0 1 tPair
    (Val.struct [Val.str "a", Val.str "b"])
    ⟨tPair, Val.struct [Val.str "a", Val.str "b"], false, false⟩
    (by simp [tPair, Ty.Kind]) rfl rfl rfl (by simp [tPair, Ty.Kind]) rfl

/-! ### The outcome `Init` at a struct, and the field filter -/

mutual
theorem zero_hasType : ∀ t : Ty, hasType t (zero t) = true
  | .basic _ _ b => by cases b <;> simp [zero, hasType]
  | .ptr _ _ _ => by simp [zero, hasType]
  | .array _ _ n t => by
    simp only [zero, hasType, List.length_replicate, beq_self_eq_true, Bool.true_and,
      List.all_eq_true]
    intro x hx
    rw [List.eq_of_mem_replicate hx]
    exact zero_hasType t
  | .slice _ _ _ => by simp [zero, hasType]
  | .map _ _ _ _ => by simp [zero, hasType]
  | .struct _ _ fs => by
    simp only [zero, hasType]
    exact zeroFields_hasType fs
theorem zeroFields_hasType : ∀ fs : List (StructField Ty),
    hasTypeFields fs (zeroFields fs) = true
  | [] => by simp [zeroFields, hasTypeFields]
  | f :: fs => by
    simp only [zeroFields, hasTypeFields, Bool.and_eq_true]
    exact ⟨zero_hasType f.Typ, zeroFields_hasType fs⟩
end

theorem fillValue_struct {σ : Type} (g : Filler σ) (fuel : Nat) (p n : String)
    (fields : List (StructField Ty)) (val : Value) (s s1 : σ) (obj : Interface)
    (state : FactoryState) (val1 : Value) (hset : val.CanSet = true)
    (hg : g.genType (Ty.struct p n fields) s = ((obj, state), s1))
    (hs : state ≠ .Done)
    (ha : assignStep (Ty.struct p n fields) val obj state = .ok val1) :
    fillValue g (fuel + 1) (Ty.struct p n fields) val s =
      match loopFields g.FieldFilter (fun x => fillValue g fuel x.typ x)
          (Ty.struct p n fields) fields s1 with
      | .error err => .error err
      | .ok (fields1, s2) => .ok (Val.struct fields1, s2) := by
  rw [fillValue]
  simp only [hset, hg, ha]
  simp [hs, kindSwitch]

theorem assignStep_ok_of_acceptable (typ : Ty) (val : Value) (obj : Interface)
    (state : FactoryState)
    (hok : (gotKind (ValueOf obj) = Kind.Ptr ∧ gotIsNil (ValueOf obj) = true) ∨
      (Convert (ValueOf obj) typ).isSome = true) :
    ∃ val1, assignStep typ val obj state = .ok val1 := by
  unfold assignStep
  by_cases hst : state ≠ FactoryState.None
  · rw [if_pos hst]
    simp only
    split
    · rcases hok with ⟨h1, h2⟩ | h
      · rename_i hc
        simp [h1, h2] at hc
      · cases hconv : Convert (ValueOf obj) typ with
        | none => simp [hconv] at h
        | some con => exact ⟨val.Set con, rfl⟩
    · exact ⟨val, rfl⟩
  · rw [if_neg hst]
    exact ⟨val, rfl⟩

theorem fillValue_assign_error {σ : Type} (g : Filler σ) (fuel : Nat) (typ : Ty)
    (val : Value) (s s1 : σ) (obj : Interface) (state : FactoryState) (e : Fault)
    (hset : val.CanSet = true) (hg : g.genType typ s = ((obj, state), s1))
    (ha : assignStep typ val obj state = .error e) :
    fillValue g (fuel + 1) typ val s = .error e := by
  rw [fillValue]
  simp only [hset, hg, ha]
  simp

theorem filterField_none {σ : Type} (typ : Ty) (fld : StructField Ty) (s : σ) :
    filterField (none : Option (Filter σ)) typ fld s = .ok ((true, Field fld), s) := rfl

theorem filterField_some {σ : Type} (ff : Filter σ) (typ : Ty) (fld : StructField Ty) (s : σ)
    (accept : Bool) (fv : Value) (s0 : σ)
    (h : filterField (some ff) typ fld s = .ok ((accept, fv), s0)) :
    accept = (ff typ fld (Field fld) s).1.1 ∧ s0 = (ff typ fld (Field fld) s).2 ∧
    (((ff typ fld (Field fld) s).1.2 = none ∧ fv = Field fld) ∨
      ∃ x, (ff typ fld (Field fld) s).1.2 = some x ∧
        fv = (Field fld).Set ⟨fld.Typ, x, false, false⟩ ∧ (Field fld).CanSet = true ∧
        hasType fld.Typ x = true) := by
  rcases hr : ff typ fld (Field fld) s with ⟨⟨a, w⟩, s0'⟩
  simp only [filterField, hr] at h
  cases w with
  | none =>
    simp only [Except.ok.injEq, Prod.mk.injEq] at h
    obtain ⟨⟨h1, h2⟩, h3⟩ := h
    exact ⟨h1.symm, h3.symm, Or.inl ⟨rfl, h2.symm⟩⟩
  | some x =>
    simp only at h
    split at h
    · rename_i hc
      simp only [Bool.and_eq_true] at hc
      simp only [Except.ok.injEq, Prod.mk.injEq] at h
      obtain ⟨⟨h1, h2⟩, h3⟩ := h
      exact ⟨h1.symm, h3.symm, Or.inr ⟨x, rfl, h2.symm, hc.1, hc.2⟩⟩
    · exact absurd h (by simp)

theorem filterField_value {σ : Type} (filter : Option (Filter σ)) (typ : Ty)
    (fld : StructField Ty) (s : σ) (accept : Bool) (fv : Value) (s0 : σ)
    (h : filterField filter typ fld s = .ok ((accept, fv), s0)) :
    fv.typ = fld.Typ ∧ fv.CanSet = (Field fld).CanSet ∧ hasType fld.Typ fv.v = true := by
  cases filter with
  | none =>
    rw [filterField_none] at h
    simp only [Except.ok.injEq, Prod.mk.injEq] at h
    rw [← h.1.2]
    exact ⟨rfl, rfl, zero_hasType fld.Typ⟩
  | some ff =>
    obtain ⟨_, _, hc⟩ := filterField_some ff typ fld s accept fv s0 h
    rcases hc with ⟨_, e⟩ | ⟨x, _, e, _, hx⟩
    · rw [e]
      exact ⟨rfl, rfl, zero_hasType fld.Typ⟩
    · rw [e]
      exact ⟨rfl, rfl, hx⟩

theorem filterField_pure {σ : Type} (filter : Option (Filter σ)) (typ : Ty)
    (fld : StructField Ty) (s : σ)
    (hpure : ∀ ff, filter = some ff → (ff typ fld (Field fld) s).1.2 = none) :
    ∃ accept s0, filterField filter typ fld s = .ok ((accept, Field fld), s0) ∧
      (filter = none → accept = true ∧ s0 = s) ∧
      (∀ ff, filter = some ff → accept = (ff typ fld (Field fld) s).1.1 ∧
        s0 = (ff typ fld (Field fld) s).2) := by
  cases filter with
  | none => exact ⟨true, s, rfl, fun _ => ⟨rfl, rfl⟩, fun ff hf => absurd hf (by simp)⟩
  | some ff =>
    have hp := hpure ff rfl
    rcases hr : ff typ fld (Field fld) s with ⟨⟨a, w⟩, s0⟩
    rw [hr] at hp
    simp only at hp
    subst hp
    refine ⟨a, s0, ?_, fun hf => absurd hf (by simp), ?_⟩
    · simp only [filterField, hr]
    · intro ff' hf
      simp only [Option.some.injEq] at hf
      subst hf
      rw [hr]
      exact ⟨rfl, rfl⟩

theorem filterField_ne_fuel {σ : Type} (filter : Option (Filter σ)) (typ : Ty)
    (fld : StructField Ty) (s : σ) :
    filterField filter typ fld s ≠ .error Fault.outOfFuel := by
  cases filter with
  | none => simp [filterField]
  | some ff =>
    rcases hr : ff typ fld (Field fld) s with ⟨⟨a, w⟩, s0⟩
    simp only [filterField, hr]
    cases w with
    | none => simp
    | some x =>
      simp only
      split <;> simp

theorem loopFields_length {σ : Type} (filter : Option (Filter σ))
    (fill : Value → σ → Res (Val × σ)) (typ : Ty) (fields : List (StructField Ty)) (s : σ)
    (out : List Val) (s2 : σ) (h : loopFields filter fill typ fields s = .ok (out, s2)) :
    out.length = fields.length := by
  induction fields generalizing s out with
  | nil =>
    simp only [loopFields, Except.ok.injEq, Prod.mk.injEq] at h
    obtain ⟨h1, _⟩ := h
    subst h1
    rfl
  | cons f rest ih =>
    rw [loopFields] at h
    cases hff : filterField filter typ f s with
    | error e =>
      rw [hff] at h
      exact absurd h (by simp)
    | ok r =>
      obtain ⟨⟨accept, fv⟩, s0⟩ := r
      rw [hff] at h
      simp only at h
      split at h
      · exact absurd h (by simp)
      · rename_i x1 st1 hfill
        split at h
        · exact absurd h (by simp)
        · rename_i xs1 st2 hrest
          simp only [Except.ok.injEq, Prod.mk.injEq] at h
          obtain ⟨hout, hst⟩ := h
          subst hout
          subst hst
          rw [List.length_cons, List.length_cons, ih st1 xs1 hrest]

theorem loopFields_index {σ : Type} (filter : Option (Filter σ))
    (fill : Value → σ → Res (Val × σ)) (typ : Ty) (fields : List (StructField Ty)) (s : σ)
    (out : List Val) (s2 : σ) (h : loopFields filter fill typ fields s = .ok (out, s2))
    (i : Nat) (fld : StructField Ty) (hi : fields[i]? = some fld) :
    ∃ x st accept fv st0, out[i]? = some x ∧
      filterField filter typ fld st = .ok ((accept, fv), st0) ∧
      ((accept = true ∧ ∃ st', fill fv st0 = .ok (x, st')) ∨ (accept = false ∧ x = fv.v)) := by
  induction fields generalizing s out i with
  | nil => simp at hi
  | cons f rest ih =>
    rw [loopFields] at h
    cases hff : filterField filter typ f s with
    | error e =>
      rw [hff] at h
      exact absurd h (by simp)
    | ok r =>
      obtain ⟨⟨accept, fv⟩, s0⟩ := r
      rw [hff] at h
      simp only at h
      split at h
      · exact absurd h (by simp)
      · rename_i x1 st1 hfill
        split at h
        · exact absurd h (by simp)
        · rename_i xs1 st2 hrest
          simp only [Except.ok.injEq, Prod.mk.injEq] at h
          obtain ⟨hout, hst⟩ := h
          subst hout
          subst hst
          cases i with
          | zero =>
            simp only [List.getElem?_cons_zero, Option.some.injEq] at hi
            subst hi
            refine ⟨x1, s, accept, fv, s0, by simp, hff, ?_⟩
            cases accept with
            | true =>
              simp only [if_true] at hfill
              exact Or.inl ⟨rfl, st1, hfill⟩
            | false =>
              simp only [Bool.false_eq_true, if_false, Except.ok.injEq, Prod.mk.injEq] at hfill
              exact Or.inr ⟨rfl, hfill.1.symm⟩
          | succ j =>
            simp only [List.getElem?_cons_succ] at hi ⊢
            exact ih st1 xs1 hrest j hi

theorem loopFields_rejected {σ : Type} (ff : Filter σ)
    (fill : Value → σ → Res (Val × σ)) (typ : Ty) (fields : List (StructField Ty)) (s : σ)
    (out : List Val) (s2 : σ)
    (h : loopFields (some ff) fill typ fields s = .ok (out, s2)) (i : Nat)
    (fld : StructField Ty) (hi : fields[i]? = some fld)
    (hrej : ∀ v st, (ff typ fld v st).1.1 = false) :
    ∃ x, out[i]? = some x ∧
      (x = zero fld.Typ ∨ ∃ v st, (ff typ fld v st).1.2 = some x) ∧
      ((∀ v st, (ff typ fld v st).1.2 = none) → x = zero fld.Typ) := by
  obtain ⟨x, st, accept, fv, st0, hx, hfld, hcase⟩ :=
    loopFields_index (some ff) fill typ fields s out s2 h i fld hi
  obtain ⟨ha, _, hw⟩ := filterField_some ff typ fld st accept fv st0 hfld
  rw [hrej] at ha
  subst ha
  have hxv : x = fv.v := by
    rcases hcase with ⟨hc, _⟩ | ⟨_, hc⟩
    · exact absurd hc (by simp)
    · exact hc
  refine ⟨x, hx, ?_, ?_⟩
  · rcases hw with ⟨_, e⟩ | ⟨y, hy, e, _, _⟩
    · exact Or.inl (by rw [hxv, e]; rfl)
    · exact Or.inr ⟨Field fld, st, by rw [hy, hxv, e]; rfl⟩
  · intro hpure
    rcases hw with ⟨_, e⟩ | ⟨y, hy, _, _, _⟩
    · rw [hxv, e]; rfl
    · rw [hpure] at hy
      exact absurd hy (by simp)

theorem fillValue_struct_fields {σ : Type} (g : Filler σ) (fuel : Nat) (p n : String)
    (fields : List (StructField Ty)) (val : Value) (s : σ) (res : Val) (s2 : σ)
    (hset : val.CanSet = true)
    (hnd : (g.genType (Ty.struct p n fields) s).1.2 ≠ .Done)
    (h : fillValue g fuel (Ty.struct p n fields) val s = .ok (res, s2)) :
    ∃ k s1 out, fuel = k + 1 ∧ res = Val.struct out ∧
      loopFields g.FieldFilter (fun x => fillValue g k x.typ x) (Ty.struct p n fields)
        fields s1 = .ok (out, s2) := by
  cases fuel with
  | zero =>
    rw [fillValue] at h
    simp [hset] at h
  | succ k =>
    rcases hg : g.genType (Ty.struct p n fields) s with ⟨⟨obj, state⟩, s1⟩
    have hst : state ≠ .Done := by simpa [hg] using hnd
    cases ha : assignStep (Ty.struct p n fields) val obj state with
    | error e =>
      rw [fillValue_assign_error g k _ val s s1 obj state e hset hg ha] at h
      exact absurd h (by simp)
    | ok val1 =>
      rw [fillValue_struct g k p n fields val s s1 obj state val1 hset hg hst ha] at h
      split at h
      · exact absurd h (by simp)
      · rename_i out st2 hloop
        simp only [Except.ok.injEq, Prod.mk.injEq] at h
        refine ⟨k, s1, out, rfl, h.1.symm, ?_⟩
        rw [hloop, h.2]

theorem fillValue_struct_index {σ : Type} (g : Filler σ) (fuel : Nat) (p n : String)
    (fields : List (StructField Ty)) (val : Value) (s : σ) (res : Val) (s2 : σ)
    (hset : val.CanSet = true)
    (hnd : (g.genType (Ty.struct p n fields) s).1.2 ≠ .Done)
    (h : fillValue g (fuel + 1) (Ty.struct p n fields) val s = .ok (res, s2)) :
    ∃ out, res = Val.struct out ∧ out.length = fields.length ∧
      ∀ (i : Nat) (fld : StructField Ty), fields[i]? = some fld →
        ∃ x st accept fv st0, out[i]? = some x ∧
          filterField g.FieldFilter (Ty.struct p n fields) fld st = .ok ((accept, fv), st0) ∧
          ((accept = true ∧ ∃ st', fillValue g fuel fld.Typ fv st0 = .ok (x, st')) ∨
            (accept = false ∧ x = fv.v)) := by
  obtain ⟨k, s1, out, hk, hres, hloop⟩ :=
    fillValue_struct_fields g (fuel + 1) p n fields val s res s2 hset hnd h
  have hk' : k = fuel := by omega
  subst hk'
  refine ⟨out, hres, loopFields_length _ _ _ fields s1 out s2 hloop, ?_⟩
  intro i fld hi
  obtain ⟨x, st, accept, fv, st0, hx, hfld, hcase⟩ :=
    loopFields_index _ _ _ fields s1 out s2 hloop i fld hi
  refine ⟨x, st, accept, fv, st0, hx, hfld, ?_⟩
  rw [← (filterField_value _ _ fld st accept fv st0 hfld).1]
  exact hcase

/-- C4: at a settable struct position where resolution yields `(v, Init)` and
the assignment step goes through (`v` converts to the struct type and is
assigned, or `v` is a nil pointer and is skipped), `fillValue` gives the
result it gives when resolution yields `None` and leaves the same state, be
it a struct or a fault; and in the struct it returns every field went through
the per-field step: the filter was asked about the field of the fresh struct,
an accepted field holds what `fillValue` left at it, and a rejected field
holds what the fresh struct held there. -/
theorem init_at_struct {σ : Type} (g : Filler σ) (fuel : Nat) (p n : String)
    (fields : List (StructField Ty)) (val : Value) (s s1 : σ) (obj : Interface)
    (hset : val.CanSet = true)
    (hg : g.genType (Ty.struct p n fields) s = ((obj, .Init), s1))
    (hok : (gotKind (ValueOf obj) = Kind.Ptr ∧ gotIsNil (ValueOf obj) = true) ∨
      (Convert (ValueOf obj) (Ty.struct p n fields)).isSome = true) :
    (∀ (val' : Value) (s' : σ) (obj' : Interface), val'.CanSet = true →
      g.genType (Ty.struct p n fields) s' = ((obj', .None), s1) →
      fillValue g (fuel + 1) (Ty.struct p n fields) val' s' =
        fillValue g (fuel + 1) (Ty.struct p n fields) val s) ∧
    (∀ res s2, fillValue g (fuel + 1) (Ty.struct p n fields) val s = .ok (res, s2) →
      ∃ out, res = Val.struct out ∧ out.length = fields.length ∧
        ∀ (i : Nat) (fld : StructField Ty), fields[i]? = some fld →
          ∃ x st accept fv st0, out[i]? = some x ∧
            filterField g.FieldFilter (Ty.struct p n fields) fld st =
              .ok ((accept, fv), st0) ∧
            ((accept = true ∧ ∃ st', fillValue g fuel fld.Typ fv st0 = .ok (x, st')) ∨
              (accept = false ∧ x = fv.v))) := by
  obtain ⟨val1, ha⟩ := assignStep_ok_of_acceptable (Ty.struct p n fields) val obj .Init hok
  have e := fillValue_struct g fuel p n fields val s s1 obj .Init val1 hset hg (by simp) ha
  refine ⟨?_, ?_⟩
  · intro val' s' obj' hset' hg'
    have ha' : assignStep (Ty.struct p n fields) val' obj' .None = .ok val' := by
      simp [assignStep]
    rw [e, fillValue_struct g fuel p n fields val' s' s1 obj' .None val' hset' hg' (by simp) ha']
  · intro res s2 h
    exact fillValue_struct_index g fuel p n fields val s res s2 hset (by rw [hg]; simp) h

/-- Witness of C4: the struct factory yields `Init` with the struct `(i, j)`
on its first call; both fields are filled by the `String` factory all the
same, as on a later call where the struct factory yields `None`. -/
theorem init_at_struct_witness :
    fillValue initOnceFiller 2 tPair (settable tPair (zero tPair)) 0 =
      .ok (Val.struct [Val.str "x", Val.str "x"], 3) ∧
    fillValue initOnceFiller 2 tPair (settable tPair (zero tPair)) 7 =
      fillValue initOnceFiller 2 tPair (settable tPair (zero tPair)) 0 ∧
    ∃ out, Val.struct [Val.str "x", Val.str "x"] = Val.struct out ∧ out.length = 2 :=
  ⟨rfl,
   (init_at_struct initOnceFiller 1 "" "" [⟨"A", "", tString⟩, ⟨"B", "", tString⟩]
      (settable tPair (zero tPair)) 0 1 (some (tPair, Val.struct [Val.str "i", Val.str "j"]))
      rfl rfl (Or.inr rfl)).1 (settable tPair (zero tPair)) 7 none rfl rfl,
   (fun ⟨out, h1, h2, _⟩ => ⟨out, h1, h2⟩)
    ((init_at_struct initOnceFiller 1 "" "" [⟨"A", "", tString⟩, ⟨"B", "", tString⟩]
      (settable tPair (zero tPair)) 0 1 (some (tPair, Val.struct [Val.str "i", Val.str "j"]))
      rfl rfl (Or.inr rfl)).2 (Val.struct [Val.str "x", Val.str "x"]) 3 rfl)⟩

theorem fillValue_struct_rejected {σ : Type} (g : Filler σ) (fuel : Nat) (p n : String)
    (fields : List (StructField Ty)) (val : Value) (s : σ)
    (ff : Filter σ) (i : Nat) (fld : StructField Ty)
    (res : Val) (s2 : σ) (hset : val.CanSet = true)
    (hff : g.FieldFilter = some ff) (hi : fields[i]? = some fld)
    (hrej : ∀ v st, (ff (Ty.struct p n fields) fld v st).1.1 = false)
    (hnd : (g.genType (Ty.struct p n fields) s).1.2 ≠ .Done)
    (h : fillValue g fuel (Ty.struct p n fields) val s = .ok (res, s2)) :
    ∃ out x, res = Val.struct out ∧ out[i]? = some x ∧
      (x = zero fld.Typ ∨ ∃ v st, (ff (Ty.struct p n fields) fld v st).1.2 = some x) ∧
      ((∀ v st, (ff (Ty.struct p n fields) fld v st).1.2 = none) → x = zero fld.Typ) := by
  obtain ⟨k, s1, out, _, hres, hloop⟩ :=
    fillValue_struct_fields g fuel p n fields val s res s2 hset hnd h
  rw [hff] at hloop
  obtain ⟨x, hx, h1, h2⟩ := loopFields_rejected ff _ _ fields s1 out s2 hloop i fld hi hrej
  exact ⟨out, x, hres, hx, h1, h2⟩

/-- Counterexample to C5, in two parts.  The filter `rejectB` rejects field
`B`, yet a `Struct` kind factory with outcome `Done` decides the whole struct,
and after `Make` field `B` holds `"b"`, not the zero value.  The filter
`storeB` rejects field `B` after storing `"w"` through the value it is
handed, and after `Make` field `B` holds `"w"`. -/
theorem rejected_field_counterexample :
    (rejectB tPair ⟨"B", "", tString⟩ (Field ⟨"B", "", tString⟩) 0).1.1 = false ∧
    Make (filteredFiller (some (tPair, Val.struct [Val.str "a", Val.str "b"])) .Done) 2 tPair 0 =
      .ok (Val.struct [Val.str "a", Val.str "b"], 1) ∧
    [Val.str "a", Val.str "b"][1]? = some (Val.str "b") ∧
    Val.str "b" ≠ zero tString ∧
    (storeB tPair ⟨"B", "", tString⟩ (Field ⟨"B", "", tString⟩) 0).1 =
      (false, some (Val.str "w")) ∧
    Make storingFiller 2 tPair 0 = .ok (Val.struct [Val.str "x", Val.str "w"], 1) ∧
    Val.str "w" ≠ zero tString :=
  ⟨rfl, rfl, rfl, by simp [zero, tString], rfl, rfl, by simp [zero, tString]⟩

/-- C5 (amended): when resolution at the struct position is not `Done`, a
field that the installed filter rejects holds, in the struct that `Make`
returns and in the struct that `Fill` leaves, either the zero value of its
type or what the filter stored through the value it was handed; it holds the
zero value when the filter stores nothing there, whatever factories are
registered. -/
theorem rejected_field_zero {σ : Type} (g : Filler σ) (fuel : Nat) (p n : String)
    (fields : List (StructField Ty)) (s : σ)
    (ff : Filter σ) (i : Nat) (fld : StructField Ty)
    (res : Val) (s2 : σ) (hff : g.FieldFilter = some ff) (hi : fields[i]? = some fld)
    (hrej : ∀ v st, (ff (Ty.struct p n fields) fld v st).1.1 = false)
    (hnd : (g.genType (Ty.struct p n fields) s).1.2 ≠ .Done) :
    (Make g fuel (Ty.struct p n fields) s = .ok (res, s2) →
      ∃ out x, res = Val.struct out ∧ out[i]? = some x ∧
        (x = zero fld.Typ ∨ ∃ v st, (ff (Ty.struct p n fields) fld v st).1.2 = some x) ∧
        ((∀ v st, (ff (Ty.struct p n fields) fld v st).1.2 = none) → x = zero fld.Typ)) ∧
    (∀ (pp pn : String) (y : Val),
      Fill g fuel (some (Ty.ptr pp pn (Ty.struct p n fields), Val.ptr y)) s = .ok (res, s2) →
      ∃ out x, res = Val.struct out ∧ out[i]? = some x ∧
        (x = zero fld.Typ ∨ ∃ v st, (ff (Ty.struct p n fields) fld v st).1.2 = some x) ∧
        ((∀ v st, (ff (Ty.struct p n fields) fld v st).1.2 = none) → x = zero fld.Typ)) := by
  refine ⟨?_, ?_⟩
  · intro h
    exact fillValue_struct_rejected g fuel p n fields
      ⟨Ty.struct p n fields, zero (Ty.struct p n fields), true, false⟩ s ff i fld res s2 rfl
      hff hi hrej hnd h
  · intro pp pn y h
    exact fillValue_struct_rejected g fuel p n fields
      ⟨Ty.struct p n fields, y, true, false⟩ s ff i fld res s2 rfl hff hi hrej hnd h

/-- Witness of C5 (amended): with outcome `Init` at the struct and the filter
`rejectB`, which stores nothing, the accepted field `A` is filled and the
rejected field `B` holds the empty string. -/
theorem rejected_field_zero_witness :
    Make (filteredFiller (some (tPair, Val.struct [Val.str "a", Val.str "b"])) .Init) 2 tPair 0 =
      .ok (Val.struct [Val.str "x", Val.str ""], 2) ∧
    ∃ out x, Val.struct [Val.str "x", Val.str ""] = Val.struct out ∧ out[1]? = some x ∧
      x = zero tString :=
  ⟨rfl,
   (fun ⟨out, x, h1, h2, _, h4⟩ => ⟨out, x, h1, h2, h4 (fun _ _ => rfl)⟩)
    ((rejected_field_zero
      (filteredFiller (some (tPair, Val.struct [Val.str "a", Val.str "b"])) .Init) 2 "" ""
      [⟨"A", "", tString⟩, ⟨"B", "", tString⟩] 0 rejectB 1 ⟨"B", "", tString⟩
      (Val.struct [Val.str "x", Val.str ""]) 2 rfl rfl (fun _ _ => rfl)
      (by simp [filteredFiller, structFiller, stringFiller, Filler.RegisterKind, Filler.init,
        Filler.empty, Filler.genType, Filler.genTypeLoop, Filler.runGen, Filler.genName,
        Filler.genKind, fullName, mapSet, Ty.Kind, objFactory])).1 rfl)⟩

/-! ### Map positions and unsettable targets -/

/-- C6 (the code at the failing input): `Fill` on a map that holds the entry
`k ↦ old`, with a `String` kind factory that would produce `x`: the entry is
left as it was and the factory is never called (the call counter stays 0). -/
theorem map_values_not_refilled :
    stringFiller.genType tString 0 = ((some (tString, Val.str "x"), .Done), 1) ∧
    (Value.MapIndex (settable tMap (Val.map [(Val.str "k", Val.str "old")])) tString
      (Val.str "old")).CanSet = false ∧
    Fill stringFiller 5
      (some (Ty.ptr "" "" tMap, Val.ptr (Val.map [(Val.str "k", Val.str "old")]))) 0 =
      .ok (Val.map [(Val.str "k", Val.str "old")], 0) :=
  ⟨rfl, rfl, rfl⟩

/-- C7: on a target that is not settable `fillValue` returns at once, for
every type, registry and fuel: the target keeps its data and the state is
unchanged, so no factory and no field filter has been called. -/
theorem unsettable_untouched {σ : Type} (g : Filler σ) (fuel : Nat) (typ : Ty) (val : Value)
    (s : σ) (h : val.CanSet = false) : fillValue g fuel typ val s = .ok (val.v, s) :=
  fillValue_unsettable g fuel typ val s h

/-- Witness of C7: a read-only position (an unexported field) keeps its
string although a `String` kind factory is registered. -/
theorem unsettable_untouched_witness :
    (⟨tString, Val.str "keep", true, true⟩ : Value).CanSet = false ∧
    fillValue stringFiller 3 tString ⟨tString, Val.str "keep", true, true⟩ 0 =
      .ok (Val.str "keep", 0) :=
  ⟨rfl, unsettable_untouched stringFiller 3 tString ⟨tString, Val.str "keep", true, true⟩ 0 rfl⟩

/-! ### Registration -/

theorem init_names_of_Inv {σ : Type} (g : Filler σ) (h : g.Inv) :
    ∃ m, g.init.names = some m ∧ ∀ key, m key = g.nameBinding key := by
  rcases h with ⟨h0, hn, _, _⟩ | ⟨h1, ⟨m, hm⟩, _, _⟩
  · refine ⟨fun _ => none, ?_, ?_⟩
    · simp [Filler.init, h0]
    · intro key; simp [Filler.nameBinding, hn]
  · refine ⟨m, ?_, ?_⟩
    · simp [Filler.init, h1, hm]
    · intro key; simp [Filler.nameBinding, hm]

theorem init_kinds_of_Inv {σ : Type} (g : Filler σ) (h : g.Inv) :
    ∃ m, g.init.kinds = some m ∧ ∀ k, m k = g.kindBinding k := by
  rcases h with ⟨h0, _, hk, _⟩ | ⟨h1, _, ⟨m, hm⟩, _⟩
  · refine ⟨fun _ => none, ?_, ?_⟩
    · simp [Filler.init, h0]
    · intro k; simp [Filler.kindBinding, hk]
  · refine ⟨m, ?_, ?_⟩
    · simp [Filler.init, h1, hm]
    · intro k; simp [Filler.kindBinding, hm]

theorem init_funcs_of_Inv {σ : Type} (g : Filler σ) (h : g.Inv) :
    g.init.funcs = g.funcs := by
  rcases h with ⟨h0, _, _, ht⟩ | ⟨h1, _, _, _⟩
  · simp [Filler.init, h0, Filler.funcs, ht, Gen.registered]
  · simp [Filler.init, h1]

theorem init_nameBinding_of_Inv {σ : Type} (g : Filler σ) (h : g.Inv) (key : String) :
    g.init.nameBinding key = g.nameBinding key := by
  obtain ⟨m, hm, hb⟩ := init_names_of_Inv g h
  rw [← hb key]
  simp [Filler.nameBinding, hm]

theorem init_kindBinding_of_Inv {σ : Type} (g : Filler σ) (h : g.Inv) (k : Kind) :
    g.init.kindBinding k = g.kindBinding k := by
  obtain ⟨m, hm, hb⟩ := init_kinds_of_Inv g h
  rw [← hb k]
  simp [Filler.kindBinding, hm]

theorem RegisterName_frame {σ : Type} (g : Filler σ) (h : g.Inv) (p n : String)
    (con : Factory σ) :
    (g.RegisterName p n con).nameBinding (fullName p n) = some con ∧
    (∀ key, key ≠ fullName p n →
      (g.RegisterName p n con).nameBinding key = g.nameBinding key) ∧
    (∀ k, (g.RegisterName p n con).kindBinding k = g.kindBinding k) ∧
    (g.RegisterName p n con).funcs = g.funcs ∧
    (g.RegisterName p n con).FieldFilter = g.FieldFilter := by
  obtain ⟨m, hm, hb⟩ := init_names_of_Inv g h
  refine ⟨?_, ?_, ?_, ?_, ?_⟩
  · simp [Filler.RegisterName, Filler.nameBinding, hm, mapSet]
  · intro key hkey
    simp [Filler.RegisterName, Filler.nameBinding, hm, mapSet, hkey, hb]
  · intro k
    exact init_kindBinding_of_Inv g h k
  · exact init_funcs_of_Inv g h
  · simp only [Filler.RegisterName, Filler.init]
    split <;> rfl

theorem RegisterKind_frame {σ : Type} (g : Filler σ) (h : g.Inv) (kind : Kind)
    (con : Factory σ) :
    (g.RegisterKind kind con).kindBinding kind = some con ∧
    (∀ k, k ≠ kind → (g.RegisterKind kind con).kindBinding k = g.kindBinding k) ∧
    (∀ key, (g.RegisterKind kind con).nameBinding key = g.nameBinding key) ∧
    (g.RegisterKind kind con).funcs = g.funcs ∧
    (g.RegisterKind kind con).FieldFilter = g.FieldFilter := by
  obtain ⟨m, hm, hb⟩ := init_kinds_of_Inv g h
  refine ⟨?_, ?_, ?_, ?_, ?_⟩
  · simp [Filler.RegisterKind, Filler.kindBinding, hm, mapSet]
  · intro k hk
    simp [Filler.RegisterKind, Filler.kindBinding, hm, mapSet, hk, hb]
  · intro key
    exact init_nameBinding_of_Inv g h key
  · exact init_funcs_of_Inv g h
  · simp only [Filler.RegisterKind, Filler.init]
    split <;> rfl

theorem RegisterFunc_frame {σ : Type} (g : Filler σ) (h : g.Inv) (con : TypedFactory σ) :
    (g.RegisterFunc con).funcs = g.funcs ++ [con] ∧
    (∀ key, (g.RegisterFunc con).nameBinding key = g.nameBinding key) ∧
    (∀ k, (g.RegisterFunc con).kindBinding k = g.kindBinding k) ∧
    (g.RegisterFunc con).FieldFilter = g.FieldFilter := by
  refine ⟨?_, ?_, ?_, ?_⟩
  · rw [← init_funcs_of_Inv g h]
    simp [Filler.RegisterFunc, Filler.funcs, List.filterMap_append, Gen.registered]
  · intro key
    exact init_nameBinding_of_Inv g h key
  · intro k
    exact init_kindBinding_of_Inv g h k
  · simp only [Filler.RegisterFunc, Filler.init]
    split <;> rfl

/-- C8: in every reachable registry state, `RegisterName` binds the given
identity and leaves every other name binding, every kind binding and the
sequence of typed factories unchanged; `RegisterKind` does the same for a
kind; `RegisterFunc` appends after the typed factories registered before and
changes neither table; registering twice for one identity or kind leaves the
later factory bound.  The lazy `init` inside a registration never clears or
reorders what was registered before. -/
theorem registration_frame {σ : Type} (g : Filler σ) (h : Reachable g) :
    (∀ p n con,
      (g.RegisterName p n con).nameBinding (fullName p n) = some con ∧
      (∀ key, key ≠ fullName p n →
        (g.RegisterName p n con).nameBinding key = g.nameBinding key) ∧
      (∀ k, (g.RegisterName p n con).kindBinding k = g.kindBinding k) ∧
      (g.RegisterName p n con).funcs = g.funcs) ∧
    (∀ kind con,
      (g.RegisterKind kind con).kindBinding kind = some con ∧
      (∀ k, k ≠ kind → (g.RegisterKind kind con).kindBinding k = g.kindBinding k) ∧
      (∀ key, (g.RegisterKind kind con).nameBinding key = g.nameBinding key) ∧
      (g.RegisterKind kind con).funcs = g.funcs) ∧
    (∀ con,
      (g.RegisterFunc con).funcs = g.funcs ++ [con] ∧
      (∀ key, (g.RegisterFunc con).nameBinding key = g.nameBinding key) ∧
      (∀ k, (g.RegisterFunc con).kindBinding k = g.kindBinding k)) ∧
    (∀ p n c1 c2,
      ((g.RegisterName p n c1).RegisterName p n c2).nameBinding (fullName p n) = some c2) ∧
    (∀ kind c1 c2,
      ((g.RegisterKind kind c1).RegisterKind kind c2).kindBinding kind = some c2) := by
  refine ⟨?_, ?_, ?_, ?_, ?_⟩
  · intro p n con
    obtain ⟨h1, h2, h3, h4, _⟩ := RegisterName_frame g h.inv_holds p n con
    exact ⟨h1, h2, h3, h4⟩
  · intro kind con
    obtain ⟨h1, h2, h3, h4, _⟩ := RegisterKind_frame g h.inv_holds kind con
    exact ⟨h1, h2, h3, h4⟩
  · intro con
    obtain ⟨h1, h2, h3, _⟩ := RegisterFunc_frame g h.inv_holds con
    exact ⟨h1, h2, h3⟩
  · intro p n c1 c2
    exact (RegisterName_frame _ (Reachable.registerName g p n c1 h).inv_holds p n c2).1
  · intro kind c1 c2
    exact (RegisterKind_frame _ (Reachable.registerKind g kind c1 h).inv_holds kind c2).1

/-- Witness of C8: registering a name factory on the three-tier filler keeps
its kind bindings and its typed factories, and a typed factory registered
afterwards comes last. -/
theorem registration_frame_witness :
    Reachable threeTierFiller ∧
    (threeTierFiller.RegisterName "main" "T" (strFactory tString "t" .Done)).kindBinding
      Kind.String = threeTierFiller.kindBinding Kind.String ∧
    (threeTierFiller.RegisterName "main" "T" (strFactory tString "t" .Done)).funcs =
      threeTierFiller.funcs ∧
    (threeTierFiller.RegisterFunc (fun t => strFactory t "last" .Done)).funcs =
      threeTierFiller.funcs ++ [fun t => strFactory t "last" .Done] :=
  ⟨threeTierFiller_reachable,
   ((registration_frame threeTierFiller threeTierFiller_reachable).1 "main" "T"
      (strFactory tString "t" .Done)).2.2.1 Kind.String,
   ((registration_frame threeTierFiller threeTierFiller_reachable).1 "main" "T"
      (strFactory tString "t" .Done)).2.2.2,
   ((registration_frame threeTierFiller threeTierFiller_reachable).2.2.1
      (fun t => strFactory t "last" .Done)).1⟩

/-! ### Termination: fuel bounded by the depth of the type -/

theorem fillValue_succ {σ : Type} (g : Filler σ) (fuel : Nat) (typ : Ty) (val : Value)
    (s s1 : σ) (obj : Interface) (state : FactoryState) (val1 : Value)
    (hset : val.CanSet = true) (hg : g.genType typ s = ((obj, state), s1))
    (hs : state ≠ .Done) (ha : assignStep typ val obj state = .ok val1) :
    fillValue g (fuel + 1) typ val s =
      kindSwitch g.FieldFilter (fillValue g fuel) typ val1 s1 := by
  rw [fillValue]
  simp only [hset, hg, ha]
  simp [hs]

theorem Ty.depth_pos (typ : Ty) : 1 ≤ typ.depth := by
  cases typ <;> simp [Ty.depth]

theorem depthFields_mem (fields : List (StructField Ty)) (fld : StructField Ty)
    (h : fld ∈ fields) : fld.Typ.depth ≤ depthFields fields := by
  induction fields with
  | nil => simp at h
  | cons f rest ih =>
    simp only [depthFields]
    rcases List.mem_cons.mp h with e | e
    · subst e; exact le_max_left _ _
    · exact le_trans (ih e) (le_max_right _ _)

theorem assignStep_ne_fuel (typ : Ty) (val : Value) (obj : Interface) (state : FactoryState) :
    assignStep typ val obj state ≠ .error Fault.outOfFuel := by
  unfold assignStep
  split
  · simp only
    split
    · split <;> simp
    · simp
  · simp

theorem assignStep_typ (typ : Ty) (val val1 : Value) (obj : Interface) (state : FactoryState)
    (h : assignStep typ val obj state = .ok val1) :
    val1.typ = val.typ ∧ val1.flagAddr = val.flagAddr ∧ val1.flagRO = val.flagRO := by
  unfold assignStep at h
  split at h
  · simp only at h
    split at h
    · split at h
      · exact absurd h (by simp)
      · simp only [Except.ok.injEq] at h
        subst h
        simp [Value.Set]
    · simp only [Except.ok.injEq] at h
      subst h
      simp
  · simp only [Except.ok.injEq] at h
    subst h
    simp

theorem loopIndex_ne_fuel {σ : Type} (fill : Value → σ → Res (Val × σ)) (index : Val → Value)
    (xs : List Val) (s : σ) (h : ∀ x st, fill (index x) st ≠ .error Fault.outOfFuel) :
    loopIndex fill index xs s ≠ .error Fault.outOfFuel := by
  induction xs generalizing s with
  | nil => simp [loopIndex]
  | cons x rest ih =>
    simp only [loopIndex]
    cases hf : fill (index x) s with
    | error e =>
      simp only
      intro hc
      exact h x s (by rw [hf, Except.error.inj hc])
    | ok r =>
      obtain ⟨x1, s1⟩ := r
      simp only
      cases hr : loopIndex fill index rest s1 with
      | error e =>
        simp only
        intro hc
        exact ih s1 (hr.trans hc)
      | ok r2 => simp

theorem loopMap_ne_fuel {σ : Type} (fill : Value → σ → Res (Val × σ)) (mapIndex : Val → Value)
    (xs : List (Val × Val)) (s : σ)
    (h : ∀ x st, fill (mapIndex x) st ≠ .error Fault.outOfFuel) :
    loopMap fill mapIndex xs s ≠ .error Fault.outOfFuel := by
  induction xs generalizing s with
  | nil => simp [loopMap]
  | cons kv rest ih =>
    obtain ⟨k, x⟩ := kv
    simp only [loopMap]
    cases hf : fill (mapIndex x) s with
    | error e =>
      simp only
      intro hc
      exact h x s (by rw [hf, Except.error.inj hc])
    | ok r =>
      obtain ⟨x1, s1⟩ := r
      exact ih s1

theorem loopFields_ne_fuel {σ : Type}
    (filter : Option (Filter σ))
    (fill : Value → σ → Res (Val × σ)) (typ : Ty) (fields : List (StructField Ty)) (s : σ)
    (h : ∀ fld, fld ∈ fields → ∀ v st, v.typ = fld.Typ →
      fill v st ≠ .error Fault.outOfFuel) :
    loopFields filter fill typ fields s ≠ .error Fault.outOfFuel := by
  induction fields generalizing s with
  | nil => simp [loopFields]
  | cons fld rest ih =>
    have ih1 := fun st => ih st (fun f hf => h f (List.mem_cons_of_mem _ hf))
    have h0 := h fld (List.mem_cons_self _ _)
    simp only [loopFields]
    cases hff : filterField filter typ fld s with
    | error e =>
      simp only
      intro hc
      exact filterField_ne_fuel filter typ fld s (by rw [hff, Except.error.inj hc])
    | ok r =>
      obtain ⟨⟨accept, fv⟩, s0⟩ := r
      have hty := (filterField_value filter typ fld s accept fv s0 hff).1
      simp only
      cases accept with
      | true =>
        simp only [if_true]
        cases hf : fill fv s0 with
        | error e =>
          simp only
          intro hc
          exact h0 fv s0 hty (by rw [hf, Except.error.inj hc])
        | ok r1 =>
          obtain ⟨x1, s1⟩ := r1
          simp only
          cases hr : loopFields filter fill typ rest s1 with
          | error e =>
            simp only
            intro hc
            exact ih1 s1 (by rw [hr, Except.error.inj hc])
          | ok r2 => simp
      | false =>
        simp only [Bool.false_eq_true, if_false]
        cases hr : loopFields filter fill typ rest s0 with
        | error e =>
          simp only
          intro hc
          exact ih1 s0 (by rw [hr, Except.error.inj hc])
        | ok r2 => simp

theorem kindSwitch_ne_fuel {σ : Type}
    (filter : Option (Filter σ))
    (fill : Ty → Value → σ → Res (Val × σ)) (typ : Ty) (val : Value) (s : σ)
    (hty : val.typ = typ)
    (h : ∀ t' v' st, v'.typ = t' → t'.depth < typ.depth →
      fill t' v' st ≠ .error Fault.outOfFuel) :
    kindSwitch filter fill typ val s ≠ .error Fault.outOfFuel := by
  obtain ⟨vt, vv, fa, fr⟩ := val
  simp only at hty
  subst hty
  cases vt with
  | basic p n b => simp [kindSwitch]
  | ptr p n t =>
    have h1 := h t ⟨t, zero t, true, fr⟩ s rfl (by simp [Ty.depth])
    simp only [kindSwitch, Value.Set, New, Value.IsNil, Value.Elem]
    cases hf : fill t ⟨t, zero t, true, fr⟩ s with
    | error e =>
      simp only [Bool.not_false, if_true]
      intro hc
      exact h1 (by rw [hf, Except.error.inj hc])
    | ok r => simp
  | array p n l t =>
    simp only [kindSwitch]
    cases vv with
    | array elems =>
      simp only
      have hl := loopIndex_ne_fuel (fun x => fill x.typ x)
        (Value.IndexArray ⟨Ty.array p n l t, Val.array elems, fa, fr⟩ t) elems s
        (fun x st => h t _ st rfl (by simp [Ty.depth]))
      split
      · rename_i e he
        intro hc
        exact hl (by rw [he, Except.error.inj hc])
      · simp
    | _ => simp
  | slice p n t =>
    simp only [kindSwitch]
    split
    · cases vv with
      | slice elems cap =>
        simp only
        have hl := loopIndex_ne_fuel (fun x => fill x.typ x)
          (Value.IndexSlice ⟨Ty.slice p n t, Val.slice elems cap, fa, fr⟩ t) elems s
          (fun x st => h t _ st rfl (by simp [Ty.depth]))
        split
        · rename_i e he
          intro hc
          exact hl (by rw [he, Except.error.inj hc])
        · simp
      | _ => simp
    · simp
  | map p n k t =>
    simp only [kindSwitch]
    split
    · cases vv with
      | map entries =>
        simp only
        have hl := loopMap_ne_fuel (fun x => fill t x)
          (Value.MapIndex ⟨Ty.map p n k t, Val.map entries, fa, fr⟩ t) entries s
          (fun x st => h t _ st rfl (by
            simp only [Ty.depth]
            have := le_max_right k.depth t.depth
            omega))
        split
        · rename_i e he
          intro hc
          exact hl (by rw [he, Except.error.inj hc])
        · simp
      | _ => simp
    · simp
  | struct p n fields =>
    simp only [kindSwitch]
    have hl := loopFields_ne_fuel filter (fun x => fill x.typ x) (Ty.struct p n fields)
      fields s (fun fld hm v st hv => h v.typ v st rfl (by
        have := depthFields_mem fields fld hm
        rw [hv]
        simp only [Ty.depth]
        omega))
    split
    · rename_i e he
      intro hc
      exact hl (by rw [he, Except.error.inj hc])
    · simp

theorem fillValue_ne_fuel {σ : Type} (g : Filler σ) (fuel : Nat) (typ : Ty) (val : Value)
    (s : σ) (hty : val.typ = typ) (hfuel : typ.depth ≤ fuel) :
    fillValue g fuel typ val s ≠ .error Fault.outOfFuel := by
  induction fuel generalizing typ val s with
  | zero =>
    have := Ty.depth_pos typ
    omega
  | succ fuel ih =>
    by_cases hset : val.CanSet = true
    · rcases hg : g.genType typ s with ⟨⟨obj, state⟩, s1⟩
      cases ha : assignStep typ val obj state with
      | error e =>
        rw [fillValue_assign_error g fuel typ val s s1 obj state e hset hg ha]
        intro hc
        exact assignStep_ne_fuel typ val obj state (by rw [ha, Except.error.inj hc])
      | ok val1 =>
        by_cases hs : state = .Done
        · subst hs
          rw [fillValue_done g fuel typ val s s1 obj val1 hset hg ha]
          simp
        · rw [fillValue_succ g fuel typ val s s1 obj state val1 hset hg hs ha]
          apply kindSwitch_ne_fuel
          · rw [(assignStep_typ typ val val1 obj state ha).1, hty]
          · intro t' v' st ht hd
            exact ih t' v' st ht (by omega)
    · rw [fillValue_unsettable g (fuel + 1) typ val s (by simpa using hset)]
      simp

theorem loopIndex_mono {σ : Type} (f1 f2 : Value → σ → Res (Val × σ)) (index : Val → Value)
    (xs : List Val) (s : σ)
    (h : ∀ x st, f1 (index x) st ≠ .error Fault.outOfFuel → f2 (index x) st = f1 (index x) st)
    (hne : loopIndex f1 index xs s ≠ .error Fault.outOfFuel) :
    loopIndex f2 index xs s = loopIndex f1 index xs s := by
  induction xs generalizing s with
  | nil => rfl
  | cons x rest ih =>
    simp only [loopIndex] at hne ⊢
    cases hf : f1 (index x) s with
    | error e =>
      rw [hf] at hne
      simp only at hne
      have h2 := h x s (by
        rw [hf]; intro hc; exact hne (by rw [Except.error.inj hc]))
      rw [h2, hf]
    | ok r =>
      obtain ⟨x1, s1⟩ := r
      rw [hf] at hne
      simp only at hne
      have h2 := h x s (by rw [hf]; simp)
      rw [h2, hf]
      simp only
      have hr : loopIndex f1 index rest s1 ≠ .error Fault.outOfFuel := by
        intro hc; rw [hc] at hne; exact hne rfl
      rw [ih s1 hr]

theorem loopMap_mono {σ : Type} (f1 f2 : Value → σ → Res (Val × σ)) (mapIndex : Val → Value)
    (xs : List (Val × Val)) (s : σ)
    (h : ∀ x st, f1 (mapIndex x) st ≠ .error Fault.outOfFuel →
      f2 (mapIndex x) st = f1 (mapIndex x) st)
    (hne : loopMap f1 mapIndex xs s ≠ .error Fault.outOfFuel) :
    loopMap f2 mapIndex xs s = loopMap f1 mapIndex xs s := by
  induction xs generalizing s with
  | nil => rfl
  | cons kv rest ih =>
    obtain ⟨k, x⟩ := kv
    simp only [loopMap] at hne ⊢
    cases hf : f1 (mapIndex x) s with
    | error e =>
      rw [hf] at hne
      simp only at hne
      have h2 := h x s (by
        rw [hf]; intro hc; exact hne (by rw [Except.error.inj hc]))
      rw [h2, hf]
    | ok r =>
      obtain ⟨x1, s1⟩ := r
      rw [hf] at hne
      simp only at hne
      have h2 := h x s (by rw [hf]; simp)
      rw [h2, hf]
      simp only
      exact ih s1 hne

theorem loopFields_mono {σ : Type}
    (filter : Option (Filter σ))
    (f1 f2 : Value → σ → Res (Val × σ)) (typ : Ty) (fields : List (StructField Ty)) (s : σ)
    (h : ∀ x st, f1 x st ≠ .error Fault.outOfFuel → f2 x st = f1 x st)
    (hne : loopFields filter f1 typ fields s ≠ .error Fault.outOfFuel) :
    loopFields filter f2 typ fields s = loopFields filter f1 typ fields s := by
  induction fields generalizing s with
  | nil => rfl
  | cons fld rest ih =>
    simp only [loopFields] at hne ⊢
    cases hff : filterField filter typ fld s with
    | error e => rfl
    | ok r =>
      obtain ⟨⟨accept, fv⟩, s0⟩ := r
      rw [hff] at hne
      simp only at hne ⊢
      cases accept with
      | true =>
        simp only [if_true] at hne ⊢
        cases hf : f1 fv s0 with
        | error e =>
          rw [hf] at hne
          simp only at hne
          have h2 := h fv s0 (by
            rw [hf]; intro hc; exact hne (by rw [Except.error.inj hc]))
          rw [h2, hf]
        | ok r1 =>
          obtain ⟨x1, s1⟩ := r1
          rw [hf] at hne
          simp only at hne
          have h2 := h fv s0 (by rw [hf]; simp)
          rw [h2, hf]
          simp only
          have hr : loopFields filter f1 typ rest s1 ≠ .error Fault.outOfFuel := by
            intro hc; rw [hc] at hne; exact hne rfl
          rw [ih s1 hr]
      | false =>
        simp only [Bool.false_eq_true, if_false] at hne ⊢
        have hr : loopFields filter f1 typ rest s0 ≠ .error Fault.outOfFuel := by
          intro hc; rw [hc] at hne; exact hne rfl
        rw [ih s0 hr]

theorem kindSwitch_mono {σ : Type}
    (filter : Option (Filter σ))
    (f1 f2 : Ty → Value → σ → Res (Val × σ)) (typ : Ty) (val : Value) (s : σ)
    (h : ∀ t v st, f1 t v st ≠ .error Fault.outOfFuel → f2 t v st = f1 t v st)
    (hne : kindSwitch filter f1 typ val s ≠ .error Fault.outOfFuel) :
    kindSwitch filter f2 typ val s = kindSwitch filter f1 typ val s := by
  cases typ with
  | basic p n b => rfl
  | ptr p n t =>
    simp only [kindSwitch] at hne ⊢
    split
    · rename_i hnil
      split
      · rfl
      · rename_i e he
        simp only [hnil, if_true, he] at hne
        cases hf : f1 e.typ e s with
        | error err =>
          rw [hf] at hne
          simp only at hne
          have h2 := h e.typ e s (by
            rw [hf]; intro hc; exact hne (by rw [Except.error.inj hc]))
          rw [h2, hf]
        | ok r =>
          have h2 := h e.typ e s (by rw [hf]; simp)
          rw [h2, hf]
    · rfl
  | array p n l t =>
    simp only [kindSwitch] at hne ⊢
    split
    · rename_i elems hv
      rw [hv] at hne
      simp only at hne
      have hl := loopIndex_mono (fun x => f1 x.typ x) (fun x => f2 x.typ x)
        (val.IndexArray t) elems s (fun x st hx => h _ _ st hx) (by
          intro hc; rw [hc] at hne; exact hne rfl)
      rw [hl]
    · rfl
  | slice p n t =>
    simp only [kindSwitch] at hne ⊢
    split
    · rename_i hnil
      simp only [hnil, if_true] at hne
      split
      · rename_i elems cap hv
        rw [hv] at hne
        simp only at hne
        have hl := loopIndex_mono (fun x => f1 x.typ x) (fun x => f2 x.typ x)
          (val.IndexSlice t) elems s (fun x st hx => h _ _ st hx) (by
            intro hc; rw [hc] at hne; exact hne rfl)
        rw [hl]
      · rfl
    · rfl
  | map p n k t =>
    simp only [kindSwitch] at hne ⊢
    split
    · rename_i hnil
      simp only [hnil, if_true] at hne
      split
      · rename_i entries hv
        rw [hv] at hne
        simp only at hne
        have hl := loopMap_mono (fun x => f1 t x) (fun x => f2 t x)
          (val.MapIndex t) entries s (fun x st hx => h _ _ st hx) (by
            intro hc; rw [hc] at hne; exact hne rfl)
        rw [hl]
      · rfl
    · rfl
  | struct p n fields =>
    simp only [kindSwitch] at hne ⊢
    have hl := loopFields_mono filter (fun x => f1 x.typ x) (fun x => f2 x.typ x)
      (Ty.struct p n fields) fields s (fun x st hx => h _ _ st hx) (by
        intro hc; rw [hc] at hne; exact hne rfl)
    rw [hl]

theorem fillValue_zero_settable {σ : Type} (g : Filler σ) (typ : Ty) (val : Value) (s : σ)
    (hset : val.CanSet = true) : fillValue g 0 typ val s = .error Fault.outOfFuel := by
  rw [fillValue]
  simp [hset]

theorem fillValue_mono {σ : Type} (g : Filler σ) (fuel : Nat) (typ : Ty) (val : Value) (s : σ)
    (hne : fillValue g fuel typ val s ≠ .error Fault.outOfFuel) :
    fillValue g (fuel + 1) typ val s = fillValue g fuel typ val s := by
  induction fuel generalizing typ val s with
  | zero =>
    by_cases hset : val.CanSet = true
    · exact absurd (fillValue_zero_settable g typ val s hset) hne
    · rw [fillValue_unsettable g 1 typ val s (by simpa using hset),
        fillValue_unsettable g 0 typ val s (by simpa using hset)]
  | succ fuel ih =>
    by_cases hset : val.CanSet = true
    · rcases hg : g.genType typ s with ⟨⟨obj, state⟩, s1⟩
      cases ha : assignStep typ val obj state with
      | error e =>
        rw [fillValue_assign_error g (fuel + 1) typ val s s1 obj state e hset hg ha,
          fillValue_assign_error g fuel typ val s s1 obj state e hset hg ha]
      | ok val1 =>
        by_cases hs : state = .Done
        · subst hs
          rw [fillValue_done g (fuel + 1) typ val s s1 obj val1 hset hg ha,
            fillValue_done g fuel typ val s s1 obj val1 hset hg ha]
        · rw [fillValue_succ g fuel typ val s s1 obj state val1 hset hg hs ha] at hne
          rw [fillValue_succ g (fuel + 1) typ val s s1 obj state val1 hset hg hs ha,
            fillValue_succ g fuel typ val s s1 obj state val1 hset hg hs ha]
          exact kindSwitch_mono g.FieldFilter (fillValue g fuel) (fillValue g (fuel + 1)) typ
            val1 s1 (fun t v st hx => ih t v st hx) hne
    · rw [fillValue_unsettable g (fuel + 1 + 1) typ val s (by simpa using hset),
        fillValue_unsettable g (fuel + 1) typ val s (by simpa using hset)]

theorem fillValue_fuel_stable {σ : Type} (g : Filler σ) (typ : Ty) (val : Value) (s : σ)
    (hty : val.typ = typ) (k : Nat) :
    fillValue g (typ.depth + k) typ val s = fillValue g typ.depth typ val s := by
  induction k with
  | zero => rfl
  | succ k ih =>
    rw [← Nat.add_assoc, fillValue_mono g (typ.depth + k) typ val s, ih]
    rw [ih]
    exact fillValue_ne_fuel g typ.depth typ val s hty (le_refl _)

/-- C9: `fillValue` is total by recursion on the structure of the type.  For
every registry, type, target of that type and state, fuel equal to the depth
of the type is enough: the run never exhausts it, and every larger fuel gives
the same result; so `Make` and `Fill` terminate with that result. -/
theorem fill_terminates {σ : Type} (g : Filler σ) (typ : Ty) (s : σ) (fuel : Nat)
    (hfuel : typ.depth ≤ fuel) :
    (∀ val : Value, val.typ = typ →
      fillValue g fuel typ val s ≠ .error Fault.outOfFuel ∧
      fillValue g fuel typ val s = fillValue g typ.depth typ val s) ∧
    (Make g fuel typ s ≠ .error Fault.outOfFuel ∧
      Make g fuel typ s = Make g typ.depth typ s) ∧
    (∀ (p n : String) (x : Val),
      Fill g fuel (some (Ty.ptr p n typ, Val.ptr x)) s ≠ .error Fault.outOfFuel ∧
      Fill g fuel (some (Ty.ptr p n typ, Val.ptr x)) s =
        Fill g typ.depth (some (Ty.ptr p n typ, Val.ptr x)) s) := by
  obtain ⟨k, rfl⟩ := Nat.exists_eq_add_of_le hfuel
  have key : ∀ val : Value, val.typ = typ →
      fillValue g (typ.depth + k) typ val s ≠ .error Fault.outOfFuel ∧
      fillValue g (typ.depth + k) typ val s = fillValue g typ.depth typ val s := by
    intro val hty
    refine ⟨?_, fillValue_fuel_stable g typ val s hty k⟩
    rw [fillValue_fuel_stable g typ val s hty k]
    exact fillValue_ne_fuel g typ.depth typ val s hty (le_refl _)
  refine ⟨key, ?_, ?_⟩
  · exact key ⟨typ, zero typ, true, false⟩ rfl
  · intro p n x
    exact key ⟨typ, x, true, false⟩ rfl

/-- Witness of C9: the struct with two string fields has depth 2; with fuel 2
and with fuel 9 `Make` gives the same filled struct. -/
theorem fill_terminates_witness :
    tPair.depth ≤ 9 ∧ Make stringFiller 9 tPair 0 = Make stringFiller tPair.depth tPair 0 ∧
    Make stringFiller tPair.depth tPair 0 = .ok (Val.struct [Val.str "x", Val.str "x"], 2) :=
  ⟨by decide, (fill_terminates stringFiller tPair 0 9 (by decide)).2.1.2, rfl⟩

/-! ### The two entry points -/

/-- C10: `Fill` on a pointer to the zero value of a type leaves at the pointee
exactly what `Make` returns for that type, with the same final state of the
factories, for every registry, fuel and starting state. -/
theorem Fill_zero_eq_Make {σ : Type} (g : Filler σ) (fuel : Nat) (p n : String) (typ : Ty)
    (s : σ) :
    Fill g fuel (some (Ty.ptr p n typ, Val.ptr (zero typ))) s = Make g fuel typ s := by
  rfl

/-! ### Registry keys -/

theorem split_at_last {α : Type} (c : α) (a a' b b' : List α)
    (h : a ++ c :: b = a' ++ c :: b') (hb : c ∉ b) (hb' : c ∉ b') : a = a' ∧ b = b' := by
  induction a generalizing a' with
  | nil =>
    cases a' with
    | nil => simpa using h
    | cons y rest =>
      simp only [List.nil_append, List.cons_append, List.cons.injEq] at h
      exact absurd (h.2 ▸ (by simp : c ∈ rest ++ c :: b')) hb
  | cons x rest ih =>
    cases a' with
    | nil =>
      simp only [List.nil_append, List.cons_append, List.cons.injEq] at h
      exact absurd (h.2 ▸ (by simp : c ∈ rest ++ c :: b)) hb'
    | cons y rest' =>
      simp only [List.cons_append, List.cons.injEq] at h
      obtain ⟨e1, e2⟩ := ih rest' h.2
      exact ⟨by rw [h.1, e1], e2⟩

theorem fullName_of_ne_empty (p n : String) (hn : n ≠ "") :
    fullName p n = if p = "" then n else p ++ "." ++ n := by
  simp [fullName, hn]

theorem fullName_data (p n : String) (hn : n ≠ "") (hp : p ≠ "") :
    (fullName p n).data = p.data ++ '.' :: n.data := by
  rw [fullName_of_ne_empty p n hn, if_neg hp]
  simp [String.data_append]

theorem fullName_eq_empty_iff (p n : String) : fullName p n = "" ↔ n = "" := by
  constructor
  · intro h
    by_contra hn
    by_cases hp : p = ""
    · rw [fullName_of_ne_empty p n hn, if_pos hp] at h
      exact hn h
    · have hd := fullName_data p n hn hp
      rw [h] at hd
      simp at hd
  · intro h
    simp [fullName, h]

theorem fullName_injective (p1 n1 p2 n2 : String) (h1 : n1 ≠ "") (h2 : n2 ≠ "")
    (d1 : '.' ∉ n1.data) (d2 : '.' ∉ n2.data) (h : fullName p1 n1 = fullName p2 n2) :
    p1 = p2 ∧ n1 = n2 := by
  by_cases hp1 : p1 = ""
  · by_cases hp2 : p2 = ""
    · rw [fullName_of_ne_empty p1 n1 h1, fullName_of_ne_empty p2 n2 h2, if_pos hp1,
        if_pos hp2] at h
      exact ⟨by rw [hp1, hp2], h⟩
    · have hd := fullName_data p2 n2 h2 hp2
      rw [← h, fullName_of_ne_empty p1 n1 h1, if_pos hp1] at hd
      exact absurd (hd ▸ (by simp : '.' ∈ p2.data ++ '.' :: n2.data)) d1
  · by_cases hp2 : p2 = ""
    · have hd := fullName_data p1 n1 h1 hp1
      rw [h, fullName_of_ne_empty p2 n2 h2, if_pos hp2] at hd
      exact absurd (hd ▸ (by simp : '.' ∈ p1.data ++ '.' :: n1.data)) d2
    · have hd1 := fullName_data p1 n1 h1 hp1
      have hd2 := fullName_data p2 n2 h2 hp2
      rw [h, hd2] at hd1
      obtain ⟨e1, e2⟩ := split_at_last '.' p2.data p1.data n2.data n1.data hd1 d2 d1
      exact ⟨(String.ext e1).symm, (String.ext e2).symm⟩

/-- C19: `fullName` is empty exactly when the type name is empty; on
identities with a non-empty type name without a dot it is injective; so in a
reachable registry `RegisterName` for one such identity leaves the binding
that answers for any other such identity as it was. -/
theorem fullName_key {σ : Type} (g : Filler σ) (hg : Reachable g) :
    (∀ p n : String, fullName p n = "" ↔ n = "") ∧
    (∀ p1 n1 p2 n2 : String, n1 ≠ "" → n2 ≠ "" → '.' ∉ n1.data → '.' ∉ n2.data →
      fullName p1 n1 = fullName p2 n2 → p1 = p2 ∧ n1 = n2) ∧
    (∀ (p1 n1 p2 n2 : String) (con : Factory σ), n1 ≠ "" → n2 ≠ "" → '.' ∉ n1.data →
      '.' ∉ n2.data → (p1, n1) ≠ (p2, n2) →
      (g.RegisterName p1 n1 con).nameBinding (fullName p2 n2) =
        g.nameBinding (fullName p2 n2)) := by
  refine ⟨fullName_eq_empty_iff, fullName_injective, ?_⟩
  intro p1 n1 p2 n2 con h1 h2 d1 d2 hne
  apply (RegisterName_frame g hg.inv_holds p1 n1 con).2.1
  intro hk
  obtain ⟨e1, e2⟩ := fullName_injective p2 n2 p1 n1 h2 h1 d2 d1 hk
  exact hne (by rw [e1, e2])

/-- Witness of C19: `bson.ObjectId` and `main.ObjectId` have different keys,
and registering a factory for `main.ObjectId` on the three-tier filler leaves
the binding of `bson.ObjectId` as it was. -/
theorem fullName_key_witness :
    Reachable threeTierFiller ∧
    (threeTierFiller.RegisterName "main" "ObjectId" (strFactory tString "m" .Done)).nameBinding
        (fullName "gopkg.in/mgo.v2/bson" "ObjectId") =
      threeTierFiller.nameBinding (fullName "gopkg.in/mgo.v2/bson" "ObjectId") :=
  ⟨threeTierFiller_reachable,
   (fullName_key threeTierFiller threeTierFiller_reachable).2.2 "main" "ObjectId"
     "gopkg.in/mgo.v2/bson" "ObjectId" (strFactory tString "m" .Done) (by decide) (by decide)
     (by decide) (by decide) (by decide)⟩

/-! ### Struct positions: the field loop -/

theorem filterField_stored {σ : Type} (filter : Option (Filter σ)) (typ : Ty)
    (fld : StructField Ty) (s : σ) (accept : Bool) (fv : Value) (s0 : σ)
    (h : filterField filter typ fld s = .ok ((accept, fv), s0))
    (hpure : ∀ ff, filter = some ff → ∀ v st, (ff typ fld v st).1.2 = none) :
    fv = Field fld := by
  cases filter with
  | none =>
    rw [filterField_none] at h
    simp only [Except.ok.injEq, Prod.mk.injEq] at h
    exact h.1.2.symm
  | some ff =>
    obtain ⟨_, _, hc⟩ := filterField_some ff typ fld s accept fv s0 h
    rcases hc with ⟨_, e⟩ | ⟨x, hx, _⟩
    · exact e
    · rw [hpure ff rfl] at hx
      exact absurd hx (by simp)

theorem filterField_accept {σ : Type} (filter : Option (Filter σ)) (typ : Ty)
    (fld : StructField Ty) (s : σ)
    (hacc : ∀ ff, filter = some ff → ∀ v st, (ff typ fld v st).1.1 = true ∧
      ∀ x, (ff typ fld v st).1.2 = some x → hasType fld.Typ x = true)
    (hexp : fld.PkgPath = "") :
    ∃ fv s0, filterField filter typ fld s = .ok ((true, fv), s0) ∧ fv.typ = fld.Typ ∧
      fv.CanSet = true := by
  have hset : (Field fld).CanSet = true := by simp [Field, Value.CanSet, hexp]
  cases filter with
  | none => exact ⟨Field fld, s, rfl, rfl, hset⟩
  | some ff =>
    obtain ⟨h1, h2⟩ := hacc ff rfl (Field fld) s
    rcases hr : ff typ fld (Field fld) s with ⟨⟨a, w⟩, s0⟩
    rw [hr] at h1 h2
    simp only at h1 h2
    subst h1
    cases w with
    | none => exact ⟨Field fld, s0, by simp only [filterField, hr], rfl, hset⟩
    | some x =>
      refine ⟨(Field fld).Set ⟨fld.Typ, x, false, false⟩, s0, ?_, rfl, hset⟩
      simp only [filterField, hr, hset, h2 x rfl, Bool.and_self, if_true]

theorem loopFields_const {σ : Type}
    (filter : Option (Filter σ))
    (fill : Value → σ → Res (Val × σ)) (typ : Ty) (fields : List (StructField Ty)) (s : σ)
    (y : Val)
    (hacc : ∀ ff, filter = some ff → ∀ fld v st, (ff typ fld v st).1.1 = true ∧
      ∀ x, (ff typ fld v st).1.2 = some x → hasType fld.Typ x = true)
    (hfill : ∀ fld, fld ∈ fields → fld.PkgPath = "" ∧
      ∀ v st, v.typ = fld.Typ → v.CanSet = true → ∃ st', fill v st = .ok (y, st')) :
    ∃ s2, loopFields filter fill typ fields s = .ok (List.replicate fields.length y, s2) := by
  induction fields generalizing s with
  | nil => exact ⟨s, rfl⟩
  | cons f rest ih =>
    have hrest := fun st => ih st (fun fld hm => hfill fld (List.mem_cons_of_mem _ hm))
    obtain ⟨hexp, hf⟩ := hfill f (List.mem_cons_self _ _)
    obtain ⟨fv, s0, hff, hty, hset⟩ := filterField_accept filter typ f s
      (fun ff hf' v st => hacc ff hf' f v st) hexp
    obtain ⟨st1, h1⟩ := hf fv s0 hty hset
    obtain ⟨st2, h2⟩ := hrest st1
    refine ⟨st2, ?_⟩
    simp only [loopFields, hff, if_true, h1, h2, List.length_cons, List.replicate_succ]

theorem assignStep_error_indep (typ : Ty) (val val' : Value) (obj : Interface)
    (state : FactoryState) (e : Fault) (hk : val.Kind ≠ Kind.Ptr) (hk' : val'.Kind ≠ Kind.Ptr)
    (h : assignStep typ val obj state = .error e) :
    assignStep typ val' obj state = .error e := by
  have e1 : (val.Kind != Kind.Ptr || !val.IsNil) = true := by simp [hk]
  have e2 : (val'.Kind != Kind.Ptr || !val'.IsNil) = true := by simp [hk']
  unfold assignStep at h ⊢
  rw [e1] at h
  rw [e2]
  split at h
  · rw [if_pos (by assumption)]
    simp only at h ⊢
    split at h
    · rename_i hc
      rw [if_pos hc]
      split at h
      · exact h
      · exact absurd h (by simp)
    · exact absurd h (by simp)
  · exact absurd h (by simp)

theorem fillValue_basic_none {σ : Type} (g : Filler σ) (fuel : Nat) (p n : String) (b : Basic)
    (val : Value) (s : σ) (x : Val) (s2 : σ)
    (hnone : ∀ st, (g.genType (Ty.basic p n b) st).1.2 = .None)
    (h : fillValue g fuel (Ty.basic p n b) val s = .ok (x, s2)) : x = val.v := by
  by_cases hset : val.CanSet = true
  · cases fuel with
    | zero =>
      rw [fillValue_zero_settable g _ val s hset] at h
      exact absurd h (by simp)
    | succ k =>
      rcases hg : g.genType (Ty.basic p n b) s with ⟨⟨obj, state⟩, s1⟩
      have hst : state = .None := by simpa [hg] using hnone s
      subst hst
      have ha : assignStep (Ty.basic p n b) val obj .None = .ok val := by simp [assignStep]
      rw [fillValue_succ g k _ val s s1 obj .None val hset hg (by simp) ha] at h
      simp only [kindSwitch, Except.ok.injEq, Prod.mk.injEq] at h
      exact h.1.symm
  · rw [fillValue_unsettable g fuel _ val s (by simpa using hset)] at h
    simp only [Except.ok.injEq, Prod.mk.injEq] at h
    exact h.1.symm

theorem fillValue_struct_indep {σ : Type} (g : Filler σ) (fuel : Nat) (p n : String)
    (fields : List (StructField Ty)) (val val' : Value) (s : σ)
    (hty : val.typ = Ty.struct p n fields) (hty' : val'.typ = Ty.struct p n fields)
    (hset : val.CanSet = true) (hset' : val'.CanSet = true)
    (hnd : (g.genType (Ty.struct p n fields) s).1.2 ≠ .Done) :
    fillValue g fuel (Ty.struct p n fields) val s =
      fillValue g fuel (Ty.struct p n fields) val' s := by
  have hk : val.Kind ≠ Kind.Ptr := by simp [Value.Kind, hty, Ty.Kind]
  have hk' : val'.Kind ≠ Kind.Ptr := by simp [Value.Kind, hty', Ty.Kind]
  cases fuel with
  | zero =>
    rw [fillValue_zero_settable g _ val s hset, fillValue_zero_settable g _ val' s hset']
  | succ k =>
    rcases hg : g.genType (Ty.struct p n fields) s with ⟨⟨obj, state⟩, s1⟩
    have hst : state ≠ .Done := by simpa [hg] using hnd
    cases ha : assignStep (Ty.struct p n fields) val obj state with
    | error e =>
      have ha' := assignStep_error_indep _ val val' obj state e hk hk' ha
      rw [fillValue_assign_error g k _ val s s1 obj state e hset hg ha,
        fillValue_assign_error g k _ val' s s1 obj state e hset' hg ha']
    | ok val1 =>
      cases ha' : assignStep (Ty.struct p n fields) val' obj state with
      | error e =>
        have hc := assignStep_error_indep _ val' val obj state e hk' hk ha'
        rw [ha] at hc
        exact absurd hc (by simp)
      | ok val1' =>
        rw [fillValue_struct g k p n fields val s s1 obj state val1 hset hg hst ha,
          fillValue_struct g k p n fields val' s s1 obj state val1' hset' hg hst ha']

/-- Counterexample to C20: the filter `storeB` rejects field `B` after storing
`"w"` through the value it is handed.  Resolution at the struct position is
not `Done`, and a target holding `(old, kept)` and a zero target are both left
as `(x, w)`: field `B` is rejected by the filter and is not reset to zero. -/
theorem struct_fill_counterexample :
    (storeB tPair ⟨"B", "", tString⟩ (Field ⟨"B", "", tString⟩) 0).1 =
      (false, some (Val.str "w")) ∧
    storingFiller.genType tPair 0 = ((none, .None), 0) ∧
    fillValue storingFiller 2 tPair
        (settable tPair (Val.struct [Val.str "old", Val.str "kept"])) 0 =
      .ok (Val.struct [Val.str "x", Val.str "w"], 1) ∧
    fillValue storingFiller 2 tPair (settable tPair (zero tPair)) 0 =
      .ok (Val.struct [Val.str "x", Val.str "w"], 1) ∧
    [Val.str "x", Val.str "w"][1]? = some (Val.str "w") ∧
    Val.str "w" ≠ zero tString :=
  ⟨rfl, rfl, rfl, rfl, rfl, by simp [zero, tString]⟩

/-- C20 (amended): when resolution at a struct position is not `Done`, two
settable targets of the struct type with any prior contents get the same
result from `fillValue` (the same struct and state, or the same fault),
whatever the factories and the filter; in that struct a field that the filter
rejects without storing anything in it, and a field of a scalar type for which
resolution always yields `None` and in which the filter, if there is one,
stores nothing, hold the zero value of their type. -/
theorem struct_fill_overwrites {σ : Type} (g : Filler σ) (fuel : Nat) (p n : String)
    (fields : List (StructField Ty)) (val val' : Value) (s : σ)
    (hty : val.typ = Ty.struct p n fields) (hty' : val'.typ = Ty.struct p n fields)
    (hset : val.CanSet = true) (hset' : val'.CanSet = true)
    (hnd : (g.genType (Ty.struct p n fields) s).1.2 ≠ .Done) :
    fillValue g fuel (Ty.struct p n fields) val s =
      fillValue g fuel (Ty.struct p n fields) val' s ∧
    ∀ res s2, fillValue g fuel (Ty.struct p n fields) val s = .ok (res, s2) →
      ∃ out, res = Val.struct out ∧
        (∀ (i : Nat) (fld : StructField Ty) ff, fields[i]? = some fld →
          g.FieldFilter = some ff →
          (∀ v st, (ff (Ty.struct p n fields) fld v st).1 = (false, none)) →
          out[i]? = some (zero fld.Typ)) ∧
        (∀ (i : Nat) (fld : StructField Ty) pp nn b, fields[i]? = some fld →
          fld.Typ = Ty.basic pp nn b →
          (∀ st, (g.genType fld.Typ st).1.2 = .None) →
          (∀ ff, g.FieldFilter = some ff →
            ∀ v st, (ff (Ty.struct p n fields) fld v st).1.2 = none) →
          out[i]? = some (zero fld.Typ)) := by
  refine ⟨fillValue_struct_indep g fuel p n fields val val' s hty hty' hset hset' hnd, ?_⟩
  intro res s2 h
  obtain ⟨k, s1, out, _, hres, hloop⟩ :=
    fillValue_struct_fields g fuel p n fields val s res s2 hset hnd h
  refine ⟨out, hres, ?_, ?_⟩
  · intro i fld ff hi hff hrej
    rw [hff] at hloop
    obtain ⟨x, hx, _, hz⟩ := loopFields_rejected ff _ _ fields s1 out s2 hloop i fld hi
      (fun v st => by rw [hrej v st])
    rw [hx, hz (fun v st => by rw [hrej v st])]
  · intro i fld pp nn b hi htyp hnone hpure
    obtain ⟨x, st, accept, fv, st0, hx, hfld, hcase⟩ :=
      loopFields_index _ _ _ fields s1 out s2 hloop i fld hi
    have hfv := filterField_stored _ _ fld st accept fv st0 hfld hpure
    subst hfv
    rcases hcase with ⟨_, st', hf⟩ | ⟨_, hz⟩
    · have hv : (Field fld).typ = Ty.basic pp nn b := by simp [Field, htyp]
      simp only [hv] at hf
      rw [htyp] at hnone
      have := fillValue_basic_none g k pp nn b (Field fld) st0 x st' hnone hf
      rw [hx, this]
      rfl
    · rw [hx, hz]
      rfl

/-- Witness of C20 (amended): a struct holding `(old, kept)` and a zero struct
are both left as `(x, "")` by the filler whose filter rejects `B` and stores
nothing. -/
theorem struct_fill_overwrites_witness :
    fillValue (filteredFiller none .None) 2 tPair
        (settable tPair (Val.struct [Val.str "old", Val.str "kept"])) 0 =
      fillValue (filteredFiller none .None) 2 tPair (settable tPair (zero tPair)) 0 ∧
    fillValue (filteredFiller none .None) 2 tPair (settable tPair (zero tPair)) 0 =
      .ok (Val.struct [Val.str "x", Val.str ""], 2) :=
  ⟨(struct_fill_overwrites (filteredFiller none .None) 2 "" ""
      [⟨"A", "", tString⟩, ⟨"B", "", tString⟩]
      (settable tPair (Val.struct [Val.str "old", Val.str "kept"]))
      (settable tPair (zero tPair)) 0 rfl rfl rfl rfl (by
        have e : (filteredFiller none .None).genType
            (Ty.struct "" "" [⟨"A", "", tString⟩, ⟨"B", "", tString⟩]) 0 =
            ((none, .None), 1) := rfl
        rw [e]; simp)).1,
   rfl⟩

/-! ### Scenario: a `String` kind factory and a struct of strings -/

theorem Ty.Kind_eq_String (typ : Ty) (h : typ.Kind = Kind.String) :
    ∃ p n, typ = Ty.basic p n Basic.String := by
  cases typ with
  | basic p n b => cases b <;> simp [Ty.Kind, Basic.Kind] at h ⊢
  | _ => simp [Ty.Kind] at h

theorem genType_kind_tier {σ : Type} (g : Filler σ) (hg : g.Inv) (typ : Ty) (con : Factory σ)
    (st : σ) (hname : nameTier g typ = []) (hcon : g.kindBinding typ.Kind = some con)
    (hout : (con st).1.2 ≠ FactoryState.None) : g.genType typ st = con st := by
  rw [genType_eq_firstOutcome g hg typ st]
  have hk : kindTier g typ = [con] := by simp [kindTier, hcon]
  unfold candidates
  rw [hname, hk, List.nil_append, List.cons_append, List.nil_append,
    firstOutcome_cons_some con _ st hout]

theorem assignStep_ok_cases (typ : Ty) (val : Value) (obj : Interface) (state : FactoryState)
    (hok : state = .None ∨ (gotKind (ValueOf obj) = Kind.Ptr ∧ gotIsNil (ValueOf obj) = true) ∨
      (Convert (ValueOf obj) typ).isSome = true) :
    ∃ val1, assignStep typ val obj state = .ok val1 := by
  rcases hok with h | h
  · exact ⟨val, by simp [assignStep, h]⟩
  · exact assignStep_ok_of_acceptable typ val obj state h

theorem fillValue_string_field {σ : Type} (g : Filler σ) (hg : g.Inv) (s : String)
    (con : Factory σ) (fuel : Nat) (fld : StructField Ty) (st : σ)
    (hcon : g.kindBinding Kind.String = some con)
    (hret : ∀ st, (con st).1 = (some (tString, Val.str s), FactoryState.Done))
    (v : Value) (hft : v.typ = fld.Typ) (hset : v.CanSet = true)
    (hkind : fld.Typ.Kind = Kind.String) (hname : nameTier g fld.Typ = []) :
    ∃ st', fillValue g (fuel + 1) v.typ v st = .ok (Val.str s, st') := by
  obtain ⟨p, n, htyp⟩ := Ty.Kind_eq_String fld.Typ hkind
  have hout : (con st).1.2 ≠ FactoryState.None := by rw [hret st]; simp
  have hgen : g.genType fld.Typ st = ((some (tString, Val.str s), .Done), (con st).2) := by
    rw [genType_kind_tier g hg fld.Typ con st hname (by rw [hkind]; exact hcon) hout]
    exact Prod.ext (hret st) rfl
  have ha : assignStep fld.Typ v (some (tString, Val.str s)) .Done =
      .ok (v.Set ⟨fld.Typ, Val.str s, false, false⟩) := by
    simp [assignStep, ValueOf, gotKind, Value.Kind, hft, Convert, htyp,
      directlyConvertible, tString, Ty.Kind, Basic.Kind]
  refine ⟨(con st).2, ?_⟩
  rw [hft, fillValue_done g fuel fld.Typ v st (con st).2 _ _ hset hgen ha]
  rfl

/-- Counterexample to C11: the `String` kind factory returns `("x", Done)`
and both fields of `main.Pair` are exported strings without a name-bound
factory, yet the factory bound to the name `main.Pair` decides the struct with
`Done`, and `Make` returns `(a, b)`. -/
theorem string_fields_counterexample :
    namedPairFiller.genType tString 0 = ((some (tString, Val.str "x"), .Done), 1) ∧
    Make namedPairFiller 2 tNamedPair 0 = .ok (Val.struct [Val.str "a", Val.str "b"], 1) ∧
    Val.str "a" ≠ Val.str "x" :=
  ⟨rfl, rfl, by simp⟩

/-- C11 (amended): in a reachable registry whose `String` kind factory returns
`(s, Done)`, a settable struct position whose fields are all exported, of
string kind and of a type without a name-bound factory is filled so that
every field equals `s`, provided resolution at the struct position does not
yield `Done`, what it yields is no value, a nil pointer or a value that
converts to the struct type, and the field filter, if there is one, accepts
every field and stores in it nothing, or data of the field's type. -/
theorem string_fields_filled {σ : Type} (g : Filler σ) (hg : Reachable g) (s : String)
    (con : Factory σ) (fuel : Nat) (p n : String) (fields : List (StructField Ty))
    (val : Value) (st : σ)
    (hcon : g.kindBinding Kind.String = some con)
    (hret : ∀ st, (con st).1 = (some (tString, Val.str s), FactoryState.Done))
    (hfields : ∀ fld, fld ∈ fields →
      fld.PkgPath = "" ∧ fld.Typ.Kind = Kind.String ∧ nameTier g fld.Typ = [])
    (hfilter : ∀ ff, g.FieldFilter = some ff →
      ∀ fld v st, (ff (Ty.struct p n fields) fld v st).1.1 = true ∧
        ∀ x, (ff (Ty.struct p n fields) fld v st).1.2 = some x → hasType fld.Typ x = true)
    (hset : val.CanSet = true)
    (hnd : (g.genType (Ty.struct p n fields) st).1.2 ≠ .Done)
    (hok : (g.genType (Ty.struct p n fields) st).1.2 = .None ∨
      (gotKind (ValueOf (g.genType (Ty.struct p n fields) st).1.1) = Kind.Ptr ∧
        gotIsNil (ValueOf (g.genType (Ty.struct p n fields) st).1.1) = true) ∨
      (Convert (ValueOf (g.genType (Ty.struct p n fields) st).1.1)
        (Ty.struct p n fields)).isSome = true) :
    ∃ st', fillValue g (fuel + 2) (Ty.struct p n fields) val st =
      .ok (Val.struct (List.replicate fields.length (Val.str s)), st') := by
  rcases hgen : g.genType (Ty.struct p n fields) st with ⟨⟨obj, state⟩, s1⟩
  rw [hgen] at hnd hok
  simp only at hnd hok
  obtain ⟨val1, ha⟩ := assignStep_ok_cases (Ty.struct p n fields) val obj state hok
  obtain ⟨s2, hloop⟩ := loopFields_const g.FieldFilter
    (fun x => fillValue g (fuel + 1) x.typ x) (Ty.struct p n fields) fields s1 (Val.str s)
    hfilter (fun fld hm => ⟨(hfields fld hm).1, fun v st' hvt hvs =>
      fillValue_string_field g hg.inv_holds s con fuel fld st' hcon hret v hvt hvs
        (hfields fld hm).2.1 (hfields fld hm).2.2⟩)
  refine ⟨s2, ?_⟩
  rw [fillValue_struct g (fuel + 1) p n fields val st s1 obj state val1 hset hgen hnd ha, hloop]

/-- Witness of C11 (amended): the spec's case, two string fields and the
factory `("x", Done)`, gives the struct `(x, x)`. -/
theorem string_fields_filled_witness :
    Reachable stringFiller ∧
    ∃ st', fillValue stringFiller 2 tPair (settable tPair (zero tPair)) 0 =
      .ok (Val.struct (List.replicate 2 (Val.str "x")), st') :=
  ⟨Reachable.registerKind _ _ _ Reachable.empty,
   string_fields_filled stringFiller (Reachable.registerKind _ _ _ Reachable.empty) "x"
     (strFactory tString "x" .Done) 0 "" "" [⟨"A", "", tString⟩, ⟨"B", "", tString⟩]
     (settable tPair (zero tPair)) 0 rfl (fun _ => rfl)
     (by
       intro fld hm
       simp only [List.mem_cons, List.mem_singleton, List.not_mem_nil, or_false] at hm
       rcases hm with h | h <;> subst h <;> exact ⟨rfl, rfl, rfl⟩)
     (by intro ff hff; exact absurd hff (by simp [stringFiller, Filler.RegisterKind,
       Filler.init, Filler.empty]))
     rfl
     (by
       have e : stringFiller.genType
           (Ty.struct "" "" [⟨"A", "", tString⟩, ⟨"B", "", tString⟩]) 0 =
           ((none, .None), 0) := rfl
       rw [e]; simp)
     (Or.inl rfl)⟩

/-! ### Array and slice positions: the element loop -/

theorem successive_getElem {σ : Type} (produce : σ → Val) (step : σ → σ) (n : Nat) (s : σ)
    (i : Nat) (hi : i < n) :
    (successive produce step n s)[i]? = some (produce (step^[i] s)) := by
  induction n generalizing s i with
  | zero => omega
  | succ n ih =>
    cases i with
    | zero => simp [successive]
    | succ j =>
      simp only [successive, List.getElem?_cons_succ, Function.iterate_succ,
        Function.comp_apply]
      exact ih (step s) j (by omega)

theorem successive_length {σ : Type} (produce : σ → Val) (step : σ → σ) (n : Nat) (s : σ) :
    (successive produce step n s).length = n := by
  induction n generalizing s with
  | zero => rfl
  | succ n ih => simp [successive, ih]

theorem successive_const {σ : Type} (y : Val) (step : σ → σ) (n : Nat) (s : σ) :
    successive (fun _ => y) step n s = List.replicate n y := by
  induction n generalizing s with
  | zero => rfl
  | succ n ih => simp [successive, ih, List.replicate_succ]

theorem loopIndex_successive {σ : Type} (fill : Value → σ → Res (Val × σ))
    (index : Val → Value) (produce : σ → Val) (step : σ → σ) (xs : List Val) (s : σ)
    (hfill : ∀ x st, fill (index x) st = .ok (produce st, step st)) :
    loopIndex fill index xs s =
      .ok (successive produce step xs.length s, step^[xs.length] s) := by
  induction xs generalizing s with
  | nil => rfl
  | cons x rest ih =>
    simp only [loopIndex, hfill x s, ih (step s), List.length_cons, successive,
      Function.iterate_succ, Function.comp_apply]

theorem Basic.Kind_not_composite (b : Basic) :
    b.Kind ≠ Kind.Ptr ∧ b.Kind ≠ Kind.Array ∧ b.Kind ≠ Kind.Slice ∧ b.Kind ≠ Kind.Map ∧
      b.Kind ≠ Kind.Struct := by
  cases b <;> simp [Basic.Kind]

theorem directlyConvertible_basic_self (p n : String) (b : Basic) :
    directlyConvertible (Ty.basic p n b) (Ty.basic p n b) = true := by
  cases b <;> simp [directlyConvertible, Ty.beq]

theorem assignStep_exact_basic (p n : String) (b : Basic) (val : Value) (x : Val)
    (state : FactoryState) (hty : val.typ = Ty.basic p n b) :
    assignStep (Ty.basic p n b) val (some (Ty.basic p n b, x)) state =
      .ok (if state = .None then val else val.Set ⟨Ty.basic p n b, x, false, false⟩) := by
  have hb := (Basic.Kind_not_composite b).1
  by_cases hs : state = .None
  · simp [assignStep, hs]
  · simp [assignStep, hs, ValueOf, gotKind, Value.Kind, hty, Ty.Kind, hb, Convert,
      directlyConvertible_basic_self]

theorem fillValue_basic_done {σ : Type} (g : Filler σ) (fuel : Nat) (p n : String) (b : Basic)
    (val : Value) (st st' : σ) (x : Val) (hty : val.typ = Ty.basic p n b)
    (hset : val.CanSet = true)
    (hgen : g.genType (Ty.basic p n b) st = ((some (Ty.basic p n b, x), .Done), st')) :
    fillValue g (fuel + 1) (Ty.basic p n b) val st = .ok (x, st') := by
  have ha := assignStep_exact_basic p n b val x .Done hty
  simp only [reduceCtorEq, if_false] at ha
  rw [fillValue_done g fuel _ val st st' _ _ hset hgen ha]
  rfl

theorem genType_no_candidates {σ : Type} (g : Filler σ) (hg : g.Inv) (typ : Ty) (st : σ)
    (h : candidates g typ = []) : g.genType typ st = ((none, .None), st) := by
  rw [genType_eq_firstOutcome g hg typ st, h]
  rfl

theorem genType_func_first {σ : Type} (g : Filler σ) (hg : g.Inv) (typ : Ty)
    (pred : TypedFactory σ) (rest : List (TypedFactory σ)) (st : σ)
    (hname : nameTier g typ = []) (hkind : kindTier g typ = [])
    (hfuncs : g.funcs = pred :: rest) (hout : (pred typ st).1.2 ≠ FactoryState.None) :
    g.genType typ st = pred typ st := by
  rw [genType_eq_firstOutcome g hg typ st]
  unfold candidates funcTier
  rw [hname, hkind, hfuncs, List.nil_append, List.nil_append, List.map_cons,
    firstOutcome_cons_some _ _ st hout]

theorem kindOnly_facts {σ : Type} (k : Kind) (con : Factory σ) :
    ((Filler.empty σ).RegisterKind k con).Inv ∧
    (∀ typ, nameTier ((Filler.empty σ).RegisterKind k con) typ = []) ∧
    ((Filler.empty σ).RegisterKind k con).kindBinding k = some con ∧
    (∀ k', k' ≠ k → ((Filler.empty σ).RegisterKind k con).kindBinding k' = none) ∧
    ((Filler.empty σ).RegisterKind k con).funcs = [] := by
  have h0 : (Filler.empty σ).Inv := Or.inl ⟨rfl, rfl, rfl, rfl⟩
  obtain ⟨h1, h2, h3, h4, _⟩ := RegisterKind_frame (Filler.empty σ) h0 k con
  refine ⟨(Reachable.registerKind _ k con Reachable.empty).inv_holds, ?_, h1, ?_, ?_⟩
  · intro typ
    unfold nameTier
    split
    · rfl
    · rw [h3]; rfl
  · intro k' hk'
    rw [h2 k' hk']; rfl
  · rw [h4]; rfl

theorem kindOnly_genType_elem {σ : Type} (p n : String) (b : Basic) (produce : σ → Val)
    (step : σ → σ) (st : σ) :
    ((Filler.empty σ).RegisterKind b.Kind
        (doneFactory (Ty.basic p n b) produce step)).genType (Ty.basic p n b) st =
      ((some (Ty.basic p n b, produce st), .Done), step st) := by
  obtain ⟨hinv, hname, hk, _, _⟩ :=
    kindOnly_facts b.Kind (doneFactory (Ty.basic p n b) produce step)
  rw [genType_kind_tier _ hinv (Ty.basic p n b) _ st (hname _) hk (by simp [doneFactory])]
  rfl

theorem kindOnly_genType_other {σ : Type} (k : Kind) (con : Factory σ) (typ : Ty) (st : σ)
    (h : typ.Kind ≠ k) :
    ((Filler.empty σ).RegisterKind k con).genType typ st = ((none, .None), st) := by
  obtain ⟨hinv, hname, _, hk, hf⟩ := kindOnly_facts k con
  apply genType_no_candidates _ hinv
  simp [candidates, hname, kindTier, hk typ.Kind h, funcTier, hf]

/-- C18: with a stateful `Done` factory for the element kind as the only
registration, filling an array or an existing slice of `n` elements returns
the `n` values of successive factory calls in index order and leaves the state
after exactly `n` steps: element `i` is the value produced after `i` steps. -/
theorem elements_in_index_order {σ : Type} (b : Basic) (p n : String) (produce : σ → Val)
    (step : σ → σ) (elems : List Val) (fuel : Nat) (s : σ) :
    (∀ ap an : String,
      fillValue ((Filler.empty σ).RegisterKind b.Kind (doneFactory (Ty.basic p n b) produce step))
          (fuel + 2) (Ty.array ap an elems.length (Ty.basic p n b))
          (settable (Ty.array ap an elems.length (Ty.basic p n b)) (Val.array elems)) s =
        .ok (Val.array (successive produce step elems.length s), step^[elems.length] s)) ∧
    (∀ (sp sn : String) (cap : Nat),
      fillValue ((Filler.empty σ).RegisterKind b.Kind (doneFactory (Ty.basic p n b) produce step))
          (fuel + 2) (Ty.slice sp sn (Ty.basic p n b))
          (settable (Ty.slice sp sn (Ty.basic p n b)) (Val.slice elems cap)) s =
        .ok (Val.slice (successive produce step elems.length s) cap, step^[elems.length] s)) ∧
    (∀ i, i < elems.length →
      (successive produce step elems.length s)[i]? = some (produce (step^[i] s))) := by
  have hb := Basic.Kind_not_composite b
  have helem : ∀ (v : Value), v.typ = Ty.basic p n b → v.CanSet = true → ∀ st,
      fillValue ((Filler.empty σ).RegisterKind b.Kind
        (doneFactory (Ty.basic p n b) produce step)) (fuel + 1) v.typ v st =
        .ok (produce st, step st) := by
    intro v hty hset st
    rw [hty]
    exact fillValue_basic_done _ fuel p n b v st (step st) (produce st) hty hset
      (kindOnly_genType_elem p n b produce step st)
  refine ⟨?_, ?_, ?_⟩
  · intro ap an
    have hgen := kindOnly_genType_other b.Kind (doneFactory (Ty.basic p n b) produce step)
      (Ty.array ap an elems.length (Ty.basic p n b)) s (by simpa [Ty.Kind] using hb.2.1.symm)
    rw [fillValue_succ _ (fuel + 1) _
      (settable (Ty.array ap an elems.length (Ty.basic p n b)) (Val.array elems)) s s none
      .None (settable (Ty.array ap an elems.length (Ty.basic p n b)) (Val.array elems)) rfl
      hgen (by simp) (by simp [assignStep])]
    simp only [kindSwitch, settable]
    rw [loopIndex_successive _ _ produce step elems s
      (fun x st => helem (Value.IndexArray
        ⟨Ty.array ap an elems.length (Ty.basic p n b), Val.array elems, true, false⟩
        (Ty.basic p n b) x) rfl rfl st)]
  · intro sp sn cap
    have hgen := kindOnly_genType_other b.Kind (doneFactory (Ty.basic p n b) produce step)
      (Ty.slice sp sn (Ty.basic p n b)) s (by simpa [Ty.Kind] using hb.2.2.1.symm)
    rw [fillValue_succ _ (fuel + 1) _
      (settable (Ty.slice sp sn (Ty.basic p n b)) (Val.slice elems cap)) s s none
      .None (settable (Ty.slice sp sn (Ty.basic p n b)) (Val.slice elems cap)) rfl
      hgen (by simp) (by simp [assignStep])]
    simp only [kindSwitch, settable, Value.IsNil, Bool.not_false, if_true]
    rw [loopIndex_successive _ _ produce step elems s
      (fun x st => helem (Value.IndexSlice
        ⟨Ty.slice sp sn (Ty.basic p n b), Val.slice elems cap, true, false⟩
        (Ty.basic p n b) x) rfl rfl st)]
  · intro i hi
    exact successive_getElem produce step elems.length s i hi

/-- Witness of C18: a counter that returns its own state fills the array
`[9, 9, 9]` with `0, 1, 2` and has been called three times. -/
theorem elements_in_index_order_witness :
    fillValue ((Filler.empty Nat).RegisterKind Kind.Int
        (doneFactory tInt (fun k : Nat => Val.int k) (fun k => k + 1))) 2
        (Ty.array "" "" 3 tInt)
        (settable (Ty.array "" "" 3 tInt) (Val.array [Val.int 9, Val.int 9, Val.int 9])) 0 =
      .ok (Val.array [Val.int 0, Val.int 1, Val.int 2], 3) :=
  ((elements_in_index_order Basic.Int "" "int" (fun k : Nat => Val.int k) (fun k => k + 1)
    [Val.int 9, Val.int 9, Val.int 9] 0 0).1 "" "").trans rfl

/-! ### Scenario: a slice factory with `Init` and an `Int` kind factory -/

theorem Make_eq_fillValue {σ : Type} (g : Filler σ) (fuel : Nat) (typ : Ty) (s : σ) :
    Make g fuel typ s = fillValue g fuel typ ⟨typ, zero typ, true, false⟩ s := rfl

theorem sliceRegistry_facts {σ : Type} (pred : TypedFactory σ) (con : Factory σ) :
    (((Filler.empty σ).RegisterFunc pred).RegisterKind Kind.Int con).Inv ∧
    (∀ typ, nameTier (((Filler.empty σ).RegisterFunc pred).RegisterKind Kind.Int con) typ
      = []) ∧
    (((Filler.empty σ).RegisterFunc pred).RegisterKind Kind.Int con).kindBinding Kind.Int =
      some con ∧
    (∀ k', k' ≠ Kind.Int →
      (((Filler.empty σ).RegisterFunc pred).RegisterKind Kind.Int con).kindBinding k' = none) ∧
    (((Filler.empty σ).RegisterFunc pred).RegisterKind Kind.Int con).funcs = [pred] := by
  have h0 : (Filler.empty σ).Inv := Or.inl ⟨rfl, rfl, rfl, rfl⟩
  have r1 : Reachable ((Filler.empty σ).RegisterFunc pred) :=
    Reachable.registerFunc _ pred Reachable.empty
  obtain ⟨f1, f2, f3, _⟩ := RegisterFunc_frame (Filler.empty σ) h0 pred
  obtain ⟨h1, h2, h3, h4, _⟩ :=
    RegisterKind_frame ((Filler.empty σ).RegisterFunc pred) r1.inv_holds Kind.Int con
  refine ⟨(Reachable.registerKind _ Kind.Int con r1).inv_holds, ?_, h1, ?_, ?_⟩
  · intro typ
    unfold nameTier
    split
    · rfl
    · rw [h3, f2]; rfl
  · intro k' hk'
    rw [h2 k' hk', f3]; rfl
  · rw [h4, f1]; rfl

/-- C12: with a typed factory that returns a fresh slice of `n` zero elements
and outcome `Init` for `[]int`, and an `Int` kind factory returning
`(c, Done)`, `Make` of `[]int` returns a slice of exactly `n` elements, each
equal to `c`, with the capacity the factory chose. -/
theorem slice_of_ints {σ : Type} (n : Nat) (c : Int) (cap : Nat) (pred : TypedFactory σ)
    (con : Factory σ) (fuel : Nat) (s : σ)
    (hpred : ∀ st, (pred tSliceInt st).1 =
      (some (tSliceInt, Val.slice (List.replicate n (Val.int 0)) cap), FactoryState.Init))
    (hcon : ∀ st, (con st).1 = (some (tInt, Val.int c), FactoryState.Done)) :
    ∃ s', Make (((Filler.empty σ).RegisterFunc pred).RegisterKind Kind.Int con) (fuel + 2)
        tSliceInt s = .ok (Val.slice (List.replicate n (Val.int c)) cap, s') ∧
      (List.replicate n (Val.int c)).length = n := by
  obtain ⟨hinv, hname, hk, hkn, hf⟩ := sliceRegistry_facts pred con
  have hgenS : (((Filler.empty σ).RegisterFunc pred).RegisterKind Kind.Int con).genType
      tSliceInt s =
      ((some (tSliceInt, Val.slice (List.replicate n (Val.int 0)) cap), .Init),
        (pred tSliceInt s).2) := by
    rw [genType_func_first _ hinv tSliceInt pred [] s (hname _)
      (by simp [kindTier, hkn (tSliceInt).Kind (by simp [tSliceInt, Ty.Kind])]) hf
      (by rw [hpred s]; simp)]
    exact Prod.ext (hpred s) rfl
  have hgenI : ∀ st, (((Filler.empty σ).RegisterFunc pred).RegisterKind Kind.Int con).genType
      (Ty.basic "" "int" Basic.Int) st = ((some (Ty.basic "" "int" Basic.Int, Val.int c), .Done),
        (con st).2) := by
    intro st
    have e := genType_kind_tier _ hinv tInt con st (hname _) hk (by rw [hcon st]; simp)
    rw [show Ty.basic "" "int" Basic.Int = tInt from rfl, e]
    exact Prod.ext (hcon st) rfl
  have ha : assignStep tSliceInt ⟨tSliceInt, zero tSliceInt, true, false⟩
      (some (tSliceInt, Val.slice (List.replicate n (Val.int 0)) cap)) .Init =
      .ok ⟨tSliceInt, Val.slice (List.replicate n (Val.int 0)) cap, true, false⟩ := by
    simp [assignStep, ValueOf, gotKind, Value.Kind, tSliceInt, Ty.Kind, Convert,
      directlyConvertible, Ty.beq, tInt, Value.Set]
  refine ⟨(fun st => (con st).2)^[n] (pred tSliceInt s).2, ?_, by simp⟩
  rw [Make_eq_fillValue]
  rw [fillValue_succ _ (fuel + 1) tSliceInt ⟨tSliceInt, zero tSliceInt, true, false⟩ s _ _
    .Init _ rfl hgenS (by simp) ha]
  simp only [kindSwitch, tSliceInt, Value.IsNil, Bool.not_false, if_true]
  rw [loopIndex_successive
    (fun x => fillValue (((Filler.empty σ).RegisterFunc pred).RegisterKind Kind.Int con)
      (fuel + 1) x.typ x)
    (Value.IndexSlice ⟨Ty.slice "" "" tInt, Val.slice (List.replicate n (Val.int 0)) cap,
      true, false⟩ tInt)
    (fun _ => Val.int c) (fun st => (con st).2)
    (List.replicate n (Val.int 0)) (pred (Ty.slice "" "" tInt) s).2
    (fun x st => fillValue_basic_done _ fuel "" "int" Basic.Int
      (Value.IndexSlice ⟨Ty.slice "" "" tInt, Val.slice (List.replicate n (Val.int 0)) cap,
        true, false⟩ tInt x) st (con st).2 (Val.int c) rfl rfl (hgenI st))]
  simp [successive_const]

/-- Witness of C12: the spec's case `n = 3`, `c = 7` gives `[7, 7, 7]`. -/
theorem slice_of_ints_witness :
    ∃ s', Make (sliceScenarioFiller 3 7) 2 tSliceInt 0 =
        .ok (Val.slice (List.replicate 3 (Val.int 7)) 3, s') ∧
      (List.replicate 3 (Val.int 7)).length = 3 :=
  slice_of_ints 3 7 3 _ (objFactory (some (tInt, Val.int 7)) .Done) 0 0 (fun _ => rfl)
    (fun _ => rfl)

/-! ### Default recursion: every candidate yields `None` -/

theorem loopIndex_map {σ : Type} (P : Prop) (fill : Value → σ → Res (Val × σ))
    (index : Val → Value) (f : Val → Val) (xs : List Val) (s : σ)
    (h : ∀ x, x ∈ xs → ∀ st, ∃ st', fill (index x) st = .ok (f x, st') ∧ (P → st' = st)) :
    ∃ s', loopIndex fill index xs s = .ok (xs.map f, s') ∧ (P → s' = s) := by
  induction xs generalizing s with
  | nil => exact ⟨s, rfl, fun _ => rfl⟩
  | cons x rest ih =>
    obtain ⟨s1, h1, p1⟩ := h x (List.mem_cons_self _ _) s
    obtain ⟨s2, h2, p2⟩ := ih s1 (fun y hy => h y (List.mem_cons_of_mem _ hy))
    exact ⟨s2, by simp only [loopIndex, h1, h2, List.map_cons],
      fun hp => by rw [p2 hp, p1 hp]⟩

theorem loopMap_unsettable {σ : Type} (fill : Value → σ → Res (Val × σ))
    (mapIndex : Val → Value) (xs : List (Val × Val)) (s : σ)
    (h : ∀ x st, fill (mapIndex x) st = .ok ((mapIndex x).v, st)) :
    loopMap fill mapIndex xs s = .ok s := by
  induction xs with
  | nil => rfl
  | cons kv rest ih =>
    obtain ⟨k, x⟩ := kv
    simp only [loopMap, h x s, ih]

theorem Field_CanSet (fld : StructField Ty) : (Field fld).CanSet = (fld.PkgPath == "") := by
  by_cases h : fld.PkgPath = "" <;> simp [Field, Value.CanSet, bne, h]

theorem loopFields_default {σ : Type} (P : Prop) (filter : Option (Filter σ))
    (fill : Value → σ → Res (Val × σ)) (typ : Ty) (fields : List (StructField Ty)) (s : σ)
    (hfilter : ∀ ff, filter = some ff → ∀ fld v st, (ff typ fld v st).1 = (true, none))
    (hP : P → ∀ ff, filter = some ff → ∀ fld v st, (ff typ fld v st).2 = st)
    (h : ∀ fld, fld ∈ fields → ∀ st, ∃ st',
      fill (Field fld) st =
        .ok ((if fld.PkgPath == "" then defaultValue fld.Typ (zero fld.Typ)
          else zero fld.Typ), st') ∧ (P → st' = st)) :
    ∃ s', loopFields filter fill typ fields s = .ok (defaultFields fields, s') ∧
      (P → s' = s) := by
  induction fields generalizing s with
  | nil => exact ⟨s, rfl, fun _ => rfl⟩
  | cons f rest ih =>
    obtain ⟨accept, s0, hff, hnone, hsome⟩ := filterField_pure filter typ f s
      (fun ff hf => by rw [hfilter ff hf])
    have hacc : accept = true := by
      cases hfl : filter with
      | none => exact (hnone hfl).1
      | some ff => rw [(hsome ff hfl).1, hfilter ff hfl]
    have hs0 : P → s0 = s := by
      intro hp
      cases hfl : filter with
      | none => exact (hnone hfl).2
      | some ff => rw [(hsome ff hfl).2, hP hp ff hfl]
    subst hacc
    obtain ⟨s1, h1, p1⟩ := h f (List.mem_cons_self _ _) s0
    obtain ⟨s2, h2, p2⟩ := ih s1 (fun y hy => h y (List.mem_cons_of_mem _ hy))
    exact ⟨s2, by simp only [loopFields, hff, if_true, h1, h2, defaultFields],
      fun hp => by rw [p2 hp, p1 hp, hs0 hp]⟩

theorem fillValue_default {σ : Type} (g : Filler σ) (P : Prop)
    (hnone : ∀ typ s, (g.genType typ s).1.2 = FactoryState.None)
    (hfilter : ∀ ff, g.FieldFilter = some ff →
      ∀ typ fld v st, (ff typ fld v st).1 = (true, none))
    (hP : P → (∀ typ s, (g.genType typ s).2 = s) ∧
      ∀ ff, g.FieldFilter = some ff → ∀ typ fld v st, (ff typ fld v st).2 = st)
    (fuel : Nat) (typ : Ty) (val : Value) (s : σ) (hty : val.typ = typ)
    (hv : hasType typ val.v = true) (hfuel : typ.depth ≤ fuel) :
    ∃ s', fillValue g fuel typ val s =
        .ok ((if val.CanSet then defaultValue typ val.v else val.v), s') ∧
      (P → s' = s) := by
  induction fuel generalizing typ val s with
  | zero =>
    have := Ty.depth_pos typ
    omega
  | succ k ih =>
    by_cases hset : val.CanSet = true
    · rcases hg : g.genType typ s with ⟨⟨obj, state⟩, s1⟩
      have hst : state = .None := by simpa [hg] using hnone typ s
      subst hst
      have hs1 : P → s1 = s := by
        intro hp
        have := (hP hp).1 typ s
        rw [hg] at this
        exact this
      rw [fillValue_succ g k typ val s s1 obj .None val hset hg (by simp)
        (by simp [assignStep]), if_pos hset]
      obtain ⟨vt, vv, fa, fr⟩ := val
      simp only [Value.CanSet, Bool.and_eq_true, Bool.not_eq_true'] at hset
      obtain ⟨hfa, hfr⟩ := hset
      simp only at hty hv
      subst hty hfa hfr
      cases vt with
      | basic p n b => exact ⟨s1, rfl, hs1⟩
      | ptr p n t =>
        obtain ⟨s2, h1, p1⟩ := ih t ⟨t, zero t, true, false⟩ s1 rfl (zero_hasType t)
          (by simp only [Ty.depth] at hfuel; omega)
        have h1' : fillValue g k t ⟨t, zero t, true, false⟩ s1 =
            .ok (defaultValue t (zero t), s2) := h1
        exact ⟨s2, by
          simp only [kindSwitch, Value.Set, New, Value.IsNil, Value.Elem, Bool.not_false,
            if_true, h1', defaultValue], fun hp => by rw [p1 hp, hs1 hp]⟩
      | array p n l t =>
        cases vv with
        | array elems =>
          simp only [hasType, Bool.and_eq_true, List.all_eq_true] at hv
          obtain ⟨s2, h1, p1⟩ := loopIndex_map P (fun x => fillValue g k x.typ x)
            (Value.IndexArray ⟨Ty.array p n l t, Val.array elems, true, false⟩ t)
            (defaultValue t) elems s1
            (fun x hx st => ih t ⟨t, x, true, false⟩ st rfl (hv.2 x hx)
              (by simp only [Ty.depth] at hfuel; omega))
          exact ⟨s2, by simp only [kindSwitch, h1, defaultValue],
            fun hp => by rw [p1 hp, hs1 hp]⟩
        | _ => simp [hasType] at hv
      | slice p n t =>
        cases vv with
        | nil => exact ⟨s1, by simp [kindSwitch, Value.IsNil, defaultValue], hs1⟩
        | slice elems cap =>
          simp only [hasType, Bool.and_eq_true, List.all_eq_true] at hv
          obtain ⟨s2, h1, p1⟩ := loopIndex_map P (fun x => fillValue g k x.typ x)
            (Value.IndexSlice ⟨Ty.slice p n t, Val.slice elems cap, true, false⟩ t)
            (defaultValue t) elems s1
            (fun x hx st => ih t ⟨t, x, true, false⟩ st rfl (hv.2 x hx)
              (by simp only [Ty.depth] at hfuel; omega))
          exact ⟨s2, by
            simp only [kindSwitch, Value.IsNil, Bool.not_false, if_true, h1, defaultValue],
            fun hp => by rw [p1 hp, hs1 hp]⟩
        | _ => simp [hasType] at hv
      | map p n kt t =>
        cases vv with
        | nil => exact ⟨s1, by simp [kindSwitch, Value.IsNil, defaultValue], hs1⟩
        | map entries =>
          have h1 := loopMap_unsettable (fun x => fillValue g k t x)
            (Value.MapIndex ⟨Ty.map p n kt t, Val.map entries, true, false⟩ t) entries s1
            (fun x st => fillValue_unsettable g k t _ st rfl)
          exact ⟨s1, by
            simp only [kindSwitch, Value.IsNil, Bool.not_false, if_true, h1, defaultValue],
            hs1⟩
        | _ => simp [hasType] at hv
      | struct p n fields =>
        obtain ⟨s2, h1, p1⟩ := loopFields_default P g.FieldFilter
          (fun x => fillValue g k x.typ x) (Ty.struct p n fields) fields s1
          (fun ff hf fld v st => hfilter ff hf _ fld v st)
          (fun hp ff hf fld v st => (hP hp).2 ff hf _ fld v st)
          (fun fld hm st => by
            obtain ⟨st', e, pe⟩ := ih fld.Typ (Field fld) st rfl (zero_hasType fld.Typ) (by
              have := depthFields_mem fields fld hm
              simp only [Ty.depth] at hfuel
              omega)
            refine ⟨st', ?_, pe⟩
            rw [Field_CanSet] at e
            exact e)
        exact ⟨s2, by simp only [kindSwitch, h1, defaultValue],
          fun hp => by rw [p1 hp, hs1 hp]⟩
    · have hset' : val.CanSet = false := by simpa using hset
      exact ⟨s, by rw [fillValue_unsettable g (k + 1) typ val s hset', hset']; rfl,
        fun _ => rfl⟩

theorem nodeUnroll_fuel {σ : Type} (leaf : Ty) (k : Nat) :
    ∀ (fuel : Nat) (x : Val) (s : σ), fuel ≤ 2 * k →
      fillValue (Filler.empty σ) fuel (nodeUnroll leaf k) (settable (nodeUnroll leaf k) x) s =
        .error Fault.outOfFuel := by
  induction k with
  | zero =>
    intro fuel x s hf
    have h0 : fuel = 0 := by omega
    subst h0
    exact fillValue_zero_settable _ _ _ s rfl
  | succ k ih =>
    intro fuel x s hf
    cases fuel with
    | zero => exact fillValue_zero_settable _ _ _ s rfl
    | succ f1 =>
      have hstep := fillValue_struct (Filler.empty σ) f1 "main" "Node"
        [⟨"Next", "", Ty.ptr "" "" (nodeUnroll leaf k)⟩]
        (settable (nodeUnroll leaf (k + 1)) x) s s none .None
        (settable (nodeUnroll leaf (k + 1)) x) rfl rfl (by simp) (by simp [assignStep])
      have hstep' : fillValue (Filler.empty σ) (f1 + 1) (nodeUnroll leaf (k + 1))
          (settable (nodeUnroll leaf (k + 1)) x) s = _ := hstep
      rw [hstep']
      have hff : filterField (Filler.empty σ).FieldFilter
          (Ty.struct "main" "Node" [⟨"Next", "", Ty.ptr "" "" (nodeUnroll leaf k)⟩])
          ⟨"Next", "", Ty.ptr "" "" (nodeUnroll leaf k)⟩ s =
          .ok ((true, Field ⟨"Next", "", Ty.ptr "" "" (nodeUnroll leaf k)⟩), s) := rfl
      have hfield : fillValue (Filler.empty σ) f1 (Ty.ptr "" "" (nodeUnroll leaf k))
          (Field ⟨"Next", "", Ty.ptr "" "" (nodeUnroll leaf k)⟩) s =
          .error Fault.outOfFuel := by
        cases f1 with
        | zero => exact fillValue_zero_settable _ _ _ s rfl
        | succ f2 =>
          have hptr := fillValue_succ (Filler.empty σ) f2 (Ty.ptr "" "" (nodeUnroll leaf k))
            (Field ⟨"Next", "", Ty.ptr "" "" (nodeUnroll leaf k)⟩) s s none .None
            (Field ⟨"Next", "", Ty.ptr "" "" (nodeUnroll leaf k)⟩) rfl rfl (by simp)
            (by simp [assignStep])
          have hin := ih f2 (zero (nodeUnroll leaf k)) s (by omega)
          have hin' : fillValue (Filler.empty σ) f2 (nodeUnroll leaf k)
              ⟨nodeUnroll leaf k, zero (nodeUnroll leaf k), true, false⟩ s =
              .error Fault.outOfFuel := hin
          rw [hptr]
          simp only [kindSwitch, Value.Set, New, Value.IsNil, Value.Elem, Field,
            Bool.not_false, if_true, bne_self_eq_false, hin']
      have e : loopFields (Filler.empty σ).FieldFilter
          (fun x => fillValue (Filler.empty σ) f1 x.typ x)
          (Ty.struct "main" "Node" [⟨"Next", "", Ty.ptr "" "" (nodeUnroll leaf k)⟩])
          [⟨"Next", "", Ty.ptr "" "" (nodeUnroll leaf k)⟩] s = .error Fault.outOfFuel := by
        simp only [loopFields, hff, if_true]
        rw [show (Field ⟨"Next", "", Ty.ptr "" "" (nodeUnroll leaf k)⟩).typ =
          Ty.ptr "" "" (nodeUnroll leaf k) from rfl, hfield]
      rw [e]

theorem nodeUnroll_depth (leaf : Ty) (k : Nat) :
    (nodeUnroll leaf k).depth = 2 * k + leaf.depth := by
  induction k with
  | zero => simp [nodeUnroll]
  | succ k ih =>
    simp only [nodeUnroll, Ty.depth, depthFields, ih]
    omega

/-- Counterexample to C16: the self-referential type
`type Node struct { Next *Node }` with a filler that was never initialised and
a settable target.  `nodeUnroll leaf k` is `Node` unrolled `k` times, with
`leaf` standing for what lies below; down to that depth `reflect` shows the
same descriptors as for `Node` itself, and the unrolling has `2 * k` levels
above `leaf`.  For every fuel the run on the unrolling of that depth stops
for lack of fuel, whatever `leaf` is, so it has not reached `leaf`: each level
allocates a fresh pointee and descends into it, and on `Node` no amount of
fuel is enough.  `fillValue` does not complete. -/
theorem default_recursion_counterexample :
    (∀ (typ : Ty) (st : Nat), (Filler.empty Nat).genType typ st = ((none, .None), st)) ∧
    (∀ (leaf : Ty) (k : Nat), nodeUnroll leaf (k + 1) =
      Ty.struct "main" "Node" [⟨"Next", "", Ty.ptr "" "" (nodeUnroll leaf k)⟩]) ∧
    (∀ (leaf : Ty) (k : Nat), (nodeUnroll leaf k).depth = 2 * k + leaf.depth) ∧
    (∀ (leaf : Ty) (fuel : Nat) (x : Val),
      (settable (nodeUnroll leaf fuel) x).CanSet = true ∧
      fillValue (Filler.empty Nat) fuel (nodeUnroll leaf fuel)
        (settable (nodeUnroll leaf fuel) x) 0 = .error Fault.outOfFuel) :=
  ⟨fun _ _ => rfl, fun _ _ => rfl, nodeUnroll_depth,
    fun leaf fuel x => ⟨rfl, nodeUnroll_fuel leaf fuel fuel x 0 (by omega)⟩⟩

/-- C16 (amended): for a type that does not refer to itself, in a registry
where resolution yields `None` for every type and state and whose field
filter, if there is one, accepts every field and stores nothing, `fillValue`
on a settable well-typed target with fuel at least the depth of the type
returns without fault exactly the kind-default value `defaultValue`: a
pointer to the default of a zero pointee, the defaults of the elements of an
array or non-nil slice, a nil slice or any map as it was, a struct rebuilt
field by field, a scalar as it was.  A filler that was never initialised is
such a registry and also leaves the state as it was. -/
theorem default_recursion {σ : Type} (g : Filler σ)
    (hnone : ∀ typ s, (g.genType typ s).1.2 = FactoryState.None)
    (hfilter : ∀ ff, g.FieldFilter = some ff →
      ∀ typ fld v st, (ff typ fld v st).1 = (true, none))
    (fuel : Nat) (typ : Ty) (val : Value) (s : σ) (hty : val.typ = typ)
    (hset : val.CanSet = true) (hv : hasType typ val.v = true) (hfuel : typ.depth ≤ fuel) :
    (∃ s', fillValue g fuel typ val s = .ok (defaultValue typ val.v, s')) ∧
    fillValue (Filler.empty σ) fuel typ val s = .ok (defaultValue typ val.v, s) := by
  refine ⟨?_, ?_⟩
  · obtain ⟨s', h, _⟩ := fillValue_default g False hnone hfilter (fun hp => absurd hp id)
      fuel typ val s hty hv hfuel
    rw [if_pos hset] at h
    exact ⟨s', h⟩
  · obtain ⟨s', h, hp⟩ := fillValue_default (Filler.empty σ) True (fun _ _ => rfl)
      (fun ff hf => absurd hf (by simp [Filler.empty]))
      (fun _ => ⟨fun _ _ => rfl, fun ff hf => absurd hf (by simp [Filler.empty])⟩)
      fuel typ val s hty hv hfuel
    rw [if_pos hset, hp trivial] at h
    exact h

/-- Witness of C16 (amended): a filler that was never initialised rebuilds a
struct with a pointer, an array, a slice, a map and an unexported pointer
field: the pointer refers to an empty string, the array holds two zero
elements, the nil slice and the nil map stay nil, and the unexported field is
untouched; in a slice `[nil, nil]` of `*string` both elements become pointers
to an empty string; the state is as it was. -/
theorem default_recursion_witness :
    tSample.depth ≤ 3 ∧
    fillValue (Filler.empty Nat) 3 tSample
        (settable tSample (Val.struct [Val.nil, Val.array [Val.int 4, Val.int 5], Val.nil,
          Val.nil, Val.nil])) 0 =
      .ok (Val.struct [Val.ptr (Val.str ""), Val.array [Val.int 0, Val.int 0], Val.nil,
        Val.nil, Val.nil], 0) ∧
    fillValue (Filler.empty Nat) 3 (Ty.slice "" "" tPtrString)
        (settable (Ty.slice "" "" tPtrString) (Val.slice [Val.nil, Val.nil] 2)) 0 =
      .ok (Val.slice [Val.ptr (Val.str ""), Val.ptr (Val.str "")] 2, 0) :=
  ⟨by decide,
   (default_recursion (Filler.empty Nat) (fun _ _ => rfl)
      (fun ff hf => absurd hf (by simp [Filler.empty])) 3 tSample
      (settable tSample (Val.struct [Val.nil, Val.array [Val.int 4, Val.int 5], Val.nil,
        Val.nil, Val.nil])) 0 rfl rfl rfl (by decide)).2,
   (default_recursion (Filler.empty Nat) (fun _ _ => rfl)
      (fun ff hf => absurd hf (by simp [Filler.empty])) 3 (Ty.slice "" "" tPtrString)
      (settable (Ty.slice "" "" tPtrString) (Val.slice [Val.nil, Val.nil] 2)) 0 rfl rfl rfl
      (by decide)).2⟩

/-! ### The random filler -/

theorem registerKinds_facts {σ : Type} (l : List (Kind × Factory σ)) (g : Filler σ)
    (hg : Reachable g) :
    Reachable (registerKinds g l) ∧
    (∀ key, (registerKinds g l).nameBinding key = g.nameBinding key) ∧
    (∀ k, (registerKinds g l).kindBinding k = lastKind l k (g.kindBinding k)) ∧
    (registerKinds g l).funcs = g.funcs ∧
    (registerKinds g l).FieldFilter = g.FieldFilter := by
  induction l generalizing g with
  | nil => exact ⟨hg, fun _ => rfl, fun _ => rfl, rfl, rfl⟩
  | cons kc rest ih =>
    obtain ⟨kind, con⟩ := kc
    obtain ⟨h1, h2, h3, h4, h5⟩ := RegisterKind_frame g hg.inv_holds kind con
    obtain ⟨r1, r2, r3, r4, r5⟩ := ih (g.RegisterKind kind con)
      (Reachable.registerKind g kind con hg)
    refine ⟨r1, ?_, ?_, ?_, ?_⟩
    · intro key; rw [← h3 key]; exact r2 key
    · intro k
      simp only [registerKinds, lastKind]
      rw [r3 k]
      by_cases hk : k = kind
      · subst hk; rw [h1, if_pos rfl]
      · rw [h2 k hk, if_neg hk]
    · rw [← h4]; exact r4
    · rw [← h5]; exact r5

theorem randomRegistry_facts (seed : RandomSeed)
    (make : Ty → RandState → Interface × RandState) :
    (randomRegistry seed make).Inv ∧
    (∀ typ, nameTier (randomRegistry seed make) typ = []) ∧
    (∀ k, (randomRegistry seed make).kindBinding k = lastKind (kindFactories seed) k none) ∧
    (randomRegistry seed make).funcs = [sliceMapFactory seed make] ∧
    (randomRegistry seed make).FieldFilter = none := by
  obtain ⟨r1, r2, r3, r4, r5⟩ :=
    registerKinds_facts (kindFactories seed) (Filler.empty RandState) Reachable.empty
  obtain ⟨f1, f2, f3, f4⟩ := RegisterFunc_frame _ r1.inv_holds (sliceMapFactory seed make)
  refine ⟨(Reachable.registerFunc _ _ r1).inv_holds, ?_, ?_, ?_, ?_⟩
  · intro typ
    unfold nameTier
    split
    · rfl
    · unfold randomRegistry
      rw [f2, r2]
      rfl
  · intro k
    unfold randomRegistry
    rw [f3, r3]
    rfl
  · unfold randomRegistry
    rw [f1, r4]
    rfl
  · unfold randomRegistry
    rw [f4, r5]
    rfl

theorem RandomFiller_eq (seed : RandomSeed) (depth : Nat) :
    ∃ make, RandomFiller seed depth = randomRegistry seed make := by
  cases depth with
  | zero => exact ⟨_, rfl⟩
  | succ d => exact ⟨_, rfl⟩

theorem RandomFiller_facts (seed : RandomSeed) (depth : Nat) :
    (RandomFiller seed depth).Inv ∧
    (∀ typ, nameTier (RandomFiller seed depth) typ = []) ∧
    (∀ k, (RandomFiller seed depth).kindBinding k = lastKind (kindFactories seed) k none) ∧
    (∃ make, (RandomFiller seed depth).funcs = [sliceMapFactory seed make]) ∧
    (RandomFiller seed depth).FieldFilter = none := by
  obtain ⟨make, e⟩ := RandomFiller_eq seed depth
  rw [e]
  obtain ⟨h1, h2, h3, h4, h5⟩ := randomRegistry_facts seed make
  exact ⟨h1, h2, h3, ⟨make, h4⟩, h5⟩

theorem RandomFiller_genType_ptr (seed : RandomSeed) (depth : Nat) (p n : String) (t : Ty)
    (st : RandState) (h : (ptrFactory seed st).1.2 ≠ FactoryState.None) :
    (RandomFiller seed depth).genType (Ty.ptr p n t) st = ptrFactory seed st := by
  obtain ⟨hinv, hname, hk, _, _⟩ := RandomFiller_facts seed depth
  exact genType_kind_tier _ hinv (Ty.ptr p n t) (ptrFactory seed) st (hname _)
    (by rw [hk]; rfl) h

theorem RandomFiller_genType_struct (seed : RandomSeed) (depth : Nat) (p n : String)
    (fields : List (StructField Ty)) (st : RandState) :
    (RandomFiller seed depth).genType (Ty.struct p n fields) st = ((none, .None), st) := by
  obtain ⟨hinv, hname, hk, ⟨make, hf⟩, _⟩ := RandomFiller_facts seed depth
  rw [genType_eq_firstOutcome _ hinv]
  have hkt : kindTier (RandomFiller seed depth) (Ty.struct p n fields) = [] := by
    simp only [kindTier, hk]
    rfl
  simp only [candidates, hname, hkt, funcTier, hf, List.nil_append, List.map_cons,
    List.map_nil, firstOutcome, sliceMapFactory]
  simp

theorem Intn_one (st : RandState) : Intn st 1 = (0, { st with pos := st.pos + 1 }) := by
  simp [Intn, RandState.next, Int.emod_one]

theorem ptrFactory_one (seed : RandomSeed) (h : seed.nilRateDenom = 1) (st : RandState) :
    ptrFactory seed st = ((none, .Done), (Intn st 1).2) := by
  simp [ptrFactory, h, Intn_one]

theorem fillValue_ptr_nil_done {σ : Type} (g : Filler σ) (fuel : Nat) (p n : String) (t : Ty)
    (val : Value) (st st1 : σ) (obj : Interface) (hty : val.typ = Ty.ptr p n t)
    (hset : val.CanSet = true) (hnil : val.v = Val.nil)
    (hgen : g.genType (Ty.ptr p n t) st = ((obj, .Done), st1)) :
    fillValue g (fuel + 1) (Ty.ptr p n t) val st = .ok (Val.nil, st1) := by
  have hk : val.Kind = Kind.Ptr := by simp [Value.Kind, hty, Ty.Kind]
  have ha : assignStep (Ty.ptr p n t) val obj .Done = .ok val := by
    simp [assignStep, hk, Value.IsNil_of_nil val hnil]
  rw [fillValue_done g fuel _ val st st1 obj val hset hgen ha, hnil]

theorem RandomFiller_ptr_field (seed : RandomSeed) (h : seed.nilRateDenom = 1) (depth : Nat)
    (k : Nat) (fld : StructField Ty) (pp pn : String) (t : Ty) (st st2 : RandState) (x : Val)
    (hft : fld.Typ = Ty.ptr pp pn t)
    (hfill : fillValue (RandomFiller seed depth) k (Field fld).typ (Field fld) st =
      .ok (x, st2)) : x = Val.nil := by
  have htyp : (Field fld).typ = Ty.ptr pp pn t := by simp [Field, hft]
  have hv : (Field fld).v = Val.nil := by simp [Field, hft, zero]
  rw [htyp] at hfill
  by_cases hset : (Field fld).CanSet = true
  · cases k with
    | zero =>
      rw [fillValue_zero_settable _ _ _ st hset] at hfill
      exact absurd hfill (by simp)
    | succ k =>
      have hgen := RandomFiller_genType_ptr seed depth pp pn t st
        (by rw [ptrFactory_one seed h st]; simp)
      rw [ptrFactory_one seed h st] at hgen
      rw [fillValue_ptr_nil_done _ k pp pn t (Field fld) st _ none htyp hset hv hgen] at hfill
      simp only [Except.ok.injEq, Prod.mk.injEq] at hfill
      exact hfill.1.symm
  · rw [fillValue_unsettable _ k _ _ st (by simpa using hset), hv] at hfill
    simp only [Except.ok.injEq, Prod.mk.injEq] at hfill
    exact hfill.1.symm

theorem RandomFiller_struct_ptr_nil (seed : RandomSeed) (h : seed.nilRateDenom = 1)
    (depth fuel : Nat) (p n : String) (fields : List (StructField Ty)) (i : Nat)
    (fld : StructField Ty) (pp pn : String) (t : Ty) (val : Value) (st st' : RandState)
    (res : Val) (hi : fields[i]? = some fld) (hft : fld.Typ = Ty.ptr pp pn t)
    (hset : val.CanSet = true)
    (hfill : fillValue (RandomFiller seed depth) fuel (Ty.struct p n fields) val st =
      .ok (res, st')) :
    ∃ out, res = Val.struct out ∧ out[i]? = some Val.nil := by
  obtain ⟨k, s1, out, _, hres, hloop⟩ := fillValue_struct_fields _ fuel p n fields val st res
    st' hset (by rw [RandomFiller_genType_struct]; simp) hfill
  obtain ⟨x, st, accept, fv, st0, hx, hfld, hcase⟩ :=
    loopFields_index _ _ _ fields s1 out st' hloop i fld hi
  rw [(RandomFiller_facts seed depth).2.2.2.2, filterField_none] at hfld
  simp only [Except.ok.injEq, Prod.mk.injEq] at hfld
  obtain ⟨⟨ha, hfv⟩, _⟩ := hfld
  subst ha
  subst hfv
  refine ⟨out, hres, ?_⟩
  rcases hcase with ⟨_, st2, hf⟩ | ⟨hc, _⟩
  · rw [hx, RandomFiller_ptr_field seed h depth k fld pp pn t st0 st2 x hft hf]
  · exact absurd hc (by simp)

/-- C13: a random filler whose `nilRateDenom()` is 1 has a `Ptr` kind factory
that returns `(nil, Done)` in every state of the generator, without a fault;
`fillValue` at a nil pointer position returns nil after that one draw, so no
pointee is allocated; and in every struct that `Make` returns or `Fill`
leaves, a field of pointer type is nil. -/
theorem nil_probability_one (seed : RandomSeed) (h : seed.nilRateDenom = 1) (depth : Nat) :
    (∀ st, ptrFactory seed st = ((none, .Done), (Intn st 1).2) ∧
      (Intn st 1).2.fault = st.fault) ∧
    (∀ fuel p n t st,
      fillValue (RandomFiller seed depth) (fuel + 1) (Ty.ptr p n t)
        (settable (Ty.ptr p n t) Val.nil) st = .ok (Val.nil, (Intn st 1).2)) ∧
    (∀ fuel p n fields (i : Nat) (fld : StructField Ty) pp pn t st res st',
      fields[i]? = some fld → fld.Typ = Ty.ptr pp pn t →
      (Make (RandomFiller seed depth) fuel (Ty.struct p n fields) st = .ok (res, st') →
        ∃ out, res = Val.struct out ∧ out[i]? = some Val.nil) ∧
      (∀ fp fn x,
        Fill (RandomFiller seed depth) fuel
          (some (Ty.ptr fp fn (Ty.struct p n fields), Val.ptr x)) st = .ok (res, st') →
        ∃ out, res = Val.struct out ∧ out[i]? = some Val.nil)) := by
  refine ⟨?_, ?_, ?_⟩
  · intro st
    exact ⟨ptrFactory_one seed h st, by simp [Intn_one]⟩
  · intro fuel p n t st
    have hgen := RandomFiller_genType_ptr seed depth p n t st
      (by rw [ptrFactory_one seed h st]; simp)
    rw [ptrFactory_one seed h st] at hgen
    exact fillValue_ptr_nil_done _ fuel p n t _ st _ none rfl rfl rfl hgen
  · intro fuel p n fields i fld pp pn t st res st' hi hft
    refine ⟨?_, ?_⟩
    · intro hm
      exact RandomFiller_struct_ptr_nil seed h depth fuel p n fields i fld pp pn t
        ⟨Ty.struct p n fields, zero (Ty.struct p n fields), true, false⟩ st st' res hi hft
        rfl hm
    · intro fp fn x hf
      exact RandomFiller_struct_ptr_nil seed h depth fuel p n fields i fld pp pn t
        ⟨Ty.struct p n fields, x, true, false⟩ st st' res hi hft rfl hf

/-- Witness of C13: with the default seed changed to nil probability 1.0, a
nil `*string` position stays nil after one draw from the generator. -/
theorem nil_probability_one_witness :
    alwaysNilSeed.nilRateDenom = 1 ∧
    fillValue (RandomFiller alwaysNilSeed 1) 1 tPtrString (settable tPtrString Val.nil)
        (constState 5) = .ok (Val.nil, (Intn (constState 5) 1).2) :=
  ⟨rfl, (nil_probability_one alwaysNilSeed rfl 1).2.1 0 "" "" tString (constState 5)⟩

theorem Intn_pos (st : RandState) (n : Int) (h : 0 < n) :
    0 ≤ (Intn st n).1 ∧ (Intn st n).1 < n ∧ (Intn st n).2.fault = st.fault := by
  have hn : ¬ n ≤ 0 := by omega
  simp only [Intn, if_neg hn, RandState.next]
  exact ⟨Int.emod_nonneg _ (by omega), Int.emod_lt_of_pos _ h, trivial⟩

/-- C14: for a seed with `0 <= SliceMinimum < SliceCapacity` and every state
of the generator, the typed factory of the random filler applied to a slice
type returns outcome `Init` with a fresh slice of zero elements whose length
`l` satisfies `SliceMinimum <= l < SliceCapacity` and whose capacity is
`SliceCapacity`, after one draw and without a fault. -/
theorem slice_factory_bounds (seed : RandomSeed)
    (make : Ty → RandState → Interface × RandState) (p n : String) (elem : Ty)
    (st : RandState) (depth : Nat) (h0 : 0 ≤ seed.SliceMinimum)
    (h1 : seed.SliceMinimum < seed.SliceCapacity) :
    (∃ l : Nat,
      sliceMapFactory seed make (Ty.slice p n elem) st =
        ((some (Ty.slice p n elem,
            Val.slice (List.replicate l (zero elem)) seed.SliceCapacity.toNat), .Init),
          (Intn st (seed.SliceCapacity - seed.SliceMinimum)).2) ∧
      seed.SliceMinimum ≤ (l : Int) ∧ (l : Int) < seed.SliceCapacity ∧
      (seed.SliceCapacity.toNat : Int) = seed.SliceCapacity ∧
      (Intn st (seed.SliceCapacity - seed.SliceMinimum)).2.fault = st.fault) ∧
    (∃ mk, (RandomFiller seed depth).funcs = [sliceMapFactory seed mk]) := by
  refine ⟨?_, (RandomFiller_facts seed depth).2.2.2.1⟩
  obtain ⟨r0, r1, rf⟩ := Intn_pos st (seed.SliceCapacity - seed.SliceMinimum) (by omega)
  refine ⟨((Intn st (seed.SliceCapacity - seed.SliceMinimum)).1 + seed.SliceMinimum).toNat,
    ?_, ?_, ?_, ?_, rf⟩
  · have hm : MakeSlice elem
        ((Intn st (seed.SliceCapacity - seed.SliceMinimum)).1 + seed.SliceMinimum)
        seed.SliceCapacity =
        some (Val.slice (List.replicate
          ((Intn st (seed.SliceCapacity - seed.SliceMinimum)).1 + seed.SliceMinimum).toNat
          (zero elem)) seed.SliceCapacity.toNat) := by
      unfold MakeSlice
      rw [if_neg (by omega)]
    simp only [sliceMapFactory, RandomSeed.sliceCap, RandomSeed.sliceMin, hm]
  · rw [Int.toNat_of_nonneg (by omega)]
    omega
  · rw [Int.toNat_of_nonneg (by omega)]
    omega
  · exact Int.toNat_of_nonneg (by omega)

/-- Witness of C14: the default seed has bounds 0 and 8. -/
theorem slice_factory_bounds_witness :
    ∃ l : Nat,
      sliceMapFactory DefaultSeed (fun _ st => (none, st)) (Ty.slice "" "" tInt)
          (constState 5) =
        ((some (Ty.slice "" "" tInt,
            Val.slice (List.replicate l (zero tInt)) DefaultSeed.SliceCapacity.toNat), .Init),
          (Intn (constState 5) (DefaultSeed.SliceCapacity - DefaultSeed.SliceMinimum)).2) ∧
      DefaultSeed.SliceMinimum ≤ (l : Int) ∧ (l : Int) < DefaultSeed.SliceCapacity ∧
      (DefaultSeed.SliceCapacity.toNat : Int) = DefaultSeed.SliceCapacity ∧
      (Intn (constState 5) (DefaultSeed.SliceCapacity - DefaultSeed.SliceMinimum)).2.fault =
        (constState 5).fault :=
  (slice_factory_bounds DefaultSeed (fun _ st => (none, st)) "" "" tInt (constState 5) 0
    (by decide) (by decide)).1

theorem assignStep_nil_object (typ : Ty) (val : Value) (state : FactoryState)
    (hs : state ≠ .None) (hv : (val.Kind != Kind.Ptr || !val.IsNil) = true) :
    assignStep typ val none state = .error .panic := by
  simp only [assignStep, hs, ne_eq, not_false_eq_true, if_true, ValueOf, gotKind, Convert]
  rw [hv]
  rfl

theorem RandomFiller_nonnil_ptr (seed : RandomSeed) (h : seed.nilRateDenom = 1)
    (depth fuel : Nat) (p n : String) (t : Ty) (x : Val) (st : RandState) :
    fillValue (RandomFiller seed depth) (fuel + 1) (Ty.ptr p n t)
      (settable (Ty.ptr p n t) (Val.ptr x)) st = .error .panic := by
  have hgen := RandomFiller_genType_ptr seed depth p n t st
    (by rw [ptrFactory_one seed h st]; simp)
  rw [ptrFactory_one seed h st] at hgen
  exact fillValue_assign_error _ fuel _ _ st _ none .Done .panic rfl hgen
    (assignStep_nil_object _ _ _ (by simp) rfl)

/-- C17 (the code at the failing input): with nil probability 1.0 the `Ptr`
kind factory of the random filler returns the untyped nil with `Done` in every
state; at a settable pointer position that holds a non-nil pointer the
assignment step converts that nil and panics, so `fillValue` and `Fill` on a
pointer to such a pointer panic, for every unrolling depth, fuel, pointee type
and state of the generator.  The same happens at a position that is not a
pointer: an `Int` kind factory returning `(nil, Done)` makes `Fill` on a
`*int` panic. -/
theorem nil_object_converted (depth fuel : Nat) (p n : String) (t : Ty) (x : Val)
    (st : RandState) :
    (settable (Ty.ptr p n t) (Val.ptr x)).CanSet = true ∧
    ptrFactory alwaysNilSeed st = ((none, .Done), (Intn st 1).2) ∧
    assignStep (Ty.ptr p n t) (settable (Ty.ptr p n t) (Val.ptr x)) none .Done =
      .error .panic ∧
    fillValue (RandomFiller alwaysNilSeed depth) (fuel + 1) (Ty.ptr p n t)
      (settable (Ty.ptr p n t) (Val.ptr x)) st = .error .panic ∧
    Fill (RandomFiller alwaysNilSeed depth) (fuel + 1)
      (some (Ty.ptr "" "" (Ty.ptr p n t), Val.ptr (Val.ptr x))) st = .error .panic ∧
    nilIntFiller.genType tInt 0 = ((none, .Done), 1) ∧
    Fill nilIntFiller 1 (some (Ty.ptr "" "" tInt, Val.ptr (Val.int 7))) 0 = .error .panic :=
  ⟨rfl, ptrFactory_one alwaysNilSeed rfl st, assignStep_nil_object _ _ _ (by simp) rfl,
    RandomFiller_nonnil_ptr alwaysNilSeed rfl depth fuel p n t x st,
    RandomFiller_nonnil_ptr alwaysNilSeed rfl depth fuel p n t x st, rfl, rfl⟩

mutual
theorem Ty.beq_refl : ∀ t : Ty, Ty.beq t t = true
  | .basic _ _ _ => by simp [Ty.beq]
  | .ptr _ _ t => by simp [Ty.beq, Ty.beq_refl t]
  | .array _ _ _ t => by simp [Ty.beq, Ty.beq_refl t]
  | .slice _ _ t => by simp [Ty.beq, Ty.beq_refl t]
  | .map _ _ k t => by simp [Ty.beq, Ty.beq_refl k, Ty.beq_refl t]
  | .struct _ _ fs => by simp [Ty.beq, beqFields_refl fs]
theorem beqFields_refl : ∀ fs : List (StructField Ty), beqFields fs fs = true
  | [] => by simp [beqFields]
  | f :: fs => by simp [beqFields, Ty.beq_refl f.Typ, beqFields_refl fs]
end

theorem mapInsert_length (key elem : Val) (m : List (Val × Val)) :
    m.length ≤ (mapInsert key elem m).length ∧ (mapInsert key elem m).length ≤ m.length + 1 ∧
      0 < (mapInsert key elem m).length := by
  induction m with
  | nil => simp [mapInsert]
  | cons kv rest ih =>
    obtain ⟨k, e⟩ := kv
    unfold mapInsert
    split
    · simp
    · simp only [List.length_cons]
      omega

theorem mapInsert_mem (key elem : Val) (m : List (Val × Val)) (a b : Val)
    (h : (a, b) ∈ mapInsert key elem m) : (a, b) = (key, elem) ∨ (a, b) ∈ m := by
  induction m with
  | nil =>
    simp only [mapInsert, List.mem_singleton] at h
    exact Or.inl h
  | cons kv rest ih =>
    obtain ⟨k, e⟩ := kv
    unfold mapInsert at h
    split at h
    · rcases List.mem_cons.mp h with h1 | h1
      · exact Or.inl h1
      · exact Or.inr (List.mem_cons_of_mem _ h1)
    · rcases List.mem_cons.mp h with h1 | h1
      · exact Or.inr (by rw [h1]; exact List.mem_cons_self _ _)
      · rcases ih h1 with h2 | h2
        · exact Or.inl h2
        · exact Or.inr (List.mem_cons_of_mem _ h2)

theorem SetMapIndex_insert (kT vT : Ty) (m : List (Val × Val)) (x y : Val)
    (hx : hashableAt kT x = true) :
    SetMapIndex kT vT m (ValueOf (some (kT, x))) (ValueOf (some (vT, y))) =
      some (mapInsert x y m) := by
  simp [SetMapIndex, ValueOf, Ty.beq_refl, hx]

theorem roundState_fault (seed : RandomSeed) (make : Ty → RandState → Interface × RandState)
    (kT vT : Ty) (st : RandState) (hlen : 1 ≤ seed.MapLength)
    (hk : ∀ s, (make kT s).2.fault = s.fault) (hv : ∀ s, (make vT s).2.fault = s.fault)
    (r : Nat) :
    (roundState seed make kT vT st r).fault = st.fault ∧
    (Intn (roundState seed make kT vT st r) seed.mapLen).2.fault = st.fault := by
  induction r with
  | zero => exact ⟨rfl, (Intn_pos st seed.MapLength (by omega)).2.2⟩
  | succ r ih =>
    have h1 : (roundState seed make kT vT st (r + 1)).fault = st.fault := by
      simp only [roundState]
      rw [hv, hk]
      exact ih.2
    exact ⟨h1, ((Intn_pos _ seed.MapLength (by omega)).2.2).trans h1⟩

theorem mapLoop_trace (seed : RandomSeed) (make : Ty → RandState → Interface × RandState)
    (kT vT : Ty) (st : RandState) (hlen : 1 ≤ seed.MapLength)
    (hk : ∀ s, ∃ x, (make kT s).1 = some (kT, x) ∧ hashableAt kT x = true)
    (hv : ∀ s, ∃ y, (make vT s).1 = some (vT, y)) :
    ∀ (budget i : Nat) (m : List (Val × Val)),
      (i : Int) < seed.MapLength → seed.MapLength - 1 - i ≤ budget →
      ∃ (j : Nat) (entries : List (Val × Val)),
        mapLoop seed make kT vT budget i m (roundState seed make kT vT st i) =
          ((j : Int), entries, (Intn (roundState seed make kT vT st j) seed.mapLen).2) ∧
        i ≤ j ∧ (j : Int) < seed.MapLength ∧
        (∀ r, i ≤ r → r < j → (r : Int) < roundBound seed make kT vT st r) ∧
        ¬ ((j : Int) < roundBound seed make kT vT st j) ∧
        m.length ≤ entries.length ∧ entries.length ≤ m.length + (j - i) ∧
        (i < j → 0 < entries.length) ∧
        (∀ a b, (a, b) ∈ entries → (a, b) ∈ m ∨
          ∃ r, i ≤ r ∧ r < j ∧ roundKey seed make kT vT st r = some (kT, a) ∧
            roundElem seed make kT vT st r = some (vT, b)) := by
  intro budget
  induction budget with
  | zero =>
    intro i m hiL hb
    obtain ⟨r0, r1, _⟩ := Intn_pos (roundState seed make kT vT st i) seed.MapLength (by omega)
    have hn : ¬ (i : Int) < (Intn (roundState seed make kT vT st i) seed.mapLen).1 := by
      simp only [RandomSeed.mapLen]
      omega
    refine ⟨i, m, ?_, le_refl _, hiL, fun r h1 h2 => absurd h2 (by omega), hn, le_refl _,
      by omega, fun h => absurd h (by omega), fun a b h => Or.inl h⟩
    rw [mapLoop, if_neg hn]
  | succ b ih =>
    intro i m hiL hb
    obtain ⟨r0, r1, _⟩ := Intn_pos (roundState seed make kT vT st i) seed.MapLength (by omega)
    by_cases hlt : (i : Int) < (Intn (roundState seed make kT vT st i) seed.mapLen).1
    · obtain ⟨x, hx, hhash⟩ := hk (Intn (roundState seed make kT vT st i) seed.mapLen).2
      obtain ⟨y, hy⟩ := hv (make kT (Intn (roundState seed make kT vT st i) seed.mapLen).2).2
      have hlt2 : (i : Int) < (Intn (roundState seed make kT vT st i) seed.MapLength).1 := hlt
      obtain ⟨j, entries, he, hij, hjL, hrounds, hstop, hlen1, hlen2, _, hmem⟩ :=
        ih (i + 1) (mapInsert x y m) (by push_cast; omega) (by push_cast at hb ⊢; omega)
      obtain ⟨l1, l2, l3⟩ := mapInsert_length x y m
      refine ⟨j, entries, ?_, by omega, hjL, ?_, hstop, by omega, by omega,
        fun _ => by omega, ?_⟩
      · rw [mapLoop, if_pos hlt]
        simp only [hx, hy, SetMapIndex_insert kT vT m x y hhash]
        have hc : ((i : Int) + 1) = ((i + 1 : Nat) : Int) := by push_cast; rfl
        rw [hc]
        exact he
      · intro r h1 h2
        by_cases hr : r = i
        · subst hr
          exact hlt
        · exact hrounds r (by omega) h2
      · intro a c hac
        rcases hmem a c hac with h1 | ⟨r, h1, h2, h3, h4⟩
        · rcases mapInsert_mem x y m a c h1 with h5 | h5
          · simp only [Prod.mk.injEq] at h5
            refine Or.inr ⟨i, le_refl _, by omega, ?_, ?_⟩
            · rw [h5.1]; exact hx
            · rw [h5.2]; exact hy
          · exact Or.inl h5
        · exact Or.inr ⟨r, by omega, h2, h3, h4⟩
    · refine ⟨i, m, ?_, le_refl _, hiL, fun r h1 h2 => absurd h2 (by omega), hlt, le_refl _,
        by omega, fun h => absurd h (by omega), fun a b h => Or.inl h⟩
      rw [mapLoop, if_neg hlt]

theorem RandomFiller_genType_string_tail (seed : RandomSeed) (depth : Nat) (p n : String)
    (b : Basic) (hb : lastKind (kindFactories seed) (Basic.Kind b) none = none)
    (st : RandState) :
    (RandomFiller seed depth).genType (Ty.basic p n b) st = ((none, .None), st) := by
  obtain ⟨hinv, hname, hk, ⟨make, hf⟩, _⟩ := RandomFiller_facts seed depth
  rw [genType_eq_firstOutcome _ hinv]
  have hkt : kindTier (RandomFiller seed depth) (Ty.basic p n b) = [] := by
    simp only [kindTier, hk, Ty.Kind, hb]
    rfl
  simp only [candidates, hname, hkt, funcTier, hf, List.nil_append, List.map_cons,
    List.map_nil, firstOutcome, sliceMapFactory]
  simp

theorem fillValue_basic_state_none {σ : Type} (g : Filler σ) (fuel : Nat) (p n : String)
    (b : Basic) (val : Value) (s s1 : σ) (obj : Interface) (hset : val.CanSet = true)
    (hg : g.genType (Ty.basic p n b) s = ((obj, .None), s1)) :
    fillValue g (fuel + 1) (Ty.basic p n b) val s = .ok (val.v, s1) := by
  rw [fillValue]
  simp only [hset, hg, assignStep, kindSwitch]
  simp

theorem RandomFiller_make_any (seed : RandomSeed) (depth fuel : Nat) (st : RandState) :
    makeInterface (RandomFiller seed depth) (fuel + 1) tAny st = (none, st) := by
  unfold makeInterface
  rw [Make_eq_fillValue]
  have hg := RandomFiller_genType_string_tail seed depth "" "" .Interface rfl st
  have hf := fillValue_basic_state_none (RandomFiller seed depth) fuel "" "" .Interface
    ⟨tAny, zero tAny, true, false⟩ st st none rfl hg
  have e : fillValue (RandomFiller seed depth) (fuel + 1) tAny ⟨tAny, zero tAny, true, false⟩
      st = .ok (Val.nil, st) := hf
  rw [e]
  rfl

theorem readFull_fault (st : RandState) (n : Nat) : (readFull st n).2.fault = st.fault := by
  unfold readFull
  split
  · rfl
  · split <;> rfl

theorem stringFactory_cases (seed : RandomSeed)
    (hs : 0 < seed.StringCapacity - seed.StringMinimum) (hm : 0 ≤ seed.StringMinimum)
    (st : RandState) :
    (stringFactory seed st).2.fault = st.fault ∧
    ((∃ x, (stringFactory seed st).1 = (some (tString, x), .Done)) ∨
      (stringFactory seed st).1.2 = .None) := by
  obtain ⟨r0, r1, rf⟩ := Intn_pos st (seed.StringCapacity - seed.StringMinimum) hs
  have hl : ¬ (Intn st (seed.stringCap - seed.stringMin)).1 + seed.stringMin < 0 := by
    simp only [RandomSeed.stringCap, RandomSeed.stringMin]
    omega
  have hfl := readFull_fault (Intn st (seed.stringCap - seed.stringMin)).2
    ((Intn st (seed.stringCap - seed.stringMin)).1 + seed.stringMin).toNat
  unfold stringFactory
  simp only [if_neg hl]
  rcases hr : readFull (Intn st (seed.stringCap - seed.stringMin)).2
      ((Intn st (seed.stringCap - seed.stringMin)).1 + seed.stringMin).toNat with ⟨ob, st2⟩
  rw [hr] at hfl
  cases ob with
  | none => exact ⟨hfl.trans rf, Or.inr rfl⟩
  | some b => exact ⟨hfl.trans rf, Or.inl ⟨_, rfl⟩⟩

theorem RandomFiller_make_string (seed : RandomSeed)
    (hs : 0 < seed.StringCapacity - seed.StringMinimum) (hm : 0 ≤ seed.StringMinimum)
    (depth fuel : Nat) (st : RandState) :
    (∃ x, (makeInterface (RandomFiller seed depth) (fuel + 1) tString st).1 =
      some (tString, x) ∧ hashableAt tString x = true) ∧
    (makeInterface (RandomFiller seed depth) (fuel + 1) tString st).2.fault = st.fault := by
  obtain ⟨hinv, hname, hk, ⟨make, hf⟩, _⟩ := RandomFiller_facts seed depth
  obtain ⟨hfault, hcase⟩ := stringFactory_cases seed hs hm st
  have hkb : (RandomFiller seed depth).kindBinding tString.Kind = some (stringFactory seed) := by
    rw [hk]
    rfl
  unfold makeInterface
  rw [Make_eq_fillValue]
  rcases hcase with ⟨x, hx⟩ | hnone
  · have hgen : (RandomFiller seed depth).genType tString st =
        ((some (tString, x), .Done), (stringFactory seed st).2) := by
      rw [genType_kind_tier _ hinv tString (stringFactory seed) st (hname _) hkb
        (by rw [hx]; simp), ← hx]
    have e := fillValue_basic_done (RandomFiller seed depth) fuel "" "string" .String
      ⟨tString, zero tString, true, false⟩ st _ x rfl rfl hgen
    have e2 : fillValue (RandomFiller seed depth) (fuel + 1) tString
        ⟨tString, zero tString, true, false⟩ st = .ok (x, (stringFactory seed st).2) := e
    rw [e2]
    exact ⟨⟨x, by simp [toInterface, tString, Ty.Kind, Basic.Kind], rfl⟩, hfault⟩
  · have hgen : (RandomFiller seed depth).genType tString st =
        ((none, .None), (stringFactory seed st).2) := by
      rw [genType_eq_firstOutcome _ hinv]
      have hkt : kindTier (RandomFiller seed depth) tString = [stringFactory seed] := by
        simp [kindTier, hkb]
      simp only [candidates, hname, hkt, funcTier, hf, List.nil_append, List.map_cons,
        List.map_nil, List.cons_append]
      rw [firstOutcome_cons_none _ _ _ hnone]
      simp [firstOutcome, sliceMapFactory, tString]
    have e := fillValue_basic_state_none (RandomFiller seed depth) fuel "" "string" .String
      ⟨tString, zero tString, true, false⟩ st _ none rfl hgen
    have e2 : fillValue (RandomFiller seed depth) (fuel + 1) tString
        ⟨tString, zero tString, true, false⟩ st =
        .ok (zero tString, (stringFactory seed st).2) := e
    rw [e2]
    exact ⟨⟨zero tString, by simp [toInterface, tString, Ty.Kind, Basic.Kind], rfl⟩, hfault⟩

theorem mapLoop_nil_key (seed : RandomSeed) (make : Ty → RandState → Interface × RandState)
    (kT vT : Ty) (b : Nat) (m : List (Val × Val)) (st : RandState)
    (hr : 0 < (Intn st seed.mapLen).1)
    (hk : (make kT (Intn st seed.mapLen).2).1 = none) :
    mapLoop seed make kT vT (b + 1) 0 m st =
      (0, m, (make vT (make kT (Intn st seed.mapLen).2).2).2.raise .panic) := by
  rw [mapLoop, if_pos hr]
  simp only [hk, ValueOf, SetMapIndex]

theorem raise_fault_of_none (st : RandState) (f : Fault) (h : st.fault = none) :
    (st.raise f).fault = some f := by
  simp [RandState.raise, h]

/-- Counterexample to C15: the default seed (`MapLength` 8), the map type
`map[interface{}]interface{}` and a generator whose every output is 1.  The
typed factory of `RandomFiller` is `sliceMapFactory` with the nested `Make` of
the filler; the loop enters its first round (`Intn(8)` is 1), `Make` on the key
type returns the nil interface as it does in every state, and `SetMapIndex`
with the zero `Value` as key panics: the factory ends with a panic after no
insertion instead of returning `Init` with a map. -/
theorem map_factory_counterexample :
    1 ≤ DefaultSeed.MapLength ∧ (constState 1).fault = none ∧
    (RandomFiller DefaultSeed 2).funcs =
      [sliceMapFactory DefaultSeed (makeInterface (RandomFiller DefaultSeed 1) 1)] ∧
    0 < (Intn (constState 1) DefaultSeed.mapLen).1 ∧
    (∀ st, makeInterface (RandomFiller DefaultSeed 1) 1 tAny st = (none, st)) ∧
    SetMapIndex tAny tAny [] (ValueOf none) (ValueOf none) = none ∧
    mapLoop DefaultSeed (makeInterface (RandomFiller DefaultSeed 1) 1) tAny tAny
      DefaultSeed.mapLen.toNat 0 [] (constState 1) =
      (0, [], (Intn (constState 1) DefaultSeed.mapLen).2.raise .panic) ∧
    (sliceMapFactory DefaultSeed (makeInterface (RandomFiller DefaultSeed 1) 1) tAnyMap
      (constState 1)).2.fault = some Fault.panic := by
  have hr : 0 < (Intn (constState 1) DefaultSeed.mapLen).1 := by decide
  have hany : ∀ st, makeInterface (RandomFiller DefaultSeed 1) 1 tAny st = (none, st) :=
    fun st => RandomFiller_make_any DefaultSeed 1 0 st
  have hloop : mapLoop DefaultSeed (makeInterface (RandomFiller DefaultSeed 1) 1) tAny tAny
      DefaultSeed.mapLen.toNat 0 [] (constState 1) =
      (0, [], (Intn (constState 1) DefaultSeed.mapLen).2.raise .panic) := by
    have e := mapLoop_nil_key DefaultSeed (makeInterface (RandomFiller DefaultSeed 1) 1)
      tAny tAny 7 [] (constState 1) hr (by rw [hany])
    rw [hany, hany] at e
    exact e
  refine ⟨by decide, rfl, (randomRegistry_facts DefaultSeed _).2.2.2.1, hr, hany, rfl, hloop,
    ?_⟩
  have e : (sliceMapFactory DefaultSeed (makeInterface (RandomFiller DefaultSeed 1) 1) tAnyMap
      (constState 1)).2 =
      (mapLoop DefaultSeed (makeInterface (RandomFiller DefaultSeed 1) 1) tAny tAny
        DefaultSeed.mapLen.toNat 0 [] (constState 1)).2.2 := rfl
  rw [e, hloop]
  exact raise_fault_of_none _ _ rfl

/-- C15 (amended): for every seed with `MapLength >= 1`, every state of the
generator and every map type such that, in every state, the nested `Make` on
the key type returns a non-nil object of the key type that hashes, the nested
`Make` on the value type returns a non-nil object of the value type, and
neither raises a fault.  The typed factory of the random filler then runs
exactly `j` rounds, where `j < MapLength` is the first `i` at which the bound
`Intn(MapLength)` drawn for round `i` is not above `i`; round `r` inserts the
key and element that `Make` built in that round; and the factory returns
outcome `Init` with a non-nil map of at most `j` entries, not empty when
`j >= 1`, every entry of which is the key and element of one of the rounds,
without a fault.  The round budget of the embedding is not exhausted. -/
theorem map_factory_bounds (seed : RandomSeed)
    (make : Ty → RandState → Interface × RandState) (p n : String) (kT vT : Ty)
    (st : RandState) (hlen : 1 ≤ seed.MapLength)
    (hk : ∀ s, (∃ x, (make kT s).1 = some (kT, x) ∧ hashableAt kT x = true) ∧
      (make kT s).2.fault = s.fault)
    (hv : ∀ s, (∃ y, (make vT s).1 = some (vT, y)) ∧ (make vT s).2.fault = s.fault) :
    ∃ (j : Nat) (entries : List (Val × Val)),
      sliceMapFactory seed make (Ty.map p n kT vT) st =
        ((some (Ty.map p n kT vT, Val.map entries), .Init),
          (Intn (roundState seed make kT vT st j) seed.mapLen).2) ∧
      (j : Int) < seed.MapLength ∧
      (∀ r, r < j → (r : Int) < roundBound seed make kT vT st r) ∧
      ¬ ((j : Int) < roundBound seed make kT vT st j) ∧
      entries.length ≤ j ∧ (0 < j → 0 < entries.length) ∧
      (∀ a b, (a, b) ∈ entries →
        ∃ r, r < j ∧ roundKey seed make kT vT st r = some (kT, a) ∧
          roundElem seed make kT vT st r = some (vT, b)) ∧
      (Intn (roundState seed make kT vT st j) seed.mapLen).2.fault = st.fault := by
  obtain ⟨j, entries, he, _, hjL, hrounds, hstop, _, hlen2, hpos, hmem⟩ :=
    mapLoop_trace seed make kT vT st hlen (fun s => (hk s).1) (fun s => (hv s).1)
      seed.mapLen.toNat 0 [] (by push_cast; omega)
      (by simp only [RandomSeed.mapLen]; push_cast; omega)
  refine ⟨j, entries, ?_, hjL, fun r hr => hrounds r (Nat.zero_le _) hr, hstop,
    by simpa using hlen2, hpos, ?_,
    (roundState_fault seed make kT vT st hlen (fun s => (hk s).2) (fun s => (hv s).2) j).2⟩
  · have he' : mapLoop seed make kT vT seed.mapLen.toNat 0 [] st =
        ((j : Int), entries, (Intn (roundState seed make kT vT st j) seed.mapLen).2) := he
    simp only [sliceMapFactory, he']
  · intro a b hab
    rcases hmem a b hab with h | ⟨r, _, h2, h3, h4⟩
    · exact absurd h (by simp)
    · exact ⟨r, h2, h3, h4⟩

/-- Witness of C15 (amended): the default seed with the nested `Make` of the
random filler on the map type `map[string]string`. -/
theorem map_factory_bounds_witness :
    1 ≤ DefaultSeed.MapLength ∧
    ∃ (j : Nat) (entries : List (Val × Val)),
      sliceMapFactory DefaultSeed (makeInterface (RandomFiller DefaultSeed 1) 1) tMap
          (constState 3) =
        ((some (tMap, Val.map entries), .Init),
          (Intn (roundState DefaultSeed (makeInterface (RandomFiller DefaultSeed 1) 1)
            tString tString (constState 3) j) DefaultSeed.mapLen).2) ∧
      (j : Int) < DefaultSeed.MapLength ∧ entries.length ≤ j ∧ (0 < j → 0 < entries.length) :=
  ⟨by decide,
   (fun ⟨j, entries, h1, h2, _, _, h5, h6, _⟩ => ⟨j, entries, h1, h2, h5, h6⟩)
    (map_factory_bounds DefaultSeed (makeInterface (RandomFiller DefaultSeed 1) 1) "" ""
      tString tString (constState 3) (by decide)
      (fun s => RandomFiller_make_string DefaultSeed (by decide) (by decide) 1 0 s)
      (fun s => ⟨(fun ⟨x, hx, _⟩ => ⟨x, hx⟩)
          (RandomFiller_make_string DefaultSeed (by decide) (by decide) 1 0 s).1,
        (RandomFiller_make_string DefaultSeed (by decide) (by decide) 1 0 s).2⟩))⟩

end filler
